import Mathlib

/-!
# Powder refresh-ratio model (`src/markov-model.js`)

A shallow embedding of the numerical core of `MarkovPowderModel`: the dense
linear-algebra helpers, the closed-form steady state of the five-state aging
chain, the quality index, the bisection search for the refresh ratio, the cost
comparison of the refresh strategies and the validation of the parameters.

The source is read twice.  In the first reading numbers are exact rationals:
every JavaScript `number` is the rational its decimal literal denotes and the
arithmetic operators are the exact field operations, so the statements about
these definitions are statements in exact arithmetic.  In the second reading,
the namespace `Double`, numbers are IEEE 754 binary64 values (`Binary64`) and
every literal and every operation is rounded as the program rounds it; those
definitions are evaluated at concrete inputs, where rounding, overflow or
`NaN` decide what the program returns.
Arrays are lists; a `throw` is `Except.error` carrying the message.
-/

namespace MarkovPowderModel

deriving instance DecidableEq for Except

/-- A dense matrix, as an array of rows. -/
abbrev Mat := List (List ℚ)

/-- The read `A[i][j]`.  Every read made by the functions below is in range
when they are given the square matrices the model builds; a read out of range
(`undefined` in the source) is given the value `0`. -/
def entry (A : Mat) (i j : Nat) : ℚ := (A.getD i []).getD j 0

/-- The field `this.P`: transition matrix of the five aging states. -/
def P : Mat :=
  [[0.62, 0.33, 0.04, 0.01, 0.00],
   [0.00, 0.67, 0.26, 0.06, 0.01],
   [0.00, 0.00, 0.72, 0.22, 0.06],
   [0.00, 0.00, 0.00, 0.77, 0.23],
   [0.00, 0.00, 0.00, 0.00, 1.00]]

/-- The field `this.w`: quality weight of each aging state. -/
def w : List ℚ := [1.0, 0.9, 0.7, 0.4, 0.0]

/-- `matrixSubtract(A, B)`: `A.map((row, i) => row.map((val, j) => val - B[i][j]))`. -/
def matrixSubtract (A B : Mat) : Mat :=
  A.enum.map fun (i, row) => row.enum.map fun (j, val) => val - entry B i j

/-- `scalarMultiply(scalar, A)`: `A.map(row => row.map(val => scalar * val))`. -/
def scalarMultiply (scalar : ℚ) (A : Mat) : Mat :=
  A.map fun row => row.map fun val => scalar * val

/-- `identityMatrix(n)`: entry `(i, j)` is `i === j ? 1 : 0`. -/
def identityMatrix (n : Nat) : Mat :=
  (List.range n).map fun i => (List.range n).map fun j => if i = j then 1 else 0

/-- Message of the error thrown by `matrixInverse`. -/
def singularMessage : String := "Matrix is singular or nearly singular"

/-- The pivot search of `matrixInverse` at column `i`: `maxRow` starts at `i`
and the loop over `k = i + 1, ..., n - 1` moves it to `k` whenever
`|augmented[k][i]| > |augmented[maxRow][i]|`. -/
def findPivot (n : Nat) (augmented : Mat) (i : Nat) : Nat :=
  (List.range' (i + 1) (n - (i + 1))).foldl
    (fun maxRow k => if |entry augmented k i| > |entry augmented maxRow i| then k else maxRow) i

/-- The destructuring swap
`[augmented[i], augmented[maxRow]] = [augmented[maxRow], augmented[i]]`:
both rows are read first, then `augmented[i]` and `augmented[maxRow]` are
written in that order. -/
def swapRows (augmented : Mat) (i maxRow : Nat) : Mat :=
  (augmented.set i (augmented.getD maxRow [])).set maxRow (augmented.getD i [])

/-- The loop `for j < 2n: augmented[i][j] /= pivot` on row `i`. -/
def scalePivotRow (n : Nat) (augmented : Mat) (i : Nat) (pivot : ℚ) : Mat :=
  augmented.set i
    ((augmented.getD i []).enum.map fun (j, val) => if j < 2 * n then val / pivot else val)

/-- The loop `for k < n, k !== i`: with `factor = augmented[k][i]` read once,
`augmented[k][j] -= factor * augmented[i][j]` for `j < 2n`.  Row `i` is not
written by this loop, so every row is reduced by the same pivot row. -/
def eliminateColumn (n : Nat) (augmented : Mat) (i : Nat) : Mat :=
  augmented.enum.map fun (k, row) =>
    if k < n ∧ k ≠ i then
      row.enum.map fun (j, val) =>
        if j < 2 * n then val - entry augmented k i * entry augmented i j else val
    else row

/-- One pass of the outer loop of `matrixInverse`, for column `i`: pivot
search, row swap, the singularity check, scaling of the pivot row and
elimination of the column in every other row. -/
def eliminationStep (n : Nat) (augmented : Mat) (i : Nat) : Except String Mat :=
  let maxRow := findPivot n augmented i
  let augmented := swapRows augmented i maxRow
  if |entry augmented i i| < 1e-10 then
    Except.error singularMessage
  else
    let pivot := entry augmented i i
    let augmented := scalePivotRow n augmented i pivot
    Except.ok (eliminateColumn n augmented i)

/-- `matrixInverse(A)`: Gauss-Jordan elimination with partial pivoting on the
augmented matrix `[A | I]`; the result is the right half, `row.slice(n)`. -/
def matrixInverse (A : Mat) : Except String Mat := do
  let n := A.length
  let augmented : Mat := A.enum.map fun (i, row) => row ++ (identityMatrix n).getD i []
  let augmented ← (List.range n).foldlM (eliminationStep n) augmented
  pure (augmented.map fun row => row.drop n)

/-- `calculateSteadyState(alpha)`: `alpha * delta0 * P * [I - (1 - alpha) P]^(-1)`,
with the two vector-matrix products written as the source's accumulating
loops. -/
def calculateSteadyState (alpha : ℚ) : Except String (List ℚ) := do
  let n := P.length
  let delta0 : List ℚ := [1, 0, 0, 0, 0]
  let oneMinusAlphaP := scalarMultiply (1 - alpha) P
  let I := identityMatrix n
  let IminusP := matrixSubtract I oneMinusAlphaP
  let inverseMatrix ← matrixInverse IminusP
  let delta0P : List ℚ := (List.range n).map fun j =>
    (List.range n).foldl (fun acc k => acc + delta0.getD k 0 * entry P k j) 0
  pure ((List.range n).map fun j =>
    (List.range n).foldl (fun acc k => acc + delta0P.getD k 0 * entry inverseMatrix k j) 0
      * alpha)

/-- `calculateQuality(piStock)`: `w.reduce((sum, wi, i) => sum + wi * piStock[i], 0)`. -/
def calculateQuality (piStock : List ℚ) : ℚ :=
  w.enum.foldl (fun sum (p : Nat × ℚ) => sum + p.2 * piStock.getD p.1 0) 0

/-- The constant `maxIterations` of `optimizeVirginRatio`. -/
def maxIterations : Nat := 50

/-- The constraint test of the bisection loop at a steady state. -/
def constraintsMet (qualityThreshold degradedLimit : ℚ) (piStock : List ℚ) : Bool :=
  decide (calculateQuality piStock ≥ qualityThreshold ∧ piStock.getD 4 0 ≤ degradedLimit)

/-- The variables of the bisection loop. -/
structure Bracket where
  alphaMin : ℚ
  alphaMax : ℚ
  iterations : Nat
deriving DecidableEq

/-- One pass of the body of the `while` loop of `optimizeVirginRatio`: the
steady state at the midpoint, the constraint test, and the update of the
bracket and of `iterations`. -/
def bisectPass (qualityThreshold degradedLimit : ℚ) (s : Bracket) : Except String Bracket := do
  let alphaMid := (s.alphaMin + s.alphaMax) / 2
  let piStock ← calculateSteadyState alphaMid
  if constraintsMet qualityThreshold degradedLimit piStock then
    pure { alphaMin := s.alphaMin, alphaMax := alphaMid, iterations := s.iterations + 1 }
  else
    pure { alphaMin := alphaMid, alphaMax := s.alphaMax, iterations := s.iterations + 1 }

/-- The `while` loop of `optimizeVirginRatio`.  The first argument bounds the
number of passes; every pass adds one to `iterations` and the loop condition
requires `iterations < maxIterations`, so `maxIterations` passes are always
enough (see `bisect_exit`). -/
def bisect (qualityThreshold degradedLimit tolerance : ℚ) : Nat → Bracket → Except String Bracket
  | 0, s => pure s
  | fuel + 1, s =>
    if s.alphaMax - s.alphaMin > tolerance ∧ s.iterations < maxIterations then do
      let s ← bisectPass qualityThreshold degradedLimit s
      bisect qualityThreshold degradedLimit tolerance fuel s
    else pure s

/-- The record returned by `optimizeVirginRatio`. -/
structure OptimizationResult where
  alphaOptimal : ℚ
  piStock : List ℚ
  quality : ℚ
  degradedFraction : ℚ
  iterations : Nat
  converged : Bool
deriving DecidableEq

/-- `optimizeVirginRatio(packingDensity, qualityThreshold, degradedLimit, tolerance)`;
the defaults `0.60`, `0.12` and `0.001` of the last three parameters are passed
by the caller. -/
def optimizeVirginRatio (packingDensity qualityThreshold degradedLimit tolerance : ℚ) :
    Except String OptimizationResult := do
  let s ← bisect qualityThreshold degradedLimit tolerance maxIterations
    { alphaMin := packingDensity, alphaMax := 1.0, iterations := 0 }
  let alphaOpt := s.alphaMax
  let piStockOpt ← calculateSteadyState alphaOpt
  pure
    { alphaOptimal := alphaOpt
      piStock := piStockOpt
      quality := calculateQuality piStockOpt
      degradedFraction := piStockOpt.getD 4 0
      iterations := s.iterations
      converged := decide (s.iterations < maxIterations) }

/-- Message of the `TypeError` raised when a property of `undefined` is read. -/
def typeErrorMessage : String := "TypeError: Cannot read properties of undefined"

/-- The read `B[k]` of a row that is then indexed: `B[k][j]` throws a
`TypeError` when `B[k]` is `undefined`. -/
def readRow (B : Mat) (k : Nat) : Except String (List ℚ) :=
  match B[k]? with
  | some row => Except.ok row
  | none => Except.error typeErrorMessage

/-- `matrixMultiply(A, B)`: `rowsA = A.length`, `colsA = A[0].length`,
`colsB = B[0].length`, and `result[i][j]` accumulates `A[i][k] * B[k][j]` over
`k < colsA`.  No shape is compared; what fails is a read of a property of
`undefined`: `A[0].length`, `B[0].length` or `B[k][j]` with `k ≥ B.length`. -/
def matrixMultiply (A B : Mat) : Except String Mat := do
  let rowsA := A.length
  let colsA := (← readRow A 0).length
  let colsB := (← readRow B 0).length
  (List.range rowsA).mapM' fun i =>
    (List.range colsB).mapM' fun j =>
      (List.range colsA).foldlM
        (fun acc k => do
          let rowB ← readRow B k
          pure (acc + entry A i k * rowB.getD j 0)) 0

/-- One strategy of `calculateEconomics`. -/
structure Scenario where
  alpha : ℚ
  virginPerBuild : ℚ
  annualMass : ℚ
  annualCost : ℚ
deriving DecidableEq

/-- The JavaScript quotient `a / b` as a number that may fail to be finite:
`none` stands for `NaN` or an infinity, the value of a division by `0`. -/
def divide (a b : ℚ) : Option ℚ := if b = 0 then none else some (a / b)

/-- One savings record of `calculateEconomics`; `percentage` is `none` when it is
not a finite number. -/
structure Savings where
  mass : ℚ
  cost : ℚ
  percentage : Option ℚ
deriving DecidableEq

/-- The record returned by `calculateEconomics`. -/
structure Economics where
  optimal : Scenario
  formlabs30 : Scenario
  industrial50 : Scenario
  savingsVsFormlabs : Savings
  savingsVsIndustrial : Savings
deriving DecidableEq

/-- `calculateEconomics(chamberVolume, packingDensity, buildsPerYear, powderCost,
alphaOptimal)`; `packingDensity` is not used by the source. -/
def calculateEconomics (chamberVolume _packingDensity buildsPerYear powderCost alphaOptimal : ℚ) :
    Economics :=
  let powderDensity : ℚ := 0.47
  let virginPerBuild := alphaOptimal * chamberVolume
  let virginMassPerBuild := virginPerBuild * powderDensity
  let annualVirginMass := virginMassPerBuild * buildsPerYear
  let annualCost := annualVirginMass * powderCost
  let optimal : Scenario :=
    { alpha := alphaOptimal
      virginPerBuild := virginPerBuild
      annualMass := annualVirginMass
      annualCost := annualCost }
  let formlabs30 : Scenario :=
    { alpha := 0.30
      virginPerBuild := 0.30 * chamberVolume
      annualMass := 0.30 * chamberVolume * powderDensity * buildsPerYear
      annualCost := 0.30 * chamberVolume * powderDensity * buildsPerYear * powderCost }
  let industrial50 : Scenario :=
    { alpha := 0.50
      virginPerBuild := 0.50 * chamberVolume
      annualMass := 0.50 * chamberVolume * powderDensity * buildsPerYear
      annualCost := 0.50 * chamberVolume * powderDensity * buildsPerYear * powderCost }
  { optimal := optimal
    formlabs30 := formlabs30
    industrial50 := industrial50
    savingsVsFormlabs :=
      { mass := formlabs30.annualMass - optimal.annualMass
        cost := formlabs30.annualCost - optimal.annualCost
        percentage :=
          (divide (formlabs30.annualCost - optimal.annualCost) formlabs30.annualCost).map
            (· * 100) }
    savingsVsIndustrial :=
      { mass := industrial50.annualMass - optimal.annualMass
        cost := industrial50.annualCost - optimal.annualCost
        percentage :=
          (divide (industrial50.annualCost - optimal.annualCost) industrial50.annualCost).map
            (· * 100) } }

/-! ### JavaScript numbers: IEEE 754 binary64

The definitions above read every number as the rational it denotes.  The
definitions below read the same source with the arithmetic the program runs:
every literal and the result of every operation are rounded to binary64, with
overflow to infinity and with `NaN`. -/

/-- A JavaScript `number`: an IEEE 754 binary64 value.  A finite value is kept as
the rational it denotes; the sign of a zero is not kept. -/
inductive Binary64 where
  | nan : Binary64
  | posInf : Binary64
  | negInf : Binary64
  | fin (q : ℚ) : Binary64
deriving DecidableEq

namespace Binary64

/-- The integer nearest to `n / d`, the even one of the two when `n / d` is half
way between them. -/
def nearestEven (n d : Nat) : Nat :=
  let f := Nat.div n d
  let r := Nat.mul 2 (Nat.mod n d)
  if Nat.ble d r then
    if Nat.ble r d then Nat.add f (Nat.mod f 2) else Nat.add f 1
  else f

/-- One step of the bisection for `log2`: `e + s` when `2 ^ (e + s) ≤ n`, that is
when the quotient `n / 2 ^ (e + s)` is not `0`, and `e` otherwise. -/
def log2Step (s n e : Nat) : Nat :=
  Nat.add e (Nat.mul s (Nat.sub 1 (Nat.sub 1 (Nat.div n (Nat.pow 2 (Nat.add e s))))))

/-- The exponent `e` with `2 ^ e ≤ n < 2 ^ (e + 1)`, for `1 ≤ n < 2 ^ 8192`; `0` for
`n = 0`. -/
def log2 (n : Nat) : Nat :=
  log2Step 1 n (log2Step 2 n (log2Step 4 n (log2Step 8 n (log2Step 16 n (log2Step 32 n
    (log2Step 64 n (log2Step 128 n (log2Step 256 n (log2Step 512 n (log2Step 1024 n
      (log2Step 2048 n (log2Step 4096 n 0))))))))))))

/-- The binary64 value of the positive real `n / d`: round to nearest, ties to
even.  Every finite binary64 value is a multiple of `2 ^ (-1074)`; a value `x`
with `2 ^ e ≤ x < 2 ^ (e + 1)` is a multiple of `2 ^ (b - 1074)` where
`b = max (e + 1022) 0` (53 significant bits, least exponent `-1022`).  Here `b`
is the exponent of the integer part of `n * 2 ^ 1022 / d`, the rounded value is
`m * 2 ^ (-1074)`, and the result is infinite when it reaches `2 ^ 1024`. -/
def roundPos (n d : Nat) : Binary64 :=
  let b := log2 (Nat.div (Nat.mul n (Nat.pow 2 1022)) d)
  let m := Nat.mul (nearestEven (Nat.mul n (Nat.pow 2 1074)) (Nat.mul d (Nat.pow 2 b)))
    (Nat.pow 2 b)
  if Nat.ble (Nat.pow 2 2098) m then posInf else fin ((m : ℚ) / ((Nat.pow 2 1074 : Nat) : ℚ))

/-- The value `-a`. -/
def neg : Binary64 → Binary64
  | nan => nan
  | posInf => negInf
  | negInf => posInf
  | fin q => fin (-q)

/-- The binary64 value of a real number given as a rational: what a decimal
literal denotes, and what an arithmetic operation returns for the exact result
of its finite operands. -/
def round (q : ℚ) : Binary64 :=
  if q = 0 then fin 0
  else if 0 < q then roundPos q.num.natAbs q.den
  else neg (roundPos q.num.natAbs q.den)

/-- The sum `a + b`. -/
def add : Binary64 → Binary64 → Binary64
  | nan, _ => nan
  | _, nan => nan
  | posInf, negInf => nan
  | negInf, posInf => nan
  | posInf, _ => posInf
  | _, posInf => posInf
  | negInf, _ => negInf
  | _, negInf => negInf
  | fin a, fin b => round (a + b)

/-- The difference `a - b`. -/
def sub (a b : Binary64) : Binary64 := add a (neg b)

/-- Sign of a value: `1`, `0` or `-1`, and `0` for `nan`. -/
def sign : Binary64 → Int
  | nan => 0
  | posInf => 1
  | negInf => -1
  | fin q => if 0 < q then 1 else if q < 0 then -1 else 0

/-- The infinity of a given sign; `nan` for the sign `0`. -/
def ofSign (s : Int) : Binary64 :=
  if 0 < s then posInf else if s < 0 then negInf else nan

/-- The product `a * b`; an infinity times zero is `nan`. -/
def mul : Binary64 → Binary64 → Binary64
  | nan, _ => nan
  | _, nan => nan
  | fin a, fin b => round (a * b)
  | a, b => ofSign (sign a * sign b)

/-- The quotient `a / b`; `0 / 0` and the quotient of two infinities are `nan`.
A zero divisor counts as positive, the sign of a zero not being kept. -/
def div : Binary64 → Binary64 → Binary64
  | nan, _ => nan
  | _, nan => nan
  | fin a, fin b => if b = 0 then ofSign (sign (fin a)) else round (a / b)
  | fin _, _ => fin 0
  | a, fin b => if b < 0 then neg a else a
  | _, _ => nan

/-- The value `Math.abs(a)`. -/
def abs : Binary64 → Binary64
  | nan => nan
  | posInf => posInf
  | negInf => posInf
  | fin q => fin |q|

/-- The comparison `a < b`, false when an operand is `nan`. -/
def lt : Binary64 → Binary64 → Bool
  | nan, _ => false
  | _, nan => false
  | _, negInf => false
  | posInf, _ => false
  | negInf, _ => true
  | _, posInf => true
  | fin a, fin b => decide (a < b)

/-- The comparison `a <= b`, false when an operand is `nan`. -/
def le : Binary64 → Binary64 → Bool
  | nan, _ => false
  | _, nan => false
  | negInf, _ => true
  | _, posInf => true
  | _, negInf => false
  | posInf, _ => false
  | fin a, fin b => decide (a ≤ b)

instance : Add Binary64 := ⟨add⟩

instance : Sub Binary64 := ⟨sub⟩

instance : Mul Binary64 := ⟨mul⟩

instance : Div Binary64 := ⟨div⟩

instance : Neg Binary64 := ⟨neg⟩

instance : LT Binary64 := ⟨fun a b => lt a b = true⟩

instance : LE Binary64 := ⟨fun a b => le a b = true⟩

instance (a b : Binary64) : Decidable (a < b) := inferInstanceAs (Decidable (lt a b = true))

instance (a b : Binary64) : Decidable (a ≤ b) := inferInstanceAs (Decidable (le a b = true))

instance (n : Nat) : OfNat Binary64 n := ⟨round n⟩

instance : OfScientific Binary64 := ⟨fun m s e => round (OfScientific.ofScientific m s e)⟩

end Binary64

/-- `validateParameters(packingDensity, qualityThreshold, degradedLimit)`: the
messages pushed, in order.  The parameters are JavaScript numbers; every
comparison with `NaN` is false, so a `NaN` parameter gets no message. -/
def validateParameters (packingDensity qualityThreshold degradedLimit : Binary64) : List String :=
  let errors : List String := []
  let errors :=
    if packingDensity ≤ 0 ∨ packingDensity > 0.5 then
      errors ++ ["Packing density must be between 0 and 50%"]
    else errors
  let errors :=
    if qualityThreshold < 0.4 ∨ qualityThreshold > 0.9 then
      errors ++ ["Quality threshold should be between 0.4 and 0.9"]
    else errors
  let errors :=
    if degradedLimit < 0 ∨ degradedLimit > 0.3 then
      errors ++ ["Degraded limit should be between 0 and 30%"]
    else errors
  errors

namespace Double

/-- A dense matrix of binary64 values, as an array of rows. -/
abbrev Mat := List (List Binary64)

/-- The read `A[i][j]`.  Every read made by the functions below is in range
when they are given the square matrices the model builds; a read out of range
(`undefined` in the source) is given the value `nan`, what arithmetic makes of
`undefined`. -/
def entry (A : Mat) (i j : Nat) : Binary64 := (A.getD i []).getD j Binary64.nan

/-- The field `this.P` in binary64. -/
def P : Mat :=
  [[0.62, 0.33, 0.04, 0.01, 0.00],
   [0.00, 0.67, 0.26, 0.06, 0.01],
   [0.00, 0.00, 0.72, 0.22, 0.06],
   [0.00, 0.00, 0.00, 0.77, 0.23],
   [0.00, 0.00, 0.00, 0.00, 1.00]]

/-- The field `this.w` in binary64. -/
def w : List Binary64 := [1.0, 0.9, 0.7, 0.4, 0.0]

/-- `matrixSubtract(A, B)` in binary64. -/
def matrixSubtract (A B : Mat) : Mat :=
  A.enum.map fun (i, row) => row.enum.map fun (j, val) => val - entry B i j

/-- `scalarMultiply(scalar, A)` in binary64. -/
def scalarMultiply (scalar : Binary64) (A : Mat) : Mat :=
  A.map fun row => row.map fun val => scalar * val

/-- `identityMatrix(n)`: entry `(i, j)` is `i === j ? 1 : 0`. -/
def identityMatrix (n : Nat) : Mat :=
  (List.range n).map fun i => (List.range n).map fun j => if i = j then 1 else 0

/-- The pivot search of `matrixInverse` at column `i`, with the comparison
`Math.abs(augmented[k][i]) > Math.abs(augmented[maxRow][i])` of binary64
values. -/
def findPivot (n : Nat) (augmented : Mat) (i : Nat) : Nat :=
  (List.range' (i + 1) (n - (i + 1))).foldl
    (fun maxRow k =>
      if Binary64.abs (entry augmented k i) > Binary64.abs (entry augmented maxRow i) then k
      else maxRow) i

/-- The destructuring swap of rows `i` and `maxRow`. -/
def swapRows (augmented : Mat) (i maxRow : Nat) : Mat :=
  (augmented.set i (augmented.getD maxRow [])).set maxRow (augmented.getD i [])

/-- The loop `for j < 2n: augmented[i][j] /= pivot` on row `i`, in binary64. -/
def scalePivotRow (n : Nat) (augmented : Mat) (i : Nat) (pivot : Binary64) : Mat :=
  augmented.set i
    ((augmented.getD i []).enum.map fun (j, val) => if j < 2 * n then val / pivot else val)

/-- The loop `for k < n, k !== i`: `augmented[k][j] -= factor * augmented[i][j]`
for `j < 2n`, the product and the difference each rounded to binary64. -/
def eliminateColumn (n : Nat) (augmented : Mat) (i : Nat) : Mat :=
  augmented.enum.map fun (k, row) =>
    if k < n ∧ k ≠ i then
      row.enum.map fun (j, val) =>
        if j < 2 * n then val - entry augmented k i * entry augmented i j else val
    else row

/-- One pass of the outer loop of `matrixInverse` in binary64.  The check is
`Math.abs(augmented[i][i]) < 1e-10`, which is false when the pivot is `NaN`. -/
def eliminationStep (n : Nat) (augmented : Mat) (i : Nat) : Except String Mat :=
  let maxRow := findPivot n augmented i
  let augmented := swapRows augmented i maxRow
  if Binary64.abs (entry augmented i i) < 1e-10 then
    Except.error singularMessage
  else
    let pivot := entry augmented i i
    let augmented := scalePivotRow n augmented i pivot
    Except.ok (eliminateColumn n augmented i)

/-- `matrixInverse(A)` in binary64. -/
def matrixInverse (A : Mat) : Except String Mat := do
  let n := A.length
  let augmented : Mat := A.enum.map fun (i, row) => row ++ (identityMatrix n).getD i []
  let augmented ← (List.range n).foldlM (eliminationStep n) augmented
  pure (augmented.map fun row => row.drop n)

/-- `calculateSteadyState(alpha)` in binary64: every product, sum and
difference of the source is rounded where the source computes it. -/
def calculateSteadyState (alpha : Binary64) : Except String (List Binary64) := do
  let n := P.length
  let delta0 : List Binary64 := [1, 0, 0, 0, 0]
  let oneMinusAlphaP := scalarMultiply (1 - alpha) P
  let I := identityMatrix n
  let IminusP := matrixSubtract I oneMinusAlphaP
  let inverseMatrix ← matrixInverse IminusP
  let delta0P : List Binary64 := (List.range n).map fun j =>
    (List.range n).foldl (fun acc k => acc + delta0.getD k Binary64.nan * entry P k j) 0
  pure ((List.range n).map fun j =>
    (List.range n).foldl
      (fun acc k => acc + delta0P.getD k Binary64.nan * entry inverseMatrix k j) 0 * alpha)

/-- `calculateQuality(piStock)` in binary64. -/
def calculateQuality (piStock : List Binary64) : Binary64 :=
  w.enum.foldl (fun sum (p : Nat × Binary64) => sum + p.2 * piStock.getD p.1 Binary64.nan) 0

/-- The constraint test of the bisection loop,
`quality >= qualityThreshold && degradedFraction <= degradedLimit`: false when
a threshold is `NaN`. -/
def constraintsMet (qualityThreshold degradedLimit : Binary64) (piStock : List Binary64) : Bool :=
  decide (calculateQuality piStock ≥ qualityThreshold ∧
    piStock.getD 4 Binary64.nan ≤ degradedLimit)

/-- The variables of the bisection loop. -/
structure Bracket where
  alphaMin : Binary64
  alphaMax : Binary64
  iterations : Nat
deriving DecidableEq

/-- One pass of the body of the `while` loop of `optimizeVirginRatio`, in
binary64. -/
def bisectPass (qualityThreshold degradedLimit : Binary64) (s : Bracket) :
    Except String Bracket := do
  let alphaMid := (s.alphaMin + s.alphaMax) / 2
  let piStock ← calculateSteadyState alphaMid
  if constraintsMet qualityThreshold degradedLimit piStock then
    pure { alphaMin := s.alphaMin, alphaMax := alphaMid, iterations := s.iterations + 1 }
  else
    pure { alphaMin := alphaMid, alphaMax := s.alphaMax, iterations := s.iterations + 1 }

/-- The `while` loop of `optimizeVirginRatio` in binary64.  The first argument
bounds the number of passes; `maxIterations` passes are always enough, since
every pass adds one to `iterations`. -/
def bisect (qualityThreshold degradedLimit tolerance : Binary64) :
    Nat → Bracket → Except String Bracket
  | 0, s => pure s
  | fuel + 1, s =>
    if s.alphaMax - s.alphaMin > tolerance ∧ s.iterations < maxIterations then do
      let s ← bisectPass qualityThreshold degradedLimit s
      bisect qualityThreshold degradedLimit tolerance fuel s
    else pure s

/-- The record returned by `optimizeVirginRatio`. -/
structure OptimizationResult where
  alphaOptimal : Binary64
  piStock : List Binary64
  quality : Binary64
  degradedFraction : Binary64
  iterations : Nat
  converged : Bool
deriving DecidableEq

/-- `optimizeVirginRatio(packingDensity, qualityThreshold, degradedLimit, tolerance)`
in binary64. -/
def optimizeVirginRatio (packingDensity qualityThreshold degradedLimit tolerance : Binary64) :
    Except String OptimizationResult := do
  let s ← bisect qualityThreshold degradedLimit tolerance maxIterations
    { alphaMin := packingDensity, alphaMax := 1.0, iterations := 0 }
  let alphaOpt := s.alphaMax
  let piStockOpt ← calculateSteadyState alphaOpt
  pure
    { alphaOptimal := alphaOpt
      piStock := piStockOpt
      quality := calculateQuality piStockOpt
      degradedFraction := piStockOpt.getD 4 Binary64.nan
      iterations := s.iterations
      converged := decide (s.iterations < maxIterations) }

/-- One strategy of `calculateEconomics`. -/
structure Scenario where
  alpha : Binary64
  virginPerBuild : Binary64
  annualMass : Binary64
  annualCost : Binary64
deriving DecidableEq

/-- One savings record of `calculateEconomics`. -/
structure Savings where
  mass : Binary64
  cost : Binary64
  percentage : Binary64
deriving DecidableEq

/-- The record returned by `calculateEconomics`. -/
structure Economics where
  optimal : Scenario
  formlabs30 : Scenario
  industrial50 : Scenario
  savingsVsFormlabs : Savings
  savingsVsIndustrial : Savings
deriving DecidableEq

/-- `calculateEconomics(chamberVolume, packingDensity, buildsPerYear, powderCost,
alphaOptimal)` in binary64, every product rounded in the order the source
writes it. -/
def calculateEconomics
    (chamberVolume _packingDensity buildsPerYear powderCost alphaOptimal : Binary64) :
    Economics :=
  let powderDensity : Binary64 := 0.47
  let virginPerBuild := alphaOptimal * chamberVolume
  let virginMassPerBuild := virginPerBuild * powderDensity
  let annualVirginMass := virginMassPerBuild * buildsPerYear
  let annualCost := annualVirginMass * powderCost
  let optimal : Scenario :=
    { alpha := alphaOptimal
      virginPerBuild := virginPerBuild
      annualMass := annualVirginMass
      annualCost := annualCost }
  let formlabs30 : Scenario :=
    { alpha := 0.30
      virginPerBuild := 0.30 * chamberVolume
      annualMass := 0.30 * chamberVolume * powderDensity * buildsPerYear
      annualCost := 0.30 * chamberVolume * powderDensity * buildsPerYear * powderCost }
  let industrial50 : Scenario :=
    { alpha := 0.50
      virginPerBuild := 0.50 * chamberVolume
      annualMass := 0.50 * chamberVolume * powderDensity * buildsPerYear
      annualCost := 0.50 * chamberVolume * powderDensity * buildsPerYear * powderCost }
  { optimal := optimal
    formlabs30 := formlabs30
    industrial50 := industrial50
    savingsVsFormlabs :=
      { mass := formlabs30.annualMass - optimal.annualMass
        cost := formlabs30.annualCost - optimal.annualCost
        percentage :=
          (formlabs30.annualCost - optimal.annualCost) / formlabs30.annualCost * 100 }
    savingsVsIndustrial :=
      { mass := industrial50.annualMass - optimal.annualMass
        cost := industrial50.annualCost - optimal.annualCost
        percentage :=
          (industrial50.annualCost - optimal.annualCost) / industrial50.annualCost * 100 } }

end Double

/-! ### Auxiliary definitions used in the proofs

What follows is not in the source: closed forms against which the functions
above are evaluated for a symbolic refresh ratio. -/

/-- An upper triangular matrix of order five, by its diagonal `d` and the entries
`a` above it. -/
def upper5 (d0 d1 d2 d3 d4 a01 a02 a03 a04 a12 a13 a14 a23 a24 a34 : ℚ) : Mat :=
  [[d0, a01, a02, a03, a04],
   [0, d1, a12, a13, a14],
   [0, 0, d2, a23, a24],
   [0, 0, 0, d3, a34],
   [0, 0, 0, 0, d4]]

/-- The right half left by the five elimination passes on `upper5`. -/
def upper5Inverse (d0 d1 d2 d3 d4 a01 a02 a03 a04 a12 a13 a14 a23 a24 a34 : ℚ) : Mat :=
  upper5 (1 / d0) (1 / d1) (1 / d2) (1 / d3) (1 / d4)
    (-(a01 / d0 * (1 / d1)))
    (-((a02 / d0 - a01 / d0 * (a12 / d1)) * (1 / d2)))
    (-((a03 / d0 - a01 / d0 * (a13 / d1) - (a02 / d0 - a01 / d0 * (a12 / d1)) * (a23 / d2)) *
      (1 / d3)))
    (-((a04 / d0 - a01 / d0 * (a14 / d1) - (a02 / d0 - a01 / d0 * (a12 / d1)) * (a24 / d2) -
        (a03 / d0 - a01 / d0 * (a13 / d1) - (a02 / d0 - a01 / d0 * (a12 / d1)) * (a23 / d2)) *
          (a34 / d3)) * (1 / d4)))
    (-(a12 / d1 * (1 / d2)))
    (-((a13 / d1 - a12 / d1 * (a23 / d2)) * (1 / d3)))
    (-((a14 / d1 - a12 / d1 * (a24 / d2) - (a13 / d1 - a12 / d1 * (a23 / d2)) * (a34 / d3)) *
      (1 / d4)))
    (-(a23 / d2 * (1 / d3)))
    (-((a24 / d2 - a23 / d2 * (a34 / d3)) * (1 / d4)))
    (-(a34 / d3 * (1 / d4)))

/-- Steady-state share of state 0, solved from the renewal equation. -/
def pi0 (alpha : ℚ) : ℚ := alpha * 0.62 / (1 - (1 - alpha) * 0.62)

/-- Steady-state share of state 1, solved from the renewal equation. -/
def pi1 (alpha : ℚ) : ℚ :=
  (alpha * 0.33 + (1 - alpha) * (pi0 alpha * 0.33)) / (1 - (1 - alpha) * 0.67)

/-- Steady-state share of state 2, solved from the renewal equation. -/
def pi2 (alpha : ℚ) : ℚ :=
  (alpha * 0.04 + (1 - alpha) * (pi0 alpha * 0.04 + pi1 alpha * 0.26)) / (1 - (1 - alpha) * 0.72)

/-- Steady-state share of state 3, solved from the renewal equation. -/
def pi3 (alpha : ℚ) : ℚ :=
  (alpha * 0.01 + (1 - alpha) * (pi0 alpha * 0.01 + pi1 alpha * 0.06 + pi2 alpha * 0.22)) /
    (1 - (1 - alpha) * 0.77)

/-- Steady-state share of state 4, the degraded fraction. -/
def pi4 (alpha : ℚ) : ℚ :=
  ((1 - alpha) * (pi1 alpha * 0.01 + pi2 alpha * 0.06 + pi3 alpha * 0.23)) / alpha

/-- Solution `x` of the renewal equation `x (I - (1 - alpha) P) = alpha (row 0 of P)`,
by forward substitution along the upper triangular matrix. -/
def renewalSolution (alpha : ℚ) : List ℚ := [pi0 alpha, pi1 alpha, pi2 alpha, pi3 alpha, pi4 alpha]

/-- Numerator of the share of stock in states `0` to `0`, over `headDen0`. -/
def headNum0 (x : ℚ) : ℚ := 62 * x

/-- Denominator of the share of stock in states `0` to `0`. -/
def headDen0 (x : ℚ) : ℚ := (38 + 62 * x)

/-- Numerator of the share of stock in states `0` to `1`, over `headDen1`. -/
def headNum1 (x : ℚ) : ℚ := 5346 * x + 4154 * x ^ 2

/-- Denominator of the share of stock in states `0` to `1`. -/
def headDen1 (x : ℚ) : ℚ := (38 + 62 * x) * (33 + 67 * x)

/-- Numerator of the share of stock in states `0` to `2`, over `headDen2`. -/
def headNum2 (x : ℚ) : ℚ := 248688 * x + 442224 * x ^ 2 + 299088 * x ^ 3

/-- Denominator of the share of stock in states `0` to `2`. -/
def headDen2 (x : ℚ) : ℚ := (38 + 62 * x) * (33 + 67 * x) * (28 + 72 * x)

/-- Numerator of the share of stock in states `0` to `3`, over `headDen3`. -/
def headNum3 (x : ℚ) : ℚ := 8544624 * x + 27140528 * x ^ 2 + 41285072 * x ^ 3 + 23029776 * x ^ 4

/-- Denominator of the share of stock in states `0` to `3`. -/
def headDen3 (x : ℚ) : ℚ := (38 + 62 * x) * (33 + 67 * x) * (28 + 72 * x) * (23 + 77 * x)

/-- The shape of the augmented matrix: `n` rows of `2n` entries. -/
def Augmented (n : Nat) (M : Mat) : Prop :=
  M.length = n ∧ ∀ k, k < n → (M.getD k []).length = 2 * n

/-- A square matrix of order `n`: `n` rows of `n` entries. -/
def Square (n : Nat) (M : Mat) : Prop :=
  M.length = n ∧ ∀ k, k < n → (M.getD k []).length = n

/-- The augmented matrix `[A | I]` that `matrixInverse` starts from. -/
def augment (A : Mat) : Mat :=
  A.enum.map fun (p : Nat × List ℚ) => p.2 ++ (identityMatrix A.length).getD p.1 []

/-- The invariant of the elimination before the pass on column `i`: the left
half of the augmented matrix is the right half times `A`, and the first `i`
columns of the left half are those of the identity. -/
def InverseInvariant (n : Nat) (A : Mat) (i : Nat) (aug : Mat) : Prop :=
  Augmented n aug ∧
  (∀ k j, k < n → j < n →
    entry aug k j = ∑ t in Finset.range n, entry aug k (n + t) * entry A t j) ∧
  (∀ c k, c < i → k < n → entry aug k c = if k = c then 1 else 0)

/-- A square matrix as a Mathlib matrix. -/
def toMatrix (n : Nat) (M : Mat) : Matrix (Fin n) (Fin n) ℚ :=
  Matrix.of fun i j => entry M i j

/-! ### Gauss-Jordan elimination on an upper triangular matrix -/

/-- An absolute value is never negative: the pivot search keeps `maxRow` when the
entries below the diagonal are `0`. -/
theorem abs_not_lt_zero (x : ℚ) : ¬ |x| < 0 := not_lt.mpr (abs_nonneg x)

/-- A pivot that passes the singularity check is not zero. -/
theorem ne_zero_of_pivot {d : ℚ} (h : ¬ |d| < 1e-10) : d ≠ 0 := by
  rintro rfl
  apply h; norm_num

set_option maxRecDepth 4000 in
/-- Pass `0` of the elimination on a matrix whose rows `0` to `4` are still
those of an upper triangular matrix: the pivot is `d0`, no rows are exchanged. -/
theorem eliminationStep_upper_0 (d0 a01 a02 a03 a04 d1 a12 a13 a14 d2 a23 a24 d3 a34 d4 : ℚ) :
    eliminationStep 5
      [[d0, a01, a02, a03, a04, 1, 0, 0, 0, 0],
       [0, d1, a12, a13, a14, 0, 1, 0, 0, 0],
       [0, 0, d2, a23, a24, 0, 0, 1, 0, 0],
       [0, 0, 0, d3, a34, 0, 0, 0, 1, 0],
       [0, 0, 0, 0, d4, 0, 0, 0, 0, 1]] 0 =
    if |d0| < 1e-10 then Except.error singularMessage else Except.ok
      [[1, a01 / d0, a02 / d0, a03 / d0, a04 / d0, 1 / d0, 0, 0, 0, 0],
       [0, d1, a12, a13, a14, 0, 1, 0, 0, 0],
       [0, 0, d2, a23, a24, 0, 0, 1, 0, 0],
       [0, 0, 0, d3, a34, 0, 0, 0, 1, 0],
       [0, 0, 0, 0, d4, 0, 0, 0, 0, 1]] := by
  by_cases h : |d0| < 1e-10
  · simp [eliminationStep, findPivot, swapRows, entry, List.range', h, abs_not_lt_zero]
  · have hd : d0 ≠ 0 := ne_zero_of_pivot h
    simp [eliminationStep, findPivot, swapRows, scalePivotRow, eliminateColumn, entry,
      List.range', List.enum, List.enumFrom, h, hd, abs_not_lt_zero]
    try exact Or.inr rfl

set_option maxRecDepth 4000 in
/-- Pass `1` of the elimination on a matrix whose rows `1` to `4` are still
those of an upper triangular matrix: the pivot is `d1`, no rows are exchanged. -/
theorem eliminationStep_upper_1 (x01 x02 x03 x04 y00 d1 a12 a13 a14 d2 a23 a24 d3 a34 d4 : ℚ) :
    eliminationStep 5
      [[1, x01, x02, x03, x04, y00, 0, 0, 0, 0],
       [0, d1, a12, a13, a14, 0, 1, 0, 0, 0],
       [0, 0, d2, a23, a24, 0, 0, 1, 0, 0],
       [0, 0, 0, d3, a34, 0, 0, 0, 1, 0],
       [0, 0, 0, 0, d4, 0, 0, 0, 0, 1]] 1 =
    if |d1| < 1e-10 then Except.error singularMessage else Except.ok
      [[1, 0, x02 - x01 * (a12 / d1), x03 - x01 * (a13 / d1), x04 - x01 * (a14 / d1), y00, -(x01 * (1 / d1)), 0, 0, 0],
       [0, 1, a12 / d1, a13 / d1, a14 / d1, 0, 1 / d1, 0, 0, 0],
       [0, 0, d2, a23, a24, 0, 0, 1, 0, 0],
       [0, 0, 0, d3, a34, 0, 0, 0, 1, 0],
       [0, 0, 0, 0, d4, 0, 0, 0, 0, 1]] := by
  by_cases h : |d1| < 1e-10
  · simp [eliminationStep, findPivot, swapRows, entry, List.range', h, abs_not_lt_zero]
  · have hd : d1 ≠ 0 := ne_zero_of_pivot h
    simp [eliminationStep, findPivot, swapRows, scalePivotRow, eliminateColumn, entry,
      List.range', List.enum, List.enumFrom, h, hd, abs_not_lt_zero]
    try exact Or.inr rfl

set_option maxRecDepth 4000 in
/-- Pass `2` of the elimination on a matrix whose rows `2` to `4` are still
those of an upper triangular matrix: the pivot is `d2`, no rows are exchanged. -/
theorem eliminationStep_upper_2 (x02 x03 x04 y00 y01 x12 x13 x14 y11 d2 a23 a24 d3 a34 d4 : ℚ) :
    eliminationStep 5
      [[1, 0, x02, x03, x04, y00, y01, 0, 0, 0],
       [0, 1, x12, x13, x14, 0, y11, 0, 0, 0],
       [0, 0, d2, a23, a24, 0, 0, 1, 0, 0],
       [0, 0, 0, d3, a34, 0, 0, 0, 1, 0],
       [0, 0, 0, 0, d4, 0, 0, 0, 0, 1]] 2 =
    if |d2| < 1e-10 then Except.error singularMessage else Except.ok
      [[1, 0, 0, x03 - x02 * (a23 / d2), x04 - x02 * (a24 / d2), y00, y01, -(x02 * (1 / d2)), 0, 0],
       [0, 1, 0, x13 - x12 * (a23 / d2), x14 - x12 * (a24 / d2), 0, y11, -(x12 * (1 / d2)), 0, 0],
       [0, 0, 1, a23 / d2, a24 / d2, 0, 0, 1 / d2, 0, 0],
       [0, 0, 0, d3, a34, 0, 0, 0, 1, 0],
       [0, 0, 0, 0, d4, 0, 0, 0, 0, 1]] := by
  by_cases h : |d2| < 1e-10
  · simp [eliminationStep, findPivot, swapRows, entry, List.range', h, abs_not_lt_zero]
  · have hd : d2 ≠ 0 := ne_zero_of_pivot h
    simp [eliminationStep, findPivot, swapRows, scalePivotRow, eliminateColumn, entry,
      List.range', List.enum, List.enumFrom, h, hd, abs_not_lt_zero]
    try exact Or.inr rfl

set_option maxRecDepth 4000 in
/-- Pass `3` of the elimination on a matrix whose rows `3` to `4` are still
those of an upper triangular matrix: the pivot is `d3`, no rows are exchanged. -/
theorem eliminationStep_upper_3 (x03 x04 y00 y01 y02 x13 x14 y11 y12 x23 x24 y22 d3 a34 d4 : ℚ) :
    eliminationStep 5
      [[1, 0, 0, x03, x04, y00, y01, y02, 0, 0],
       [0, 1, 0, x13, x14, 0, y11, y12, 0, 0],
       [0, 0, 1, x23, x24, 0, 0, y22, 0, 0],
       [0, 0, 0, d3, a34, 0, 0, 0, 1, 0],
       [0, 0, 0, 0, d4, 0, 0, 0, 0, 1]] 3 =
    if |d3| < 1e-10 then Except.error singularMessage else Except.ok
      [[1, 0, 0, 0, x04 - x03 * (a34 / d3), y00, y01, y02, -(x03 * (1 / d3)), 0],
       [0, 1, 0, 0, x14 - x13 * (a34 / d3), 0, y11, y12, -(x13 * (1 / d3)), 0],
       [0, 0, 1, 0, x24 - x23 * (a34 / d3), 0, 0, y22, -(x23 * (1 / d3)), 0],
       [0, 0, 0, 1, a34 / d3, 0, 0, 0, 1 / d3, 0],
       [0, 0, 0, 0, d4, 0, 0, 0, 0, 1]] := by
  by_cases h : |d3| < 1e-10
  · simp [eliminationStep, findPivot, swapRows, entry, List.range', h, abs_not_lt_zero]
  · have hd : d3 ≠ 0 := ne_zero_of_pivot h
    simp [eliminationStep, findPivot, swapRows, scalePivotRow, eliminateColumn, entry,
      List.range', List.enum, List.enumFrom, h, hd, abs_not_lt_zero]
    try exact Or.inr rfl

set_option maxRecDepth 4000 in
/-- Pass `4` of the elimination on a matrix whose rows `4` to `4` are still
those of an upper triangular matrix: the pivot is `d4`, no rows are exchanged. -/
theorem eliminationStep_upper_4 (x04 y00 y01 y02 y03 x14 y11 y12 y13 x24 y22 y23 x34 y33 d4 : ℚ) :
    eliminationStep 5
      [[1, 0, 0, 0, x04, y00, y01, y02, y03, 0],
       [0, 1, 0, 0, x14, 0, y11, y12, y13, 0],
       [0, 0, 1, 0, x24, 0, 0, y22, y23, 0],
       [0, 0, 0, 1, x34, 0, 0, 0, y33, 0],
       [0, 0, 0, 0, d4, 0, 0, 0, 0, 1]] 4 =
    if |d4| < 1e-10 then Except.error singularMessage else Except.ok
      [[1, 0, 0, 0, 0, y00, y01, y02, y03, -(x04 * (1 / d4))],
       [0, 1, 0, 0, 0, 0, y11, y12, y13, -(x14 * (1 / d4))],
       [0, 0, 1, 0, 0, 0, 0, y22, y23, -(x24 * (1 / d4))],
       [0, 0, 0, 1, 0, 0, 0, 0, y33, -(x34 * (1 / d4))],
       [0, 0, 0, 0, 1, 0, 0, 0, 0, 1 / d4]] := by
  by_cases h : |d4| < 1e-10
  · simp [eliminationStep, findPivot, swapRows, entry, List.range', h, abs_not_lt_zero]
  · have hd : d4 ≠ 0 := ne_zero_of_pivot h
    simp [eliminationStep, findPivot, swapRows, scalePivotRow, eliminateColumn, entry,
      List.range', List.enum, List.enumFrom, h, hd, abs_not_lt_zero]
    try exact Or.inr rfl

/-- The result of `matrixInverse` on an upper triangular matrix of order five whose
first four diagonal entries pass the singularity check: the check on the last
diagonal entry decides between the error and the inverse. -/
theorem matrixInverse_upper5 (d0 d1 d2 d3 d4 a01 a02 a03 a04 a12 a13 a14 a23 a24 a34 : ℚ)
    (h0 : ¬ |d0| < 1e-10) (h1 : ¬ |d1| < 1e-10) (h2 : ¬ |d2| < 1e-10)
    (h3 : ¬ |d3| < 1e-10) :
    matrixInverse (upper5 d0 d1 d2 d3 d4 a01 a02 a03 a04 a12 a13 a14 a23 a24 a34) =
      if |d4| < 1e-10 then Except.error singularMessage
      else Except.ok (upper5Inverse d0 d1 d2 d3 d4 a01 a02 a03 a04 a12 a13 a14 a23 a24 a34) := by
  have haug : (List.enum (upper5 d0 d1 d2 d3 d4 a01 a02 a03 a04 a12 a13 a14 a23 a24 a34)).map
      (fun (p : Nat × List ℚ) => p.2 ++ (identityMatrix 5).getD p.1 []) =
      [[d0, a01, a02, a03, a04, 1, 0, 0, 0, 0],
       [0, d1, a12, a13, a14, 0, 1, 0, 0, 0],
       [0, 0, d2, a23, a24, 0, 0, 1, 0, 0],
       [0, 0, 0, d3, a34, 0, 0, 0, 1, 0],
       [0, 0, 0, 0, d4, 0, 0, 0, 0, 1]] := by
    simp [upper5, identityMatrix, List.enum, List.enumFrom, List.range, List.range.loop]
  have hlen : (upper5 d0 d1 d2 d3 d4 a01 a02 a03 a04 a12 a13 a14 a23 a24 a34).length = 5 := rfl
  have hr : List.range 5 = [0, 1, 2, 3, 4] := rfl
  unfold matrixInverse
  simp only [hlen, haug, hr, List.foldlM_cons, List.foldlM_nil]
  rw [eliminationStep_upper_0, if_neg h0]
  simp only [bind, Except.bind]
  rw [eliminationStep_upper_1, if_neg h1]
  simp only [bind, Except.bind]
  rw [eliminationStep_upper_2, if_neg h2]
  simp only [bind, Except.bind]
  rw [eliminationStep_upper_3, if_neg h3]
  simp only [bind, Except.bind]
  rw [eliminationStep_upper_4]
  by_cases h4 : |d4| < 1e-10
  · simp only [if_pos h4]
  · simp only [if_neg h4, pure, Except.pure, List.map, List.drop, upper5Inverse, upper5]

/-- The matrix `I - (1 - alpha) P` is upper triangular. -/
theorem IminusP_eq (alpha : ℚ) :
    matrixSubtract (identityMatrix P.length) (scalarMultiply (1 - alpha) P) =
      upper5 (1 - (1 - alpha) * 0.62) (1 - (1 - alpha) * 0.67) (1 - (1 - alpha) * 0.72)
        (1 - (1 - alpha) * 0.77) alpha
        (-((1 - alpha) * 0.33)) (-((1 - alpha) * 0.04)) (-((1 - alpha) * 0.01)) 0
        (-((1 - alpha) * 0.26)) (-((1 - alpha) * 0.06)) (-((1 - alpha) * 0.01))
        (-((1 - alpha) * 0.22)) (-((1 - alpha) * 0.06))
        (-((1 - alpha) * 0.23)) := by
  simp [matrixSubtract, identityMatrix, scalarMultiply, P, upper5, entry, List.enum, List.enumFrom,
    List.range, List.range.loop]
  norm_num
  rfl

/-- The first four pivots of `I - (1 - alpha) P` pass the singularity check for
every `alpha ≥ 0`. -/
theorem upper5_pivots {alpha : ℚ} (h : 0 ≤ alpha) :
    ¬ |1 - (1 - alpha) * 0.62| < 1e-10 ∧ ¬ |1 - (1 - alpha) * 0.67| < 1e-10 ∧
    ¬ |1 - (1 - alpha) * 0.72| < 1e-10 ∧ ¬ |1 - (1 - alpha) * 0.77| < 1e-10 := by
  refine ⟨?_, ?_, ?_, ?_⟩ <;>
  · rw [not_lt, abs_of_nonneg (by linarith)]
    norm_num
    linarith


/-- The loop computing `delta0P` yields row `0` of `P`. -/
theorem delta0P_eq :
    ((List.range P.length).map fun j =>
      (List.range P.length).foldl
        (fun acc k => acc + ([1, 0, 0, 0, 0] : List ℚ).getD k 0 * entry P k j) 0) =
      [0.62, 0.33, 0.04, 0.01, 0] := by
  have hr : List.range P.length = [0, 1, 2, 3, 4] := rfl
  simp only [hr, List.map, List.foldl]
  simp [entry, P]
  norm_num

/-- The accumulating loop of `calculateSteadyState` for a row vector and an upper
triangular matrix, scaled by `c`. -/
theorem rowTimesUpper5 (v0 v1 v2 v3 v4 c : ℚ)
    (d0 d1 d2 d3 d4 a01 a02 a03 a04 a12 a13 a14 a23 a24 a34 : ℚ) :
    ((List.range P.length).map fun j =>
      (List.range P.length).foldl
        (fun acc k => acc + ([v0, v1, v2, v3, v4] : List ℚ).getD k 0 *
          entry (upper5 d0 d1 d2 d3 d4 a01 a02 a03 a04 a12 a13 a14 a23 a24 a34) k j) 0 * c) =
      [v0 * d0 * c, (v0 * a01 + v1 * d1) * c, (v0 * a02 + v1 * a12 + v2 * d2) * c,
        (v0 * a03 + v1 * a13 + v2 * a23 + v3 * d3) * c,
        (v0 * a04 + v1 * a14 + v2 * a24 + v3 * a34 + v4 * d4) * c] := by
  have hr : List.range P.length = [0, 1, 2, 3, 4] := rfl
  simp only [hr, List.map, List.foldl]
  simp [entry, upper5]


/-- A row vector times the inverse of an upper triangular matrix is the solution
of the triangular system, found by forward substitution. -/
theorem rowTimesInverse_upper5 (v0 v1 v2 v3 v4 c : ℚ)
    (d0 d1 d2 d3 d4 a01 a02 a03 a04 a12 a13 a14 a23 a24 a34 : ℚ)
    :
    ((List.range P.length).map fun j =>
      (List.range P.length).foldl
        (fun acc k => acc + ([v0, v1, v2, v3, v4] : List ℚ).getD k 0 *
          entry (upper5Inverse d0 d1 d2 d3 d4 a01 a02 a03 a04 a12 a13 a14 a23 a24 a34) k j) 0
        * c) =
      [c * v0 / d0,
       (c * v1 - c * v0 / d0 * a01) / d1,
       (c * v2 - c * v0 / d0 * a02 - (c * v1 - c * v0 / d0 * a01) / d1 * a12) / d2,
       (c * v3 - c * v0 / d0 * a03 - (c * v1 - c * v0 / d0 * a01) / d1 * a13 -
          (c * v2 - c * v0 / d0 * a02 - (c * v1 - c * v0 / d0 * a01) / d1 * a12) / d2 * a23) / d3,
       (c * v4 - c * v0 / d0 * a04 - (c * v1 - c * v0 / d0 * a01) / d1 * a14 -
          (c * v2 - c * v0 / d0 * a02 - (c * v1 - c * v0 / d0 * a01) / d1 * a12) / d2 * a24 -
          (c * v3 - c * v0 / d0 * a03 - (c * v1 - c * v0 / d0 * a01) / d1 * a13 -
            (c * v2 - c * v0 / d0 * a02 - (c * v1 - c * v0 / d0 * a01) / d1 * a12) / d2 * a23)
              / d3 * a34) / d4] := by
  unfold upper5Inverse
  rw [rowTimesUpper5]
  simp only [List.cons.injEq, and_true]
  refine ⟨?_, ?_, ?_, ?_, ?_⟩ <;> ring

/-- The result of `calculateSteadyState` for every `alpha ≥ 0`: the singular-matrix
error when `|alpha| < 1e-10`, the solution of the renewal equation otherwise. -/
theorem calculateSteadyState_eq {alpha : ℚ} (h : 0 ≤ alpha) :
    calculateSteadyState alpha =
      if |alpha| < 1e-10 then Except.error singularMessage
      else Except.ok (renewalSolution alpha) := by
  obtain ⟨h0, h1, h2, h3⟩ := upper5_pivots h
  have e0 := ne_zero_of_pivot h0
  have e1 := ne_zero_of_pivot h1
  have e2 := ne_zero_of_pivot h2
  have e3 := ne_zero_of_pivot h3
  unfold calculateSteadyState
  simp only [IminusP_eq, matrixInverse_upper5 _ _ _ _ _ _ _ _ _ _ _ _ _ _ _ h0 h1 h2 h3]
  by_cases h4 : |alpha| < 1e-10
  · simp only [if_pos h4, bind, Except.bind]
  · have e4 := ne_zero_of_pivot h4
    simp only [if_neg h4, delta0P_eq, bind, Except.bind, pure, Except.pure]
    rw [rowTimesInverse_upper5]
    have x0 : alpha * 0.62 / (1 - (1 - alpha) * 0.62) = pi0 alpha := rfl
    have x1 : (alpha * 0.33 - pi0 alpha * -((1 - alpha) * 0.33)) / (1 - (1 - alpha) * 0.67)
        = pi1 alpha := by
      unfold pi1; congr 1; ring
    have x2 : (alpha * 0.04 - pi0 alpha * -((1 - alpha) * 0.04) -
        pi1 alpha * -((1 - alpha) * 0.26)) / (1 - (1 - alpha) * 0.72) = pi2 alpha := by
      unfold pi2; congr 1; ring
    have x3 : (alpha * 0.01 - pi0 alpha * -((1 - alpha) * 0.01) -
        pi1 alpha * -((1 - alpha) * 0.06) - pi2 alpha * -((1 - alpha) * 0.22)) /
          (1 - (1 - alpha) * 0.77) = pi3 alpha := by
      unfold pi3; congr 1; ring
    have x4 : (alpha * 0 - pi0 alpha * 0 - pi1 alpha * -((1 - alpha) * 0.01) -
        pi2 alpha * -((1 - alpha) * 0.06) - pi3 alpha * -((1 - alpha) * 0.23)) / alpha
          = pi4 alpha := by
      unfold pi4; congr 1; ring
    simp only [x0, x1, x2, x3, x4, renewalSolution]

/-- The denominator `headDen0` is positive at a ratio `x ≥ 0`. -/
theorem headDen0_pos {x : ℚ} (hx : 0 ≤ x) : 0 < headDen0 x := by
  unfold headDen0
  positivity

/-- The share of stock in states `0` to `0` does not decrease with the refresh ratio. -/
theorem head0_mono {a b : ℚ} (ha : 0 ≤ a) (hab : a ≤ b) (hb : b ≤ 1) :
    headNum0 a / headDen0 a ≤ headNum0 b / headDen0 b := by
  have hcert : ∀ a u b v : ℚ, 0 ≤ a → 0 ≤ u → 0 ≤ b → 0 ≤ v → (0 : ℚ) ≤
      2356 := by
    intro a u b v ha hu hb hv
    positivity
  have hR := hcert a (1 - a) b (1 - b) ha (by linarith) (by linarith) (by linarith)
  have hprod := mul_nonneg (sub_nonneg.2 hab) hR
  rw [div_le_div_iff₀ (headDen0_pos ha) (headDen0_pos (le_trans ha hab))]
  unfold headNum0 headDen0
  linarith

/-- The denominator `headDen1` is positive at a ratio `x ≥ 0`. -/
theorem headDen1_pos {x : ℚ} (hx : 0 ≤ x) : 0 < headDen1 x := by
  unfold headDen1
  positivity

/-- The share of stock in states `0` to `1` does not decrease with the refresh ratio. -/
theorem head1_mono {a b : ℚ} (ha : 0 ≤ a) (hab : a ≤ b) (hb : b ≤ 1) :
    headNum1 a / headDen1 a ≤ headNum1 b / headDen1 b := by
  have hcert : ∀ a u b v : ℚ, 0 ≤ a → 0 ≤ u → 0 ≤ b → 0 ≤ v → (0 : ℚ) ≤
      6703884 * u * v +
      11913000 * u * b +
      11913000 * a * v +
      13990000 * a * b := by
    intro a u b v ha hu hb hv
    positivity
  have hR := hcert a (1 - a) b (1 - b) ha (by linarith) (by linarith) (by linarith)
  have hprod := mul_nonneg (sub_nonneg.2 hab) hR
  rw [div_le_div_iff₀ (headDen1_pos ha) (headDen1_pos (le_trans ha hab))]
  unfold headNum1 headDen1
  linarith

/-- The denominator `headDen2` is positive at a ratio `x ≥ 0`. -/
theorem headDen2_pos {x : ℚ} (hx : 0 ≤ x) : 0 < headDen2 x := by
  unfold headDen2
  positivity

/-- The share of stock in states `0` to `2` does not decrease with the refresh ratio. -/
theorem head2_mono {a b : ℚ} (ha : 0 ≤ a) (hab : a ≤ b) (hb : b ≤ 1) :
    headNum2 a / headDen2 a ≤ headNum2 b / headDen2 b := by
  have hcert : ∀ a u b v : ℚ, 0 ≤ a → 0 ≤ u → 0 ≤ b → 0 ≤ v → (0 : ℚ) ≤
      8731933056 * u ^ 2 * v ^ 2 +
      32991235200 * u ^ 2 * b * v +
      34760880000 * u ^ 2 * b ^ 2 +
      32991235200 * a * u * v ^ 2 +
      93178080000 * a * u * b * v +
      72270000000 * a * u * b ^ 2 +
      34760880000 * a ^ 2 * v ^ 2 +
      72270000000 * a ^ 2 * b * v +
      40500000000 * a ^ 2 * b ^ 2 := by
    intro a u b v ha hu hb hv
    positivity
  have hR := hcert a (1 - a) b (1 - b) ha (by linarith) (by linarith) (by linarith)
  have hprod := mul_nonneg (sub_nonneg.2 hab) hR
  rw [div_le_div_iff₀ (headDen2_pos ha) (headDen2_pos (le_trans ha hab))]
  unfold headNum2 headDen2
  linarith

/-- The denominator `headDen3` is positive at a ratio `x ≥ 0`. -/
theorem headDen3_pos {x : ℚ} (hx : 0 ≤ x) : 0 < headDen3 x := by
  unfold headDen3
  positivity

/-- The share of stock in states `0` to `3` does not decrease with the refresh ratio. -/
theorem head3_mono {a b : ℚ} (ha : 0 ≤ a) (hab : a ≤ b) (hb : b ≤ 1) :
    headNum3 a / headDen3 a ≤ headNum3 b / headDen3 b := by
  have hcert : ∀ a u b v : ℚ, 0 ≤ a → 0 ≤ u → 0 ≤ b → 0 ≤ v → (0 : ℚ) ≤
      6900433271424 * u ^ 3 * v ^ 3 +
      42619338854400 * u ^ 3 * b * v ^ 2 +
      97878211200000 * u ^ 3 * b ^ 2 * v +
      80757600000000 * u ^ 3 * b ^ 3 +
      42619338854400 * a * u ^ 2 * v ^ 3 +
      205119476960000 * a * u ^ 2 * b * v ^ 2 +
      367610832000000 * a * u ^ 2 * b ^ 2 * v +
      242317600000000 * a * u ^ 2 * b ^ 3 +
      97878211200000 * a ^ 2 * u * v ^ 3 +
      367610832000000 * a ^ 2 * u * b * v ^ 2 +
      492868800000000 * a ^ 2 * u * b ^ 2 * v +
      241560000000000 * a ^ 2 * u * b ^ 3 +
      80757600000000 * a ^ 3 * v ^ 3 +
      242317600000000 * a ^ 3 * b * v ^ 2 +
      241560000000000 * a ^ 3 * b ^ 2 * v +
      80000000000000 * a ^ 3 * b ^ 3 := by
    intro a u b v ha hu hb hv
    positivity
  have hR := hcert a (1 - a) b (1 - b) ha (by linarith) (by linarith) (by linarith)
  have hprod := mul_nonneg (sub_nonneg.2 hab) hR
  rw [div_le_div_iff₀ (headDen3_pos ha) (headDen3_pos (le_trans ha hab))]
  unfold headNum3 headDen3
  linarith

/-- The pivot of state `0` as a linear function of the ratio. -/
theorem den0_eq (x : ℚ) : 1 - (1 - x) * 0.62 = (38 + 62 * x) / 100 := by norm_num; ring
/-- The pivot of state `1` as a linear function of the ratio. -/
theorem den1_eq (x : ℚ) : 1 - (1 - x) * 0.67 = (33 + 67 * x) / 100 := by norm_num; ring
/-- The pivot of state `2` as a linear function of the ratio. -/
theorem den2_eq (x : ℚ) : 1 - (1 - x) * 0.72 = (28 + 72 * x) / 100 := by norm_num; ring
/-- The pivot of state `3` as a linear function of the ratio. -/
theorem den3_eq (x : ℚ) : 1 - (1 - x) * 0.77 = (23 + 77 * x) / 100 := by norm_num; ring

/-- The share of stock in state `0` as a rational function of the ratio. -/
theorem head0_eq {x : ℚ} (hx : 0 ≤ x) : pi0 x = headNum0 x / headDen0 x := by
  have h0 : (38 + 62 * x) ≠ 0 := by positivity
  unfold pi0 headNum0 headDen0
  rw [den0_eq]
  field_simp
  ring

/-- The share of stock in states `0` and `1` as a rational function of the ratio. -/
theorem head1_eq {x : ℚ} (hx : 0 ≤ x) : pi0 x + pi1 x = headNum1 x / headDen1 x := by
  have h0 : (38 + 62 * x) ≠ 0 := by positivity
  have h1 : (33 + 67 * x) ≠ 0 := by positivity
  unfold pi1
  rw [head0_eq hx]
  unfold headNum0 headDen0 headNum1 headDen1
  rw [den1_eq]
  field_simp
  ring

/-- The share of stock in states `0` to `2` as a rational function of the ratio. -/
theorem head2_eq {x : ℚ} (hx : 0 ≤ x) : pi0 x + pi1 x + pi2 x = headNum2 x / headDen2 x := by
  have h0 : (38 + 62 * x) ≠ 0 := by positivity
  have h1 : (33 + 67 * x) ≠ 0 := by positivity
  have h2 : (28 + 72 * x) ≠ 0 := by positivity
  have e1 : pi1 x = headNum1 x / headDen1 x - headNum0 x / headDen0 x := by
    rw [← head1_eq hx, ← head0_eq hx]; ring
  unfold pi2
  rw [e1, head0_eq hx]
  unfold headNum0 headDen0 headNum1 headDen1 headNum2 headDen2
  rw [den2_eq]
  field_simp
  ring

/-- The share of stock in states `0` to `3` as a rational function of the ratio. -/
theorem head3_eq {x : ℚ} (hx : 0 ≤ x) :
    pi0 x + pi1 x + pi2 x + pi3 x = headNum3 x / headDen3 x := by
  have h0 : (38 + 62 * x) ≠ 0 := by positivity
  have h1 : (33 + 67 * x) ≠ 0 := by positivity
  have h2 : (28 + 72 * x) ≠ 0 := by positivity
  have h3 : (23 + 77 * x) ≠ 0 := by positivity
  have e1 : pi1 x = headNum1 x / headDen1 x - headNum0 x / headDen0 x := by
    rw [← head1_eq hx, ← head0_eq hx]; ring
  have e2 : pi2 x = headNum2 x / headDen2 x - headNum1 x / headDen1 x := by
    rw [← head2_eq hx, ← head1_eq hx]; ring
  unfold pi3
  rw [e2, e1, head0_eq hx]
  unfold headNum0 headDen0 headNum1 headDen1 headNum2 headDen2 headNum3 headDen3
  rw [den3_eq]
  field_simp
  ring

/-- The function `calculateSteadyState` returns at every ratio that is at least `1e-10`. -/
theorem calculateSteadyState_ok {alpha : ℚ} (h : 1e-10 ≤ alpha) :
    calculateSteadyState alpha = Except.ok (renewalSolution alpha) := by
  have h0 : (0 : ℚ) ≤ alpha := le_trans (by norm_num) h
  rw [calculateSteadyState_eq h0, if_neg]
  rw [abs_of_nonneg h0]
  exact not_lt.mpr h

/-- The function `calculateSteadyState` fails at every ratio in `[0, 1e-10)`. -/
theorem calculateSteadyState_singular {alpha : ℚ} (h0 : 0 ≤ alpha) (h : alpha < 1e-10) :
    calculateSteadyState alpha = Except.error singularMessage := by
  rw [calculateSteadyState_eq h0, if_pos]
  rwa [abs_of_nonneg h0]

/-- A vector returned by `calculateSteadyState` at a ratio `alpha ≥ 0` is the
solution of the renewal equation, and then `alpha ≥ 1e-10`. -/
theorem calculateSteadyState_returns {alpha : ℚ} {v : List ℚ} (h0 : 0 ≤ alpha)
    (h : calculateSteadyState alpha = Except.ok v) :
    1e-10 ≤ alpha ∧ v = renewalSolution alpha := by
  by_cases hs : alpha < 1e-10
  · rw [calculateSteadyState_singular h0 hs] at h
    cases h
  · have hs := not_lt.mp hs
    rw [calculateSteadyState_ok hs] at h
    exact ⟨hs, (Except.ok.inj h).symm⟩

/-- The components of the solution of the renewal equation sum to `1`. -/
theorem renewalSolution_sum {x : ℚ} (hx : 0 < x) : (renewalSolution x).sum = 1 := by
  have h0 : 1 - (1 - x) * 0.62 ≠ 0 := by rw [den0_eq]; positivity
  have h1 : 1 - (1 - x) * 0.67 ≠ 0 := by rw [den1_eq]; positivity
  have h2 : 1 - (1 - x) * 0.72 ≠ 0 := by rw [den2_eq]; positivity
  have h3 : 1 - (1 - x) * 0.77 ≠ 0 := by rw [den3_eq]; positivity
  have e0 : pi0 x * (1 - (1 - x) * 0.62) = x * 0.62 := div_mul_cancel₀ _ h0
  have e1 : pi1 x * (1 - (1 - x) * 0.67) = x * 0.33 + (1 - x) * (pi0 x * 0.33) :=
    div_mul_cancel₀ _ h1
  have e2 : pi2 x * (1 - (1 - x) * 0.72) =
      x * 0.04 + (1 - x) * (pi0 x * 0.04 + pi1 x * 0.26) := div_mul_cancel₀ _ h2
  have e3 : pi3 x * (1 - (1 - x) * 0.77) =
      x * 0.01 + (1 - x) * (pi0 x * 0.01 + pi1 x * 0.06 + pi2 x * 0.22) := div_mul_cancel₀ _ h3
  have e4 : pi4 x * x = (1 - x) * (pi1 x * 0.01 + pi2 x * 0.06 + pi3 x * 0.23) :=
    div_mul_cancel₀ _ hx.ne'
  have key : (pi0 x + pi1 x + pi2 x + pi3 x + pi4 x - 1) * x = 0 := by
    linear_combination e0 + e1 + e2 + e3 + e4
  have hs : pi0 x + pi1 x + pi2 x + pi3 x + pi4 x = 1 := by
    rcases mul_eq_zero.mp key with h | h
    · linarith
    · exact absurd h hx.ne'
  simp only [renewalSolution, List.sum_cons, List.sum_nil]
  linarith

/-- The degraded fraction is what the states `0` to `3` leave. -/
theorem renewalSolution_degraded {x : ℚ} (hx : 0 < x) :
    (renewalSolution x).getD 4 0 = 1 - headNum3 x / headDen3 x := by
  have hs := renewalSolution_sum hx
  have h3 := head3_eq hx.le
  simp only [renewalSolution, List.sum_cons, List.sum_nil] at hs
  have : (renewalSolution x).getD 4 0 = pi4 x := rfl
  rw [this]
  linarith

/-- The quality index as a combination, with positive weights, of the shares of
stock in states `0` to `j` for `j = 0, 1, 2, 3`. -/
theorem renewalSolution_quality {x : ℚ} (hx : 0 ≤ x) :
    calculateQuality (renewalSolution x) =
      0.1 * (headNum0 x / headDen0 x) + 0.2 * (headNum1 x / headDen1 x) +
        0.3 * (headNum2 x / headDen2 x) + 0.4 * (headNum3 x / headDen3 x) := by
  rw [← head0_eq hx, ← head1_eq hx, ← head2_eq hx, ← head3_eq hx]
  simp [calculateQuality, renewalSolution, w, List.enum, List.enumFrom]
  ring

/-- The quality index does not decrease with the ratio. -/
theorem quality_mono {a b : ℚ} (ha : 0 ≤ a) (hab : a ≤ b) (hb : b ≤ 1) :
    calculateQuality (renewalSolution a) ≤ calculateQuality (renewalSolution b) := by
  rw [renewalSolution_quality ha, renewalSolution_quality (le_trans ha hab)]
  have m0 := head0_mono ha hab hb
  have m1 := head1_mono ha hab hb
  have m2 := head2_mono ha hab hb
  have m3 := head3_mono ha hab hb
  norm_num
  linarith

/-- The degraded fraction does not increase with the ratio. -/
theorem degraded_anti {a b : ℚ} (ha : 0 < a) (hab : a ≤ b) (hb : b ≤ 1) :
    (renewalSolution b).getD 4 0 ≤ (renewalSolution a).getD 4 0 := by
  rw [renewalSolution_degraded ha, renewalSolution_degraded (lt_of_lt_of_le ha hab)]
  have m3 := head3_mono ha.le hab hb
  linarith

/-- A ratio above a feasible ratio is feasible. -/
theorem constraintsMet_mono {qualityThreshold degradedLimit a b : ℚ} (ha : 0 < a) (hab : a ≤ b)
    (hb : b ≤ 1) (h : constraintsMet qualityThreshold degradedLimit (renewalSolution a) = true) :
    constraintsMet qualityThreshold degradedLimit (renewalSolution b) = true := by
  simp only [constraintsMet, decide_eq_true_eq] at h ⊢
  exact ⟨le_trans h.1 (quality_mono ha.le hab hb), le_trans (degraded_anti ha hab hb) h.2⟩

/-- The loop with no pass left returns its bracket. -/
theorem bisect_zero (qualityThreshold degradedLimit tolerance : ℚ) (s : Bracket) :
    bisect qualityThreshold degradedLimit tolerance 0 s = Except.ok s := by
  rw [bisect]; rfl

/-- The loop with a pass left: the loop condition, then the body, then the loop. -/
theorem bisect_succ (qualityThreshold degradedLimit tolerance : ℚ) (fuel : Nat) (s : Bracket) :
    bisect qualityThreshold degradedLimit tolerance (fuel + 1) s =
      if s.alphaMax - s.alphaMin > tolerance ∧ s.iterations < maxIterations then
        (bisectPass qualityThreshold degradedLimit s).bind
          (bisect qualityThreshold degradedLimit tolerance fuel)
      else Except.ok s := by
  rw [bisect]; rfl

/-- The loop body, once the steady state at the midpoint is known. -/
theorem bisectPass_eq {qualityThreshold degradedLimit : ℚ} {s : Bracket} {piStock : List ℚ}
    (h : calculateSteadyState ((s.alphaMin + s.alphaMax) / 2) = Except.ok piStock) :
    bisectPass qualityThreshold degradedLimit s = Except.ok
      (if constraintsMet qualityThreshold degradedLimit piStock then
        { alphaMin := s.alphaMin, alphaMax := (s.alphaMin + s.alphaMax) / 2,
          iterations := s.iterations + 1 }
      else
        { alphaMin := (s.alphaMin + s.alphaMax) / 2, alphaMax := s.alphaMax,
          iterations := s.iterations + 1 }) := by
  unfold bisectPass
  simp only [h, bind, Except.bind, pure, Except.pure]
  split <;> rfl

/-- The loop body fails when `calculateSteadyState` fails at the midpoint. -/
theorem bisectPass_error {qualityThreshold degradedLimit : ℚ} {s : Bracket} {e : String}
    (h : calculateSteadyState ((s.alphaMin + s.alphaMax) / 2) = Except.error e) :
    bisectPass qualityThreshold degradedLimit s = Except.error e := by
  unfold bisectPass
  simp only [h, bind, Except.bind]

/-- What one pass of the loop body returns, when it returns. -/
theorem bisectPass_ok {qualityThreshold degradedLimit : ℚ} {s t : Bracket}
    (h : bisectPass qualityThreshold degradedLimit s = Except.ok t) :
    ∃ piStock, calculateSteadyState ((s.alphaMin + s.alphaMax) / 2) = Except.ok piStock ∧
      ((constraintsMet qualityThreshold degradedLimit piStock = true ∧
          t = { alphaMin := s.alphaMin, alphaMax := (s.alphaMin + s.alphaMax) / 2,
                iterations := s.iterations + 1 }) ∨
       (constraintsMet qualityThreshold degradedLimit piStock = false ∧
          t = { alphaMin := (s.alphaMin + s.alphaMax) / 2, alphaMax := s.alphaMax,
                iterations := s.iterations + 1 })) := by
  cases hpi : calculateSteadyState ((s.alphaMin + s.alphaMax) / 2) with
  | error e => rw [bisectPass_error hpi] at h; cases h
  | ok piStock =>
    rw [bisectPass_eq hpi] at h
    refine ⟨piStock, rfl, ?_⟩
    cases hm : constraintsMet qualityThreshold degradedLimit piStock with
    | true =>
      simp only [hm, if_true, Except.ok.injEq] at h
      exact Or.inl ⟨rfl, h.symm⟩
    | false =>
      simp only [hm, Bool.false_eq_true, if_false, Except.ok.injEq] at h
      exact Or.inr ⟨rfl, h.symm⟩

/-- A pass of the loop body returns when the midpoint is at least `1e-10`. -/
theorem bisectPass_returns (qualityThreshold degradedLimit : ℚ) {s : Bracket}
    (h : 1e-10 ≤ (s.alphaMin + s.alphaMax) / 2) :
    ∃ t, bisectPass qualityThreshold degradedLimit s = Except.ok t :=
  ⟨_, bisectPass_eq (calculateSteadyState_ok h)⟩

/-- An invariant of the bisection loop holds of the bracket the loop returns. -/
theorem bisect_invariant (qualityThreshold degradedLimit tolerance : ℚ) (Inv : Bracket → Prop)
    (hpass : ∀ s t, Inv s → tolerance < s.alphaMax - s.alphaMin →
      s.iterations < maxIterations →
      bisectPass qualityThreshold degradedLimit s = Except.ok t → Inv t) :
    ∀ (fuel : Nat) (s s' : Bracket), Inv s →
      bisect qualityThreshold degradedLimit tolerance fuel s = Except.ok s' → Inv s' := by
  intro fuel
  induction fuel with
  | zero =>
    intro s s' hs h
    simp only [bisect_zero, Except.ok.injEq] at h
    exact h ▸ hs
  | succ fuel ih =>
    intro s s' hs h
    rw [bisect_succ] at h
    by_cases hc : s.alphaMax - s.alphaMin > tolerance ∧ s.iterations < maxIterations
    · rw [if_pos hc] at h
      cases ht : bisectPass qualityThreshold degradedLimit s with
      | error e => rw [ht] at h; cases h
      | ok t =>
        rw [ht] at h
        exact ih t s' (hpass s t hs hc.1 hc.2 ht) h
    · rw [if_neg hc] at h
      simp only [Except.ok.injEq] at h
      exact h ▸ hs

/-- The bisection loop returns whenever an invariant keeps every midpoint it
visits at least `1e-10`, where `calculateSteadyState` returns. -/
theorem bisect_returns (qualityThreshold degradedLimit tolerance : ℚ) (Inv : Bracket → Prop)
    (hmid : ∀ s, Inv s → tolerance < s.alphaMax - s.alphaMin → s.iterations < maxIterations →
      1e-10 ≤ (s.alphaMin + s.alphaMax) / 2)
    (hpass : ∀ s t, Inv s → tolerance < s.alphaMax - s.alphaMin →
      s.iterations < maxIterations →
      bisectPass qualityThreshold degradedLimit s = Except.ok t → Inv t) :
    ∀ (fuel : Nat) (s : Bracket), Inv s →
      ∃ s', bisect qualityThreshold degradedLimit tolerance fuel s = Except.ok s' := by
  intro fuel
  induction fuel with
  | zero =>
    intro s _
    exact ⟨s, bisect_zero _ _ _ s⟩
  | succ fuel ih =>
    intro s hs
    rw [bisect_succ]
    by_cases hc : s.alphaMax - s.alphaMin > tolerance ∧ s.iterations < maxIterations
    · rw [if_pos hc]
      obtain ⟨t, ht⟩ := bisectPass_returns qualityThreshold degradedLimit (hmid s hs hc.1 hc.2)
      rw [ht]
      exact ih t (hpass s t hs hc.1 hc.2 ht)
    · rw [if_neg hc]
      exact ⟨s, rfl⟩

/-- With `maxIterations` passes allowed from `iterations = 0` the loop condition
is false at the bracket returned: the bound on the passes is never what stops
the loop. -/
theorem bisect_exit (qualityThreshold degradedLimit tolerance : ℚ) :
    ∀ (fuel : Nat) (s s' : Bracket), maxIterations ≤ s.iterations + fuel →
      bisect qualityThreshold degradedLimit tolerance fuel s = Except.ok s' →
      ¬ (s'.alphaMax - s'.alphaMin > tolerance ∧ s'.iterations < maxIterations) := by
  intro fuel
  induction fuel with
  | zero =>
    intro s s' hs h
    simp only [bisect_zero, Except.ok.injEq] at h
    subst h
    intro hc
    omega
  | succ fuel ih =>
    intro s s' hs h
    rw [bisect_succ] at h
    by_cases hc : s.alphaMax - s.alphaMin > tolerance ∧ s.iterations < maxIterations
    · rw [if_pos hc] at h
      cases ht : bisectPass qualityThreshold degradedLimit s with
      | error e => rw [ht] at h; cases h
      | ok t =>
        rw [ht] at h
        obtain ⟨piStock, -, hcase⟩ := bisectPass_ok ht
        have hit : t.iterations = s.iterations + 1 := by
          rcases hcase with ⟨-, rfl⟩ | ⟨-, rfl⟩ <;> rfl
        exact ih t s' (by omega) h
    · rw [if_neg hc] at h
      simp only [Except.ok.injEq] at h
      exact h ▸ hc

/-- The record `optimizeVirginRatio` builds from the bracket the loop returns. -/
theorem optimizeVirginRatio_eq {packingDensity qualityThreshold degradedLimit tolerance : ℚ}
    {s : Bracket} {piStock : List ℚ}
    (hs : bisect qualityThreshold degradedLimit tolerance maxIterations
      { alphaMin := packingDensity, alphaMax := 1.0, iterations := 0 } = Except.ok s)
    (hpi : calculateSteadyState s.alphaMax = Except.ok piStock) :
    optimizeVirginRatio packingDensity qualityThreshold degradedLimit tolerance = Except.ok
      { alphaOptimal := s.alphaMax
        piStock := piStock
        quality := calculateQuality piStock
        degradedFraction := piStock.getD 4 0
        iterations := s.iterations
        converged := decide (s.iterations < maxIterations) } := by
  unfold optimizeVirginRatio
  simp only [hs, hpi, bind, Except.bind, pure, Except.pure]

/-- Every result of `optimizeVirginRatio` is read off a bracket returned by the loop. -/
theorem optimizeVirginRatio_ok {packingDensity qualityThreshold degradedLimit tolerance : ℚ}
    {r : OptimizationResult}
    (h : optimizeVirginRatio packingDensity qualityThreshold degradedLimit tolerance =
      Except.ok r) :
    ∃ s, bisect qualityThreshold degradedLimit tolerance maxIterations
        { alphaMin := packingDensity, alphaMax := 1.0, iterations := 0 } = Except.ok s ∧
      calculateSteadyState s.alphaMax = Except.ok r.piStock ∧
      r.alphaOptimal = s.alphaMax ∧ r.quality = calculateQuality r.piStock ∧
      r.degradedFraction = r.piStock.getD 4 0 ∧ r.iterations = s.iterations ∧
      r.converged = decide (s.iterations < maxIterations) := by
  cases hs : bisect qualityThreshold degradedLimit tolerance maxIterations
      { alphaMin := packingDensity, alphaMax := 1.0, iterations := 0 } with
  | error e =>
    unfold optimizeVirginRatio at h
    simp only [hs, bind, Except.bind] at h
    cases h
  | ok s =>
    cases hpi : calculateSteadyState s.alphaMax with
    | error e =>
      unfold optimizeVirginRatio at h
      simp only [hs, hpi, bind, Except.bind] at h
      cases h
    | ok piStock =>
      rw [optimizeVirginRatio_eq hs hpi] at h
      cases h
      exact ⟨s, rfl, hpi, rfl, rfl, rfl, rfl, rfl⟩

/-- The bracket stays inside the one the loop starts from. -/
theorem bisect_bracket (qualityThreshold degradedLimit tolerance lo hi : ℚ) :
    ∀ (fuel : Nat) (s s' : Bracket), (lo ≤ s.alphaMin ∧ s.alphaMin ≤ s.alphaMax ∧ s.alphaMax ≤ hi) →
      bisect qualityThreshold degradedLimit tolerance fuel s = Except.ok s' →
      (lo ≤ s'.alphaMin ∧ s'.alphaMin ≤ s'.alphaMax ∧ s'.alphaMax ≤ hi) := by
  apply bisect_invariant
  intro s t hs _ _ ht
  obtain ⟨piStock, -, hcase⟩ := bisectPass_ok ht
  obtain ⟨h1, h2, h3⟩ := hs
  rcases hcase with ⟨-, rfl⟩ | ⟨-, rfl⟩
  · exact ⟨h1, by show s.alphaMin ≤ (s.alphaMin + s.alphaMax) / 2; linarith,
      by show (s.alphaMin + s.alphaMax) / 2 ≤ hi; linarith⟩
  · exact ⟨by show lo ≤ (s.alphaMin + s.alphaMax) / 2; linarith,
      by show (s.alphaMin + s.alphaMax) / 2 ≤ s.alphaMax; linarith, h3⟩

/-- The loop returns from every bracket whose lower end is at least `1e-10`. -/
theorem bisect_returns_of_le (qualityThreshold degradedLimit tolerance : ℚ) :
    ∀ (fuel : Nat) (s : Bracket), (1e-10 ≤ s.alphaMin ∧ s.alphaMin ≤ s.alphaMax) →
      ∃ s', bisect qualityThreshold degradedLimit tolerance fuel s = Except.ok s' := by
  apply bisect_returns
  · intro s hs _ _
    linarith [hs.1, hs.2]
  · intro s t hs _ _ ht
    obtain ⟨piStock, -, hcase⟩ := bisectPass_ok ht
    obtain ⟨h1, h2⟩ := hs
    rcases hcase with ⟨-, rfl⟩ | ⟨-, rfl⟩
    · exact ⟨h1, by show s.alphaMin ≤ (s.alphaMin + s.alphaMax) / 2; linarith⟩
    · exact ⟨by show 1e-10 ≤ (s.alphaMin + s.alphaMax) / 2; linarith,
        by show (s.alphaMin + s.alphaMax) / 2 ≤ s.alphaMax; linarith⟩

/-- The literal `1.0` is the number `1`. -/
theorem one_eq : (1.0 : ℚ) = 1 := by norm_num

/-- C1 (as stated, refuted): `calculateSteadyState(1.0)` is not the vector
`[1, 0, 0, 0, 0]`. -/
theorem steadyState_full_refresh_ne_fresh :
    calculateSteadyState 1.0 ≠ Except.ok [1, 0, 0, 0, 0] := by
  decide!

/-- C1 (amended): `calculateSteadyState(1.0)` returns row `0` of `P`, the vector
`[0.62, 0.33, 0.04, 0.01, 0]`: with a refresh ratio of 1 the stock is fresh
powder that has aged by one build. -/
theorem steadyState_full_refresh_eq_row0 :
    calculateSteadyState 1.0 = Except.ok [0.62, 0.33, 0.04, 0.01, 0] ∧
      (P.getD 0 [] : List ℚ) = [0.62, 0.33, 0.04, 0.01, 0] := by
  decide!

/-- C2 (as stated, refuted): at the refresh ratio `1e-11`, which lies in `(0, 1]`,
`calculateSteadyState` fails with the singular-matrix error. -/
theorem steadyState_singular_below_threshold :
    (0 : ℚ) < 1e-11 ∧ (1e-11 : ℚ) ≤ 1 ∧
      calculateSteadyState 1e-11 = Except.error "Matrix is singular or nearly singular" := by
  decide!

/-- C2 (amended): for a refresh ratio with `1e-10 ≤ alpha ≤ 1`,
`calculateSteadyState` returns a vector and the singular-matrix error is not
raised. -/
theorem steadyState_returns_above_threshold (alpha : ℚ) (h0 : 1e-10 ≤ alpha)
    (_h1 : alpha ≤ 1) :
    (∃ v, calculateSteadyState alpha = Except.ok v) ∧
      calculateSteadyState alpha ≠ Except.error "Matrix is singular or nearly singular" := by
  rw [calculateSteadyState_ok h0]
  exact ⟨⟨_, rfl⟩, fun h => Except.noConfusion h⟩

/-- C2 (amended), at the least ratio `1e-10`. -/
theorem steadyState_returns_above_threshold_witness :
    (∃ v, calculateSteadyState 1e-10 = Except.ok v) ∧
      calculateSteadyState 1e-10 ≠ Except.error "Matrix is singular or nearly singular" :=
  steadyState_returns_above_threshold 1e-10 (le_refl _) (by norm_num)

/-- C3: for a refresh ratio in `(0, 1]` at which `calculateSteadyState` returns a
vector, the components of the vector sum to exactly `1`. -/
theorem steadyState_sum_eq_one (alpha : ℚ) (v : List ℚ) (h0 : 0 < alpha) (_h1 : alpha ≤ 1)
    (hv : calculateSteadyState alpha = Except.ok v) : v.sum = 1 := by
  obtain ⟨-, rfl⟩ := calculateSteadyState_returns h0.le hv
  exact renewalSolution_sum h0

/-- C3 at the ratio `1 / 2`. -/
theorem steadyState_sum_eq_one_witness :
    ([31 / 69, 1100 / 3059, 17375 / 146832, 151975 / 3010056, 134299 / 6020112] : List ℚ).sum
      = 1 :=
  steadyState_sum_eq_one (1 / 2) _ (by norm_num) (by norm_num) (by decide!)

/-- C5 (as stated, refuted): in binary64 the quality at the ratio `0.5` is
`0.87593893601979511`, above the quality `0.87593893601979500` at the next
binary64 value `0.5000000000000001`; and the degraded fraction at `1e-10` is
`0.99999991620`, below the degraded fraction `1.0000000177` at `1e-9`. -/
theorem steadyState_binary64_not_monotone :
    ((0.5 : Binary64) ≤ 0.5000000000000001 ∧
      Double.calculateSteadyState 0.5 = Except.ok
        [Binary64.fin (8093425417303501/18014398509481984),
        Binary64.fin (6477881124691135/18014398509481984),
        Binary64.fin (8526756404659733/72057594037927936),
        Binary64.fin (3638122630912547/72057594037927936),
        Binary64.fin (1607488834377115/72057594037927936)] ∧
      Double.calculateSteadyState 0.5000000000000001 = Except.ok
        [Binary64.fin (8093425417303501/18014398509481984),
        Binary64.fin (6477881124691135/18014398509481984),
        Binary64.fin (2131689101164933/18014398509481984),
        Binary64.fin (1819061315456273/36028797018963968),
        Binary64.fin (6429955337508457/288230376151711744)] ∧
      Double.calculateQuality
        [Binary64.fin (8093425417303501/18014398509481984),
        Binary64.fin (6477881124691135/18014398509481984),
        Binary64.fin (8526756404659733/72057594037927936),
        Binary64.fin (3638122630912547/72057594037927936),
        Binary64.fin (1607488834377115/72057594037927936)] =
        Binary64.fin (1972439132929029/2251799813685248) ∧
      Double.calculateQuality
        [Binary64.fin (8093425417303501/18014398509481984),
        Binary64.fin (6477881124691135/18014398509481984),
        Binary64.fin (2131689101164933/18014398509481984),
        Binary64.fin (1819061315456273/36028797018963968),
        Binary64.fin (6429955337508457/288230376151711744)] =
        Binary64.fin (7889756531716115/9007199254740992) ∧
      ¬ (Binary64.fin (1972439132929029/2251799813685248) ≤
        Binary64.fin (7889756531716115/9007199254740992))) ∧
    ((1e-10 : Binary64) ≤ 1e-9 ∧
      Double.calculateSteadyState 1e-10 = Except.ok
        [Binary64.fin (6311865330852865/38685626227668133590597632),
        Binary64.fin (1272553493865195/4835703278458516698824704),
        Binary64.fin (5453800686266263/19342813113834066795298816),
        Binary64.fin (105716788627695/302231454903657293676544),
        Binary64.fin (9007198499951913/9007199254740992)] ∧
      Double.calculateSteadyState 1e-9 = Except.ok
        [Binary64.fin (986228956497561/604462909807314587353088),
        Binary64.fin (3181383724178121/1208925819614629174706176),
        Binary64.fin (6817250815931667/2417851639229258349412352),
        Binary64.fin (8457343011414663/2417851639229258349412352),
        Binary64.fin (2251799853545147/2251799813685248)] ∧
      ¬ (Binary64.fin (9007198499951913/9007199254740992) ≥
        Binary64.fin (2251799853545147/2251799813685248))) := by
  refine ⟨⟨by decide!, by decide!, by decide!, by decide!, by decide!, by decide!⟩,
    ⟨by decide!, by decide!, by decide!, by decide!⟩⟩

/-- C5 (amended): in exact arithmetic, for refresh ratios `a ≤ b` in `(0, 1]` at
which `calculateSteadyState` returns, the quality index at `a` is at most the one at `b`, and the degraded
fraction (component `4`) at `a` is at least the one at `b`. -/
theorem steadyState_quality_degraded_monotone (a b : ℚ) (va vb : List ℚ) (ha : 0 < a) (hab : a ≤ b)
    (hb : b ≤ 1) (hva : calculateSteadyState a = Except.ok va)
    (hvb : calculateSteadyState b = Except.ok vb) :
    calculateQuality va ≤ calculateQuality vb ∧ vb.getD 4 0 ≤ va.getD 4 0 := by
  obtain ⟨-, rfl⟩ := calculateSteadyState_returns ha.le hva
  obtain ⟨-, rfl⟩ := calculateSteadyState_returns (le_trans ha.le hab) hvb
  exact ⟨quality_mono ha.le hab hb, degraded_anti ha hab hb⟩

/-- C5 (amended) at the ratios `1 / 2` and `1`. -/
theorem steadyState_quality_degraded_monotone_witness :
    calculateQuality
        [31 / 69, 1100 / 3059, 17375 / 146832, 151975 / 3010056, 134299 / 6020112] ≤
      calculateQuality [0.62, 0.33, 0.04, 0.01, 0] ∧
    ([0.62, 0.33, 0.04, 0.01, 0] : List ℚ).getD 4 0 ≤
      ([31 / 69, 1100 / 3059, 17375 / 146832, 151975 / 3010056, 134299 / 6020112] :
        List ℚ).getD 4 0 :=
  steadyState_quality_degraded_monotone (1 / 2) 1 _ _ (by norm_num) (by norm_num) (by norm_num) (by decide!)
    (by decide!)

/-- A ratio that meets both constraints is never below the lower end of the
bracket: the lower end only moves to a midpoint that failed the test, and the
constraints are monotone in the ratio. -/
theorem bisect_alphaMin_le_feasible (qualityThreshold degradedLimit tolerance a : ℚ)
    (ha : 0 < a) (ha1 : a ≤ 1)
    (hfeas : constraintsMet qualityThreshold degradedLimit (renewalSolution a) = true) :
    ∀ (fuel : Nat) (s s' : Bracket),
      (s.alphaMin ≤ a ∧ s.alphaMin ≤ s.alphaMax ∧ s.alphaMax ≤ 1) →
      bisect qualityThreshold degradedLimit tolerance fuel s = Except.ok s' →
      (s'.alphaMin ≤ a ∧ s'.alphaMin ≤ s'.alphaMax ∧ s'.alphaMax ≤ 1) := by
  apply bisect_invariant
  intro s t hs _ _ ht
  obtain ⟨piStock, hpi, hcase⟩ := bisectPass_ok ht
  obtain ⟨h1, h2, h3⟩ := hs
  rcases hcase with ⟨-, rfl⟩ | ⟨hm, rfl⟩
  · exact ⟨h1, by show s.alphaMin ≤ (s.alphaMin + s.alphaMax) / 2; linarith,
      by show (s.alphaMin + s.alphaMax) / 2 ≤ 1; linarith⟩
  · refine ⟨?_, by show (s.alphaMin + s.alphaMax) / 2 ≤ s.alphaMax; linarith, h3⟩
    show (s.alphaMin + s.alphaMax) / 2 ≤ a
    by_contra hlt
    have hlt := (not_le.mp hlt).le
    have hmid1 : (s.alphaMin + s.alphaMax) / 2 ≤ 1 := by linarith
    obtain ⟨-, rfl⟩ := calculateSteadyState_returns (le_trans ha.le hlt) hpi
    rw [constraintsMet_mono ha hlt hmid1 hfeas] at hm
    cases hm

/-- From a bracket returned by the loop and the steady state at its upper end,
the record `optimizeVirginRatio` returns in binary64. -/
theorem optimizeVirginRatio_binary64_eq
    {packingDensity qualityThreshold degradedLimit tolerance : Binary64}
    {s : Double.Bracket} {piStock : List Binary64}
    (hs : Double.bisect qualityThreshold degradedLimit tolerance maxIterations
      { alphaMin := packingDensity, alphaMax := 1.0, iterations := 0 } = Except.ok s)
    (hpi : Double.calculateSteadyState s.alphaMax = Except.ok piStock) :
    Double.optimizeVirginRatio packingDensity qualityThreshold degradedLimit tolerance =
      Except.ok
        { alphaOptimal := s.alphaMax
          piStock := piStock
          quality := Double.calculateQuality piStock
          degradedFraction := piStock.getD 4 Binary64.nan
          iterations := s.iterations
          converged := decide (s.iterations < maxIterations) } := by
  unfold Double.optimizeVirginRatio
  simp only [hs, hpi, bind, Except.bind, pure, Except.pure]

/-- C4 (as stated, refuted): in binary64,
`optimizeVirginRatio(1e-10, 0, 0.99999995, 1e-11)` leaves its loop after 37
passes with a bracket no wider than the tolerance and returns the ratio
`4.5456e-9`, although the ratio `1e-10`, which lies in `[rho, 1]`, passes the
test of the code (quality `7.4e-10 ≥ 0`, degraded fraction
`0.99999991620 ≤ 0.99999995`): the ratio returned is above `1e-10 + 1e-11`. -/
theorem optimizeVirginRatio_binary64_not_minimal :
    Double.bisect 0 0.99999995 1e-11 maxIterations
        { alphaMin := 1e-10, alphaMax := 1.0, iterations := 0 } =
      Except.ok
        { alphaMin := Binary64.fin (2743254662485891/604462909807314587353088)
          alphaMax := Binary64.fin (2747652708996555/604462909807314587353088)
          iterations := 37 } ∧
    Binary64.fin (2747652708996555/604462909807314587353088) -
        Binary64.fin (2743254662485891/604462909807314587353088) ≤ (1e-11 : Binary64) ∧
    (∃ r, Double.optimizeVirginRatio 1e-10 0 0.99999995 1e-11 = Except.ok r ∧
      r.alphaOptimal = Binary64.fin (2747652708996555/604462909807314587353088) ∧
      r.converged = true) ∧
    Double.calculateSteadyState 1e-10 = Except.ok
      [Binary64.fin (6311865330852865/38685626227668133590597632),
      Binary64.fin (1272553493865195/4835703278458516698824704),
      Binary64.fin (5453800686266263/19342813113834066795298816),
      Binary64.fin (105716788627695/302231454903657293676544),
      Binary64.fin (9007198499951913/9007199254740992)] ∧
    Double.constraintsMet 0 0.99999995
      [Binary64.fin (6311865330852865/38685626227668133590597632),
      Binary64.fin (1272553493865195/4835703278458516698824704),
      Binary64.fin (5453800686266263/19342813113834066795298816),
      Binary64.fin (105716788627695/302231454903657293676544),
      Binary64.fin (9007198499951913/9007199254740992)] = true ∧
    ¬ (Binary64.fin (2747652708996555/604462909807314587353088) ≤
      (1e-10 + 1e-11 : Binary64)) := by
  have hb : Double.bisect 0 0.99999995 1e-11 maxIterations
        { alphaMin := 1e-10, alphaMax := 1.0, iterations := 0 } =
      Except.ok
        { alphaMin := Binary64.fin (2743254662485891/604462909807314587353088)
          alphaMax := Binary64.fin (2747652708996555/604462909807314587353088)
          iterations := 37 } := by
    decide!
  have hpi : Double.calculateSteadyState
        (Binary64.fin (2747652708996555/604462909807314587353088)) = Except.ok
      [Binary64.fin (8966024562860463/1208925819614629174706176),
      Binary64.fin (7230664903317199/604462909807314587353088),
      Binary64.fin (1936785214074689/151115727451828646838272),
      Binary64.fin (4805472802013723/302231454903657293676544),
      Binary64.fin (9007198804261915/9007199254740992)] := by
    decide!
  refine ⟨hb, by decide!, ⟨_, optimizeVirginRatio_binary64_eq hb hpi, rfl, by decide!⟩, by decide!,
    by decide!, by decide!⟩

/-- C4 (amended): in exact arithmetic, when the loop of `optimizeVirginRatio`
exits with a bracket no wider than the tolerance, the ratio returned exceeds no feasible ratio `a` of `[rho, 1]` by
more than the tolerance. -/
theorem optimizeVirginRatio_minimal_up_to_tolerance (packingDensity qualityThreshold degradedLimit tolerance a : ℚ)
    (s : Bracket) (r : OptimizationResult) (va : List ℚ)
    (hrho : 0 < packingDensity) (hrho1 : packingDensity < 1) (_htol : 0 < tolerance)
    (hloop : bisect qualityThreshold degradedLimit tolerance maxIterations
      { alphaMin := packingDensity, alphaMax := 1.0, iterations := 0 } = Except.ok s)
    (hwidth : s.alphaMax - s.alphaMin ≤ tolerance)
    (hr : optimizeVirginRatio packingDensity qualityThreshold degradedLimit tolerance =
      Except.ok r)
    (ha : packingDensity ≤ a) (ha1 : a ≤ 1)
    (hva : calculateSteadyState a = Except.ok va)
    (hquality : calculateQuality va ≥ qualityThreshold)
    (hdegraded : va.getD 4 0 ≤ degradedLimit) :
    r.alphaOptimal ≤ a + tolerance := by
  have ha0 : 0 < a := lt_of_lt_of_le hrho ha
  obtain ⟨-, rfl⟩ := calculateSteadyState_returns ha0.le hva
  have hfeas : constraintsMet qualityThreshold degradedLimit (renewalSolution a) = true := by
    simp only [constraintsMet, decide_eq_true_eq]
    exact ⟨hquality, hdegraded⟩
  obtain ⟨s', hs', -, hopt, -⟩ := optimizeVirginRatio_ok hr
  rw [hloop] at hs'
  cases hs'
  have hinv := bisect_alphaMin_le_feasible qualityThreshold degradedLimit tolerance a ha0 ha1 hfeas
    maxIterations _ s ⟨ha, by show packingDensity ≤ 1.0; rw [one_eq]; exact hrho1.le,
      by show (1.0 : ℚ) ≤ 1; rw [one_eq]⟩ hloop
  rw [hopt]
  linarith [hinv.1]

/-- C4 (amended) at `optimizeVirginRatio(0.29, 0.60, 0.12, 0.2)` and the feasible ratio `0.29`. -/
theorem optimizeVirginRatio_minimal_up_to_tolerance_witness :
    (0.4675 : ℚ) ≤ 0.29 + 0.2 :=
  optimizeVirginRatio_minimal_up_to_tolerance 0.29 0.60 0.12 0.2 0.29
    { alphaMin := 0.29, alphaMax := 0.4675, iterations := 2 } _ _
    (by norm_num) (by norm_num) (by norm_num) (by decide!) (by decide!)
    (optimizeVirginRatio_eq
      (show bisect 0.60 0.12 0.2 maxIterations
          { alphaMin := 0.29, alphaMax := 1.0, iterations := 0 } =
        Except.ok { alphaMin := 0.29, alphaMax := 0.4675, iterations := 2 } by decide!)
      (calculateSteadyState_ok (by norm_num)))
    (by norm_num) (by norm_num) (calculateSteadyState_ok (by norm_num)) (by decide!) (by decide!)

/-- With thresholds `0` and `1` every ratio of `(0, 1]` passes the constraint test. -/
theorem constraintsMet_trivial {x : ℚ} (hx : 0 < x) (hx1 : x ≤ 1) :
    constraintsMet 0 1 (renewalSolution x) = true := by
  have hq0 : calculateQuality (renewalSolution 0) = 0 := by
    rw [renewalSolution_quality le_rfl]
    norm_num [headNum0, headNum1, headNum2, headNum3]
  have hq := quality_mono le_rfl hx.le hx1
  have h3 := head3_mono le_rfl hx.le hx1
  have h30 : headNum3 0 / headDen3 0 = 0 := by norm_num [headNum3]
  simp only [constraintsMet, decide_eq_true_eq]
  refine ⟨by rw [← hq0]; exact hq, ?_⟩
  rw [renewalSolution_degraded hx]
  linarith

/-- From the bracket `[1/2, 1/2 + 1/2^(m+1)]` reached after `m` passes, with
thresholds `0` and `1` and tolerance `1/2^51`, the loop runs until pass 50. -/
theorem bisect_halving :
    ∀ (fuel m : Nat), m + fuel = 50 →
      bisect 0 1 (1 / 2 ^ 51) fuel
        { alphaMin := 1 / 2, alphaMax := 1 / 2 + 1 / 2 ^ (m + 1), iterations := m } =
      Except.ok { alphaMin := 1 / 2, alphaMax := 1 / 2 + 1 / 2 ^ 51, iterations := 50 } := by
  intro fuel
  induction fuel with
  | zero =>
    intro m hm
    have : m = 50 := by omega
    subst this
    exact bisect_zero _ _ _ _
  | succ fuel ih =>
    intro m hm
    have hm50 : m < 50 := by omega
    have hpow : (1 : ℚ) / 2 ^ 51 < 1 / 2 ^ (m + 1) := by
      apply one_div_lt_one_div_of_lt (by positivity)
      exact pow_lt_pow_right₀ (by norm_num) (by omega)
    have hmid : ((1 : ℚ) / 2 + (1 / 2 + 1 / 2 ^ (m + 1))) / 2 = 1 / 2 + 1 / 2 ^ (m + 1 + 1) := by
      rw [pow_succ 2 (m + 1)]
      field_simp
      ring
    have hle : (1 : ℚ) / 2 ^ (m + 1 + 1) ≤ 1 / 2 := by
      apply one_div_le_one_div_of_le (by norm_num)
      calc (2 : ℚ) = 2 ^ 1 := by norm_num
        _ ≤ 2 ^ (m + 1 + 1) := pow_le_pow_right₀ (by norm_num) (by omega)
    have hpos : (0 : ℚ) < 1 / 2 ^ (m + 1 + 1) := by positivity
    rw [bisect_succ, if_pos ⟨by show (1 : ℚ) / 2 + 1 / 2 ^ (m + 1) - 1 / 2 > 1 / 2 ^ 51; linarith,
      by show m < 50; exact hm50⟩]
    have hsmall : (1e-10 : ℚ) ≤ 1 / 2 := by norm_num
    have hcss := @calculateSteadyState_ok
      (((1 : ℚ) / 2 + (1 / 2 + 1 / 2 ^ (m + 1))) / 2) (by rw [hmid]; linarith)
    have hmet := @constraintsMet_trivial
      (((1 : ℚ) / 2 + (1 / 2 + 1 / 2 ^ (m + 1))) / 2) (by rw [hmid]; linarith)
      (by rw [hmid]; linarith)
    have hpass := @bisectPass_eq 0 1
      { alphaMin := 1 / 2, alphaMax := 1 / 2 + 1 / 2 ^ (m + 1), iterations := m } _ hcss
    rw [hpass, hmet, if_pos rfl]
    show bisect 0 1 (1 / 2 ^ 51) fuel _ = _
    rw [hmid]
    exact ih (m + 1) (by omega)

/-- C6: at `packingDensity = 0.5`, thresholds `0` and `1` and
`tolerance = 1 / 2 ^ 51` the loop of `optimizeVirginRatio` ends after its 50th
pass with a bracket of width exactly the tolerance, so the width test is what
fails in the loop condition, and yet the flag `converged` is `false`. -/
theorem converged_false_at_tolerance :
    (bisect 0 1 (1 / 2 ^ 51) maxIterations
        { alphaMin := 0.5, alphaMax := 1.0, iterations := 0 }).map
      (fun s => (decide (s.alphaMax - s.alphaMin ≤ 1 / 2 ^ 51), s.iterations)) =
        Except.ok (true, 50) ∧
    (optimizeVirginRatio 0.5 0 1 (1 / 2 ^ 51)).map
      (fun r => (r.iterations, r.converged)) = Except.ok (50, false) := by
  have hs : bisect 0 1 (1 / 2 ^ 51) maxIterations
      { alphaMin := 0.5, alphaMax := 1.0, iterations := 0 } =
      Except.ok { alphaMin := 1 / 2, alphaMax := 1 / 2 + 1 / 2 ^ 51, iterations := 50 } := by
    have h := bisect_halving 50 0 (by norm_num)
    have e1 : (0.5 : ℚ) = 1 / 2 := by norm_num
    have e2 : (1.0 : ℚ) = 1 / 2 + 1 / 2 ^ (0 + 1) := by norm_num
    rw [e1, e2]
    exact h
  constructor
  · rw [hs]
    show Except.ok (decide ((1 : ℚ) / 2 + 1 / 2 ^ 51 - 1 / 2 ≤ 1 / 2 ^ 51), 50) = _
    have : ((1 : ℚ) / 2 + 1 / 2 ^ 51 - 1 / 2 ≤ 1 / 2 ^ 51) := by norm_num
    rw [decide_eq_true this]
  · rw [optimizeVirginRatio_eq hs (calculateSteadyState_ok (by norm_num))]
    rfl

/-- With the tolerance `0.001` the loop makes at most ten passes and every
midpoint it visits is above `1e-10`. -/
theorem bisect_default_tolerance (qualityThreshold degradedLimit : ℚ) :
    ∀ (fuel : Nat) (s : Bracket),
      (0 ≤ s.alphaMin ∧ s.alphaMin ≤ s.alphaMax ∧ 5e-4 ≤ s.alphaMax ∧
        (s.alphaMax - s.alphaMin) * 2 ^ s.iterations ≤ 1 ∧ s.iterations ≤ 10) →
      ∃ s', bisect qualityThreshold degradedLimit 0.001 fuel s = Except.ok s' ∧
        (0 ≤ s'.alphaMin ∧ s'.alphaMin ≤ s'.alphaMax ∧ 5e-4 ≤ s'.alphaMax ∧
          (s'.alphaMax - s'.alphaMin) * 2 ^ s'.iterations ≤ 1 ∧ s'.iterations ≤ 10) := by
  have hpass : ∀ s t : Bracket,
      (0 ≤ s.alphaMin ∧ s.alphaMin ≤ s.alphaMax ∧ 5e-4 ≤ s.alphaMax ∧
        (s.alphaMax - s.alphaMin) * 2 ^ s.iterations ≤ 1 ∧ s.iterations ≤ 10) →
      (0.001 : ℚ) < s.alphaMax - s.alphaMin → s.iterations < maxIterations →
      bisectPass qualityThreshold degradedLimit s = Except.ok t →
      (0 ≤ t.alphaMin ∧ t.alphaMin ≤ t.alphaMax ∧ 5e-4 ≤ t.alphaMax ∧
        (t.alphaMax - t.alphaMin) * 2 ^ t.iterations ≤ 1 ∧ t.iterations ≤ 10) := by
    intro s t hs hw _ ht
    obtain ⟨piStock, -, hcase⟩ := bisectPass_ok ht
    obtain ⟨h1, h2, h3, h4, h5⟩ := hs
    have hpow : (0 : ℚ) < 2 ^ s.iterations := by positivity
    have hit : s.iterations + 1 ≤ 10 := by
      by_contra hgt
      have h10 : s.iterations = 10 := by omega
      rw [h10] at h4
      norm_num at h4 hw
      linarith
    have hhalf : ((s.alphaMax - s.alphaMin) / 2) * 2 ^ (s.iterations + 1) ≤ 1 := by
      rw [pow_succ]
      linarith
    norm_num at hw h3
    rcases hcase with ⟨-, rfl⟩ | ⟨-, rfl⟩
    · refine ⟨h1, ?_, ?_, ?_, hit⟩
      · show s.alphaMin ≤ (s.alphaMin + s.alphaMax) / 2
        linarith
      · show (5e-4 : ℚ) ≤ (s.alphaMin + s.alphaMax) / 2
        norm_num
        linarith
      · show ((s.alphaMin + s.alphaMax) / 2 - s.alphaMin) * 2 ^ (s.iterations + 1) ≤ 1
        have e : (s.alphaMin + s.alphaMax) / 2 - s.alphaMin = (s.alphaMax - s.alphaMin) / 2 := by
          ring
        rw [e]
        exact hhalf
    · refine ⟨?_, ?_, ?_, ?_, hit⟩
      · show 0 ≤ (s.alphaMin + s.alphaMax) / 2
        linarith
      · show (s.alphaMin + s.alphaMax) / 2 ≤ s.alphaMax
        linarith
      · show (5e-4 : ℚ) ≤ s.alphaMax
        norm_num
        linarith
      · show (s.alphaMax - (s.alphaMin + s.alphaMax) / 2) * 2 ^ (s.iterations + 1) ≤ 1
        have e : s.alphaMax - (s.alphaMin + s.alphaMax) / 2 = (s.alphaMax - s.alphaMin) / 2 := by
          ring
        rw [e]
        exact hhalf
  intro fuel s hs
  obtain ⟨s', hs'⟩ := bisect_returns qualityThreshold degradedLimit 0.001 _
    (fun s hs hw _ => by
      obtain ⟨h1, h2, h3, -⟩ := hs
      norm_num at hw ⊢
      linarith) hpass fuel s hs
  exact ⟨s', hs', bisect_invariant qualityThreshold degradedLimit 0.001 _ hpass fuel s s' hs hs'⟩

/-- C7: for a packing density in `(0, 0.5]`, any thresholds and the default
tolerance `0.001`, `optimizeVirginRatio` returns with `iterations ≤ 50` and
`converged = true`; and `optimizeVirginRatio(0.29, 0.60, 0.12)` returns
`converged = true` and a ratio in `[0.29, 1]`. -/
theorem optimizeVirginRatio_default_converges (packingDensity qualityThreshold degradedLimit : ℚ)
    (h0 : 0 < packingDensity) (h1 : packingDensity ≤ 0.5) :
    (∃ r, optimizeVirginRatio packingDensity qualityThreshold degradedLimit 0.001 = Except.ok r ∧
      r.iterations ≤ 50 ∧ r.converged = true) ∧
    (∃ r, optimizeVirginRatio 0.29 0.60 0.12 0.001 = Except.ok r ∧ r.converged = true ∧
      0.29 ≤ r.alphaOptimal ∧ r.alphaOptimal ≤ 1.0) := by
  have key : ∀ rho Q eps : ℚ, 0 < rho → rho ≤ 1 →
      ∃ r, optimizeVirginRatio rho Q eps 0.001 = Except.ok r ∧
        r.iterations ≤ 50 ∧ r.converged = true ∧ rho ≤ r.alphaOptimal ∧ r.alphaOptimal ≤ 1 := by
    intro rho Q eps hr0 hr1
    obtain ⟨s, hs, -, -, h3, -, h5⟩ := bisect_default_tolerance Q eps maxIterations
      { alphaMin := rho, alphaMax := 1.0, iterations := 0 }
      ⟨hr0.le, by show rho ≤ 1.0; rw [one_eq]; exact hr1, by norm_num,
        by show ((1.0 : ℚ) - rho) * 2 ^ 0 ≤ 1; rw [one_eq]; linarith, Nat.zero_le _⟩
    have hb := bisect_bracket Q eps 0.001 rho 1 maxIterations _ s
      ⟨le_refl _, by show rho ≤ 1.0; rw [one_eq]; exact hr1, by show (1.0 : ℚ) ≤ 1; rw [one_eq]⟩ hs
    have hpi := @calculateSteadyState_ok s.alphaMax
      (le_trans (by norm_num) h3)
    refine ⟨_, optimizeVirginRatio_eq hs hpi, ?_, ?_, ?_, ?_⟩
    · show s.iterations ≤ 50
      omega
    · show decide (s.iterations < maxIterations) = true
      rw [decide_eq_true_eq]
      show s.iterations < 50
      omega
    · exact le_trans hb.1 hb.2.1
    · exact hb.2.2
  constructor
  · obtain ⟨r, hr, hit, hc, -⟩ := key packingDensity qualityThreshold degradedLimit h0
      (le_trans h1 (by norm_num))
    exact ⟨r, hr, hit, hc⟩
  · obtain ⟨r, hr, -, hc, hlo, hhi⟩ := key 0.29 0.60 0.12 (by norm_num) (by norm_num)
    exact ⟨r, hr, hc, hlo, by rw [one_eq]; exact hhi⟩

/-- C7 at the packing density `0.29`. -/
theorem optimizeVirginRatio_default_converges_witness :
    (∃ r, optimizeVirginRatio 0.29 0.60 0.12 0.001 = Except.ok r ∧
      r.iterations ≤ 50 ∧ r.converged = true) ∧
    (∃ r, optimizeVirginRatio 0.29 0.60 0.12 0.001 = Except.ok r ∧ r.converged = true ∧
      0.29 ≤ r.alphaOptimal ∧ r.alphaOptimal ≤ 1.0) :=
  optimizeVirginRatio_default_converges 0.29 0.60 0.12 (by norm_num) (by norm_num)

/-- When `converged` is `true` the loop has left a bracket no wider than the
tolerance. -/
theorem converged_width {packingDensity qualityThreshold degradedLimit tolerance : ℚ}
    {r : OptimizationResult} {s : Bracket}
    (hr : optimizeVirginRatio packingDensity qualityThreshold degradedLimit tolerance =
      Except.ok r)
    (hs : bisect qualityThreshold degradedLimit tolerance maxIterations
      { alphaMin := packingDensity, alphaMax := 1.0, iterations := 0 } = Except.ok s)
    (hc : r.converged = true) : s.alphaMax - s.alphaMin ≤ tolerance := by
  obtain ⟨s', hs', -, -, -, -, -, hconv⟩ := optimizeVirginRatio_ok hr
  rw [hs] at hs'
  cases hs'
  rw [hc] at hconv
  have hit : s.iterations < maxIterations := of_decide_eq_true hconv.symm
  have hexit := bisect_exit qualityThreshold degradedLimit tolerance maxIterations _ s
    (by show maxIterations ≤ 0 + maxIterations; omega) hs
  by_contra hw
  exact hexit ⟨not_le.mp hw, hit⟩

/-- C8: for a packing density in `(0, 1]` the bracket returned by the loop, after
any number of passes, satisfies `rho ≤ alphaMin ≤ alphaMax ≤ 1`, and every ratio
returned by `optimizeVirginRatio` lies in `[rho, 1]`; a result is returned
whenever `rho ≥ 1e-10`. -/
theorem optimizeVirginRatio_ratio_in_bracket (packingDensity qualityThreshold degradedLimit tolerance : ℚ)
    (_h0 : 0 < packingDensity) (h1 : packingDensity ≤ 1) :
    (∀ (passes : Nat) (s : Bracket),
      bisect qualityThreshold degradedLimit tolerance passes
        { alphaMin := packingDensity, alphaMax := 1.0, iterations := 0 } = Except.ok s →
      packingDensity ≤ s.alphaMin ∧ s.alphaMin ≤ s.alphaMax ∧ s.alphaMax ≤ 1) ∧
    (∀ r, optimizeVirginRatio packingDensity qualityThreshold degradedLimit tolerance =
        Except.ok r → packingDensity ≤ r.alphaOptimal ∧ r.alphaOptimal ≤ 1) ∧
    (1e-10 ≤ packingDensity →
      ∃ r, optimizeVirginRatio packingDensity qualityThreshold degradedLimit tolerance =
        Except.ok r) := by
  have hinit : packingDensity ≤ packingDensity ∧ packingDensity ≤ (1.0 : ℚ) ∧ (1.0 : ℚ) ≤ 1 :=
    ⟨le_refl _, by rw [one_eq]; exact h1, by rw [one_eq]⟩
  have hb : ∀ (passes : Nat) (s : Bracket),
      bisect qualityThreshold degradedLimit tolerance passes
        { alphaMin := packingDensity, alphaMax := 1.0, iterations := 0 } = Except.ok s →
      packingDensity ≤ s.alphaMin ∧ s.alphaMin ≤ s.alphaMax ∧ s.alphaMax ≤ 1 :=
    fun passes s hs =>
      bisect_bracket qualityThreshold degradedLimit tolerance packingDensity 1 passes _ s hinit hs
  refine ⟨hb, ?_, ?_⟩
  · intro r hr
    obtain ⟨s, hs, -, hopt, -⟩ := optimizeVirginRatio_ok hr
    have := hb _ s hs
    rw [hopt]
    exact ⟨le_trans this.1 this.2.1, this.2.2⟩
  · intro hlow
    obtain ⟨s, hs⟩ := bisect_returns_of_le qualityThreshold degradedLimit tolerance maxIterations
      { alphaMin := packingDensity, alphaMax := 1.0, iterations := 0 } ⟨hlow, hinit.2.1⟩
    have := hb _ s hs
    exact ⟨_, optimizeVirginRatio_eq hs
      (calculateSteadyState_ok (le_trans hlow (le_trans this.1 this.2.1)))⟩

/-- C8 at `optimizeVirginRatio(0.29, 0.60, 0.12, 0.001)`. -/
theorem optimizeVirginRatio_ratio_in_bracket_witness :
    ∃ r, optimizeVirginRatio 0.29 0.60 0.12 0.001 = Except.ok r :=
  (optimizeVirginRatio_ratio_in_bracket 0.29 0.60 0.12 0.001 (by norm_num) (by norm_num)).2.2
    (by norm_num)

/-- When the constraints fail at the ratio `1` they fail at every ratio of
`(0, 1]`, so a pass of the loop leaves the upper end of the bracket at `1`. -/
theorem bisectPass_of_infeasible {qualityThreshold degradedLimit : ℚ}
    (hfail : constraintsMet qualityThreshold degradedLimit (renewalSolution 1) = false)
    {s t : Bracket} (hs : 0 < s.alphaMin ∧ s.alphaMin ≤ s.alphaMax ∧ s.alphaMax = 1)
    (ht : bisectPass qualityThreshold degradedLimit s = Except.ok t) :
    0 < t.alphaMin ∧ t.alphaMin ≤ t.alphaMax ∧ t.alphaMax = 1 := by
  obtain ⟨piStock, hpi, hcase⟩ := bisectPass_ok ht
  obtain ⟨h1, h2, h3⟩ := hs
  have hmid0 : 0 < (s.alphaMin + s.alphaMax) / 2 := by linarith
  have hmid1 : (s.alphaMin + s.alphaMax) / 2 ≤ 1 := by linarith
  rcases hcase with ⟨hm, rfl⟩ | ⟨-, rfl⟩
  · obtain ⟨-, rfl⟩ := calculateSteadyState_returns hmid0.le hpi
    rw [constraintsMet_mono hmid0 hmid1 (le_refl 1) hm] at hfail
    cases hfail
  · exact ⟨hmid0, by show (s.alphaMin + s.alphaMax) / 2 ≤ s.alphaMax; linarith, h3⟩

/-- C9: when the constraints fail at the ratio `1.0`, `optimizeVirginRatio`
returns, for every packing density in `(0, 1)` and positive tolerance, the
ratio `1.0` exactly. -/
theorem optimizeVirginRatio_infeasible_returns_one (packingDensity qualityThreshold degradedLimit tolerance : ℚ)
    (v1 : List ℚ) (h0 : 0 < packingDensity) (h1 : packingDensity < 1) (_htol : 0 < tolerance)
    (hv1 : calculateSteadyState 1.0 = Except.ok v1)
    (hfail : calculateQuality v1 < qualityThreshold ∨ v1.getD 4 0 > degradedLimit) :
    ∃ r, optimizeVirginRatio packingDensity qualityThreshold degradedLimit tolerance =
      Except.ok r ∧ r.alphaOptimal = 1.0 := by
  rw [one_eq] at hv1
  obtain ⟨-, rfl⟩ := calculateSteadyState_returns zero_le_one hv1
  have hfail' : constraintsMet qualityThreshold degradedLimit (renewalSolution 1) = false := by
    simp only [constraintsMet, decide_eq_false_iff_not, not_and_or, not_le]
    exact hfail
  have hinit : 0 < packingDensity ∧ packingDensity ≤ (1.0 : ℚ) ∧ (1.0 : ℚ) = 1 :=
    ⟨h0, by rw [one_eq]; exact h1.le, one_eq⟩
  have hmid : ∀ s : Bracket, (0 < s.alphaMin ∧ s.alphaMin ≤ s.alphaMax ∧ s.alphaMax = 1) →
      tolerance < s.alphaMax - s.alphaMin → s.iterations < maxIterations →
      (1e-10 : ℚ) ≤ (s.alphaMin + s.alphaMax) / 2 := by
    intro s hs _ _
    obtain ⟨a, b, c⟩ := hs
    norm_num
    linarith
  have hpass : ∀ s t : Bracket, (0 < s.alphaMin ∧ s.alphaMin ≤ s.alphaMax ∧ s.alphaMax = 1) →
      tolerance < s.alphaMax - s.alphaMin → s.iterations < maxIterations →
      bisectPass qualityThreshold degradedLimit s = Except.ok t →
      (0 < t.alphaMin ∧ t.alphaMin ≤ t.alphaMax ∧ t.alphaMax = 1) :=
    fun s t hs _ _ ht => bisectPass_of_infeasible hfail' hs ht
  obtain ⟨s, hs⟩ := bisect_returns qualityThreshold degradedLimit tolerance _ hmid hpass
    maxIterations { alphaMin := packingDensity, alphaMax := 1.0, iterations := 0 } hinit
  have hmax : s.alphaMax = 1 := (bisect_invariant qualityThreshold degradedLimit tolerance _ hpass
    maxIterations _ s hinit hs).2.2
  refine ⟨_, optimizeVirginRatio_eq hs (calculateSteadyState_ok (by rw [hmax]; norm_num)), ?_⟩
  show s.alphaMax = 1.0
  rw [hmax, one_eq]

/-- C9 at `optimizeVirginRatio(0.29, 0.95, 0.12, 0.001)`: the quality at the ratio
`1.0` is `0.949`, below the threshold `0.95`. -/
theorem optimizeVirginRatio_infeasible_returns_one_witness :
    ∃ r, optimizeVirginRatio 0.29 0.95 0.12 0.001 = Except.ok r ∧ r.alphaOptimal = 1.0 :=
  optimizeVirginRatio_infeasible_returns_one 0.29 0.95 0.12 0.001 [0.62, 0.33, 0.04, 0.01, 0]
    (by norm_num) (by norm_num) (by norm_num) (by decide!) (Or.inl (by decide!))

/-- C10 (as stated, refuted): at `packingDensity = 0.9995`, `qualityThreshold =
0.95`, `degradedLimit = 0.12` and `tolerance = 0.001` the ratio returned is
within the tolerance of the packing density and the quality returned is below
the threshold. -/
theorem near_density_not_feasible :
    (optimizeVirginRatio 0.9995 0.95 0.12 0.001).map
      (fun r => (r.alphaOptimal, decide (r.alphaOptimal - 0.9995 ≤ 0.001),
        decide (r.quality ≥ 0.95), r.quality, decide (r.degradedFraction ≤ 0.12))) =
      Except.ok (1, true, false, 0.949, true) := by
  decide!

/-- The upper end of the bracket is `1.0` or a midpoint that passed the
constraint test. -/
theorem bisect_alphaMax_feasible (qualityThreshold degradedLimit tolerance : ℚ) :
    ∀ (fuel : Nat) (s s' : Bracket),
      (s.alphaMax = 1.0 ∨ ∃ piStock, calculateSteadyState s.alphaMax = Except.ok piStock ∧
        constraintsMet qualityThreshold degradedLimit piStock = true) →
      bisect qualityThreshold degradedLimit tolerance fuel s = Except.ok s' →
      (s'.alphaMax = 1.0 ∨ ∃ piStock, calculateSteadyState s'.alphaMax = Except.ok piStock ∧
        constraintsMet qualityThreshold degradedLimit piStock = true) := by
  apply bisect_invariant
  intro s t hs _ _ ht
  obtain ⟨piStock, hpi, hcase⟩ := bisectPass_ok ht
  rcases hcase with ⟨hm, rfl⟩ | ⟨-, rfl⟩
  · exact Or.inr ⟨piStock, hpi, hm⟩
  · exact hs

/-- C10 (amended): when the ratio returned is within the tolerance of the
packing density, and either the loop ran (the first bracket `[rho, 1]` is wider
than the tolerance) or the constraints hold at the ratio `1.0`, the quality and
degraded fraction returned satisfy both thresholds. -/
theorem optimizeVirginRatio_near_density_feasible (packingDensity qualityThreshold degradedLimit tolerance : ℚ)
    (r : OptimizationResult) (_h0 : 0 < packingDensity) (_h1 : packingDensity ≤ 1)
    (_htol : 0 < tolerance)
    (hr : optimizeVirginRatio packingDensity qualityThreshold degradedLimit tolerance =
      Except.ok r)
    (hnear : r.alphaOptimal - packingDensity ≤ tolerance)
    (hran : tolerance < 1 - packingDensity ∨
      ∃ v1, calculateSteadyState 1.0 = Except.ok v1 ∧
        constraintsMet qualityThreshold degradedLimit v1 = true) :
    r.quality ≥ qualityThreshold ∧ r.degradedFraction ≤ degradedLimit := by
  obtain ⟨s, hs, hpi, hopt, hq, hd, -⟩ := optimizeVirginRatio_ok hr
  have hinv := bisect_alphaMax_feasible qualityThreshold degradedLimit tolerance maxIterations
    _ s (Or.inl rfl) hs
  have hfeas : ∃ piStock, calculateSteadyState s.alphaMax = Except.ok piStock ∧
      constraintsMet qualityThreshold degradedLimit piStock = true := by
    rcases hinv with hone | hfeas
    · rcases hran with hlt | hv1
      · rw [hopt, hone, one_eq] at hnear
        linarith
      · rw [hone]
        exact hv1
    · exact hfeas
  obtain ⟨piStock, hpi', hm⟩ := hfeas
  rw [hpi] at hpi'
  cases hpi'
  simp only [constraintsMet, decide_eq_true_eq] at hm
  rw [hq, hd]
  exact hm

/-- C10 (amended) at `optimizeVirginRatio(0.29, 0.60, 0.12, 0.2)`. -/
theorem optimizeVirginRatio_near_density_feasible_witness :
    calculateQuality (renewalSolution 0.4675) ≥ 0.60 ∧
      (renewalSolution 0.4675).getD 4 0 ≤ 0.12 :=
  optimizeVirginRatio_near_density_feasible 0.29 0.60 0.12 0.2 _
    (by norm_num) (by norm_num) (by norm_num)
    (optimizeVirginRatio_eq
      (show bisect 0.60 0.12 0.2 maxIterations
          { alphaMin := 0.29, alphaMax := 1.0, iterations := 0 } =
        Except.ok { alphaMin := 0.29, alphaMax := 0.4675, iterations := 2 } by decide!)
      (calculateSteadyState_ok (by norm_num)))
    (by show (0.4675 : ℚ) - 0.29 ≤ 0.2; norm_num) (Or.inl (by norm_num))

/-! ### Gauss-Jordan elimination on a square matrix of any order -/

/-- Reading position `k` of a list mapped over its enumeration. -/
theorem getD_enum_map {α β : Type} (f : Nat × α → β) (l : List α) (k : Nat) (d : β) :
    (l.enum.map f).getD k d = (l[k]?.map fun x => f (k, x)).getD d := by
  simp only [List.getD_eq_getElem?_getD, List.getElem?_map, List.getElem?_enum, Option.map_map]
  rfl

/-- Mapping over the enumeration keeps the length. -/
theorem length_enum_map {α β : Type} (f : Nat × α → β) (l : List α) :
    (l.enum.map f).length = l.length := by
  simp

/-- An entry of an existing row is read from that row. -/
theorem entry_of_lt {M : Mat} {k j : Nat} (hk : k < M.length) :
    entry M k j = (M[k]).getD j 0 := by
  simp [entry, List.getD_eq_getElem?_getD, List.getElem?_eq_getElem hk]

/-- Rows of the matrix after the exchange of rows `i` and `m`. -/
theorem getD_swapRows (aug : Mat) (i m k : Nat) (hi : i < aug.length) (hm : m < aug.length) :
    (swapRows aug i m).getD k [] =
      if k = m then aug.getD i [] else if k = i then aug.getD m [] else aug.getD k [] := by
  unfold swapRows
  simp only [List.getD_eq_getElem?_getD, List.getElem?_set, List.length_set]
  by_cases h1 : m = k
  · subst h1
    simp [hm]
  · by_cases h2 : i = k
    · subst h2
      simp [h1, hi, Ne.symm h1]
    · simp [h1, h2, Ne.symm h1, Ne.symm h2]

/-- The exchange of two rows keeps the number of rows. -/
theorem length_swapRows (aug : Mat) (i m : Nat) : (swapRows aug i m).length = aug.length := by
  simp [swapRows]

/-- Rows of the matrix after the pivot row is divided by the pivot. -/
theorem getD_scalePivotRow (n : Nat) (aug : Mat) (i k : Nat) (pivot : ℚ) (hi : i < aug.length) :
    (scalePivotRow n aug i pivot).getD k [] =
      if k = i then
        (aug.getD i []).enum.map fun (p : Nat × ℚ) => if p.1 < 2 * n then p.2 / pivot else p.2
      else aug.getD k [] := by
  unfold scalePivotRow
  simp only [List.getD_eq_getElem?_getD, List.getElem?_set]
  by_cases h : i = k
  · subst h
    simp [hi]
  · simp [h, Ne.symm h]

/-- Scaling the pivot row keeps the number of rows. -/
theorem length_scalePivotRow (n : Nat) (aug : Mat) (i : Nat) (pivot : ℚ) :
    (scalePivotRow n aug i pivot).length = aug.length := by
  simp [scalePivotRow]

/-- Rows of the matrix after column `i` is cleared. -/
theorem getD_eliminateColumn (n : Nat) (aug : Mat) (i k : Nat) :
    (eliminateColumn n aug i).getD k [] =
      if k < n ∧ k ≠ i then
        (aug.getD k []).enum.map fun (p : Nat × ℚ) =>
          if p.1 < 2 * n then p.2 - entry aug k i * entry aug i p.1 else p.2
      else aug.getD k [] := by
  unfold eliminateColumn
  rw [getD_enum_map]
  cases h : aug[k]? with
  | none =>
    simp [List.getD_eq_getElem?_getD, h]
  | some row =>
    simp [List.getD_eq_getElem?_getD, h]

/-- Clearing a column keeps the number of rows. -/
theorem length_eliminateColumn (n : Nat) (aug : Mat) (i : Nat) :
    (eliminateColumn n aug i).length = aug.length := by
  simp [eliminateColumn]

/-- Reading position `j` of a row mapped over its enumeration. -/
theorem getD_enum_map_row (g : Nat × ℚ → ℚ) (row : List ℚ) (j : Nat) (hj : j < row.length) :
    (row.enum.map g).getD j 0 = g (j, row.getD j 0) := by
  rw [getD_enum_map]
  simp [List.getD_eq_getElem?_getD, List.getElem?_eq_getElem hj]

/-- The exchange of two rows keeps the `n` by `2n` shape. -/
theorem Augmented.swapRows {n : Nat} {aug : Mat} (h : Augmented n aug) {i m : Nat}
    (hi : i < n) (hm : m < n) : Augmented n (swapRows aug i m) := by
  obtain ⟨hlen, hrow⟩ := h
  refine ⟨by rw [length_swapRows, hlen], fun k hk => ?_⟩
  rw [getD_swapRows aug i m k (hlen ▸ hi) (hlen ▸ hm)]
  split_ifs
  · exact hrow i hi
  · exact hrow m hm
  · exact hrow k hk

/-- Entries after the exchange of rows `i` and `m`. -/
theorem entry_swapRows {n : Nat} {aug : Mat} (h : Augmented n aug) {i m : Nat}
    (hi : i < n) (hm : m < n) (k j : Nat) :
    entry (swapRows aug i m) k j =
      entry aug (if k = m then i else if k = i then m else k) j := by
  unfold entry
  rw [getD_swapRows aug i m k (h.1 ▸ hi) (h.1 ▸ hm)]
  split_ifs <;> rfl

/-- Scaling the pivot row keeps the `n` by `2n` shape. -/
theorem Augmented.scalePivotRow {n : Nat} {aug : Mat} (h : Augmented n aug) {i : Nat}
    (hi : i < n) (pivot : ℚ) : Augmented n (scalePivotRow n aug i pivot) := by
  obtain ⟨hlen, hrow⟩ := h
  refine ⟨by rw [length_scalePivotRow, hlen], fun k hk => ?_⟩
  rw [getD_scalePivotRow n aug i k pivot (hlen ▸ hi)]
  split_ifs
  · rw [length_enum_map]
    exact hrow i hi
  · exact hrow k hk

/-- Entries after the pivot row is divided by the pivot. -/
theorem entry_scalePivotRow {n : Nat} {aug : Mat} (h : Augmented n aug) {i : Nat}
    (hi : i < n) (pivot : ℚ) (k j : Nat) (hj : j < 2 * n) :
    entry (scalePivotRow n aug i pivot) k j =
      if k = i then entry aug i j / pivot else entry aug k j := by
  unfold entry
  rw [getD_scalePivotRow n aug i k pivot (h.1 ▸ hi)]
  split_ifs
  · rw [getD_enum_map_row _ _ j (by rw [h.2 i hi]; exact hj)]
    simp only [if_pos hj]
  · rfl

/-- Clearing a column keeps the `n` by `2n` shape. -/
theorem Augmented.eliminateColumn {n : Nat} {aug : Mat} (h : Augmented n aug) (i : Nat) :
    Augmented n (eliminateColumn n aug i) := by
  obtain ⟨hlen, hrow⟩ := h
  refine ⟨by rw [length_eliminateColumn, hlen], fun k hk => ?_⟩
  rw [getD_eliminateColumn]
  split_ifs
  · rw [length_enum_map]
    exact hrow k hk
  · exact hrow k hk

/-- Entries after column `i` is cleared with pivot row `i`. -/
theorem entry_eliminateColumn {n : Nat} {aug : Mat} (h : Augmented n aug) (i : Nat)
    (k j : Nat) (hk : k < n) (hj : j < 2 * n) :
    entry (eliminateColumn n aug i) k j =
      if k ≠ i then entry aug k j - entry aug k i * entry aug i j else entry aug k j := by
  show ((eliminateColumn n aug i).getD k []).getD j 0 = _
  rw [getD_eliminateColumn]
  by_cases hki : k = i
  · subst hki
    simp [entry]
  · rw [if_pos ⟨hk, hki⟩, if_pos hki,
      getD_enum_map_row _ _ j (by rw [h.2 k hk]; exact hj)]
    simp only [if_pos hj]
    rfl

/-- The row chosen by the pivot search lies between `i` and the last row scanned. -/
theorem foldl_pivot_bounds (col : Nat → ℚ) (i n : Nat) :
    ∀ (l : List Nat) (acc : Nat), (∀ k ∈ l, i ≤ k ∧ k < n) → i ≤ acc → acc < n →
      i ≤ l.foldl (fun maxRow k => if |col k| > |col maxRow| then k else maxRow) acc ∧
      l.foldl (fun maxRow k => if |col k| > |col maxRow| then k else maxRow) acc < n := by
  intro l
  induction l with
  | nil => intro acc _ h1 h2; exact ⟨h1, h2⟩
  | cons a l ih =>
    intro acc hl h1 h2
    rw [List.foldl_cons]
    have ha := hl a (List.mem_cons_self a l)
    apply ih _ (fun k hk => hl k (List.mem_cons_of_mem a hk))
    · split_ifs
      · exact ha.1
      · exact h1
    · split_ifs
      · exact ha.2
      · exact h2

/-- The pivot row found lies between the pivot position and the last row. -/
theorem findPivot_bounds (n : Nat) (aug : Mat) {i : Nat} (hi : i < n) :
    i ≤ findPivot n aug i ∧ findPivot n aug i < n := by
  unfold findPivot
  apply foldl_pivot_bounds (fun k => entry aug k i) i n _ i _ (le_refl i) hi
  intro k hk
  rw [List.mem_range'_1] at hk
  omega

/-- With zeros below it in the column, row `i` stays the row chosen. -/
theorem foldl_pivot_self (col : Nat → ℚ) (i : Nat) :
    ∀ (l : List Nat), (∀ k ∈ l, col k = 0) →
      l.foldl (fun maxRow k => if |col k| > |col maxRow| then k else maxRow) i = i := by
  intro l
  induction l with
  | nil => intro _; rfl
  | cons a l ih =>
    intro hl
    rw [List.foldl_cons, if_neg, ih (fun k hk => hl k (List.mem_cons_of_mem a hk))]
    rw [hl a (List.mem_cons_self a l), abs_zero]
    exact not_lt.mpr (abs_nonneg _)

/-- The pivot search keeps the pivot position when the column is zero below it. -/
theorem findPivot_eq_self (n : Nat) (aug : Mat) (i : Nat)
    (h : ∀ k, i < k → k < n → entry aug k i = 0) : findPivot n aug i = i := by
  unfold findPivot
  apply foldl_pivot_self (fun k => entry aug k i) i
  intro k hk
  rw [List.mem_range'_1] at hk
  exact h k (by omega) (by omega)

/-- The elimination pass as a choice on the pivot left in position by the swap. -/
theorem eliminationStep_eq (n : Nat) (aug : Mat) (i : Nat) :
    eliminationStep n aug i =
      if |entry (swapRows aug i (findPivot n aug i)) i i| < 1e-10 then
        Except.error singularMessage
      else
        Except.ok (eliminateColumn n
          (scalePivotRow n (swapRows aug i (findPivot n aug i)) i
            (entry (swapRows aug i (findPivot n aug i)) i i)) i) := rfl

/-- The entries of the augmented matrix after a pass that does not throw, in
terms of the entries before: row `i` is the pivot row `m` divided by the pivot,
and every other row (rows `i` and `m` exchanged) loses its multiple of it. -/
theorem eliminationStep_entries {n : Nat} {aug res : Mat} (h : Augmented n aug) {i : Nat}
    (hi : i < n) (hstep : eliminationStep n aug i = Except.ok res) :
    ¬ |entry aug (findPivot n aug i) i| < 1e-10 ∧ Augmented n res ∧
    ∀ k j, k < n → j < 2 * n →
      entry res k j =
        if k = i then entry aug (findPivot n aug i) j / entry aug (findPivot n aug i) i
        else
          entry aug (if k = findPivot n aug i then i else k) j -
            entry aug (if k = findPivot n aug i then i else k) i *
              (entry aug (findPivot n aug i) j / entry aug (findPivot n aug i) i) := by
  obtain ⟨hm1, hm2⟩ := findPivot_bounds n aug hi
  have hsw := h.swapRows hi hm2
  have hpiv : ∀ j, entry (swapRows aug i (findPivot n aug i)) i j =
      entry aug (findPivot n aug i) j := by
    intro j
    rw [entry_swapRows h hi hm2]
    by_cases hmi : i = findPivot n aug i
    · rw [if_pos hmi]; rw [← hmi]
    · rw [if_neg hmi, if_pos rfl]
  rw [eliminationStep_eq, hpiv] at hstep
  by_cases hp : |entry aug (findPivot n aug i) i| < 1e-10
  · rw [if_pos hp] at hstep
    cases hstep
  · rw [if_neg hp] at hstep
    cases hstep
    refine ⟨hp, (hsw.scalePivotRow hi _).eliminateColumn i, ?_⟩
    intro k j hk hj
    have hi2 : i < 2 * n := by omega
    rw [entry_eliminateColumn (hsw.scalePivotRow hi _) i k j hk hj]
    by_cases hki : k = i
    · subst hki
      rw [if_neg (not_not.mpr rfl), if_pos rfl, entry_scalePivotRow hsw hi _ k j hj, if_pos rfl,
        hpiv]
    · rw [if_pos hki, if_neg hki, entry_scalePivotRow hsw hi _ k j hj, if_neg hki,
        entry_scalePivotRow hsw hi _ k i hi2, if_neg hki,
        entry_scalePivotRow hsw hi _ i j hj, if_pos rfl, hpiv,
        entry_swapRows h hi hm2, entry_swapRows h hi hm2]
      simp only [if_neg hki]

/-- The function `matrixInverse` as a fold of `eliminationStep` followed by the extraction of the right half. -/
theorem matrixInverse_eq (A : Mat) :
    matrixInverse A =
      ((List.range A.length).foldlM (eliminationStep A.length) (augment A)).bind
        fun augmented => Except.ok (augmented.map fun row => row.drop A.length) := rfl

/-- One more pass of the elimination loop. -/
theorem foldlM_range_succ (n m : Nat) (aug : Mat) :
    (List.range (m + 1)).foldlM (eliminationStep n) aug =
      ((List.range m).foldlM (eliminationStep n) aug).bind fun b => eliminationStep n b m := by
  rw [List.range_succ, List.foldlM_append]
  cases (List.range m).foldlM (eliminationStep n) aug with
  | error e => rfl
  | ok b =>
    show List.foldlM (eliminationStep n) b [m] = eliminationStep n b m
    rw [List.foldlM_cons]
    cases eliminationStep n b m <;> rfl

/-- A property that every pass carries from column `i` to column `i + 1` holds
after the first `m` passes. -/
theorem elimination_invariant (n : Nat) (Inv : Nat → Mat → Prop)
    (hstep : ∀ i aug res, i < n → Inv i aug → eliminationStep n aug i = Except.ok res →
      Inv (i + 1) res) :
    ∀ m, m ≤ n → ∀ aug res, Inv 0 aug →
      (List.range m).foldlM (eliminationStep n) aug = Except.ok res → Inv m res := by
  intro m
  induction m with
  | zero =>
    intro _ aug res h0 h
    cases h
    exact h0
  | succ m ih =>
    intro hm aug res h0 h
    rw [foldlM_range_succ] at h
    cases hb : (List.range m).foldlM (eliminationStep n) aug with
    | error e => rw [hb] at h; cases h
    | ok b =>
      rw [hb] at h
      exact hstep m b res (by omega) (ih (by omega) aug b h0 hb) h

/-- The only error of the elimination is the singular-matrix error. -/
theorem elimination_error (n : Nat) :
    ∀ m aug e, (List.range m).foldlM (eliminationStep n) aug = Except.error e →
      e = singularMessage := by
  intro m
  induction m with
  | zero => intro aug e h; cases h
  | succ m ih =>
    intro aug e h
    rw [foldlM_range_succ] at h
    cases hb : (List.range m).foldlM (eliminationStep n) aug with
    | error e' =>
      rw [hb] at h
      cases h
      exact ih aug e hb
    | ok b =>
      rw [hb] at h
      change eliminationStep n b m = Except.error e at h
      rw [eliminationStep_eq] at h
      split at h
      · cases h; rfl
      · cases h

/-- The identity matrix of order `n` has `n` rows. -/
theorem length_identityMatrix (n : Nat) : (identityMatrix n).length = n := by
  simp [identityMatrix]

/-- Row `k` of the identity matrix. -/
theorem getD_identityMatrix {n k : Nat} (hk : k < n) :
    (identityMatrix n).getD k [] = (List.range n).map fun j => if k = j then (1 : ℚ) else 0 := by
  simp [identityMatrix, List.getD_eq_getElem?_getD, List.getElem?_map, List.getElem?_range hk]

/-- Entries of the identity matrix. -/
theorem entry_identityMatrix {n k j : Nat} (hk : k < n) (hj : j < n) :
    entry (identityMatrix n) k j = if k = j then 1 else 0 := by
  unfold entry
  rw [getD_identityMatrix hk]
  simp [List.getD_eq_getElem?_getD, List.getElem?_map, List.getElem?_range hj]

/-- The identity matrix is square. -/
theorem square_identityMatrix (n : Nat) : Square n (identityMatrix n) := by
  refine ⟨length_identityMatrix n, fun k hk => ?_⟩
  rw [getD_identityMatrix hk]
  simp

/-- Row `k` of `[A | I]`. -/
theorem getD_augment {n : Nat} {A : Mat} (hA : Square n A) {k : Nat} (hk : k < n) :
    (augment A).getD k [] = A.getD k [] ++ (identityMatrix n).getD k [] := by
  unfold augment
  rw [getD_enum_map, hA.1]
  have hk' : k < A.length := hA.1 ▸ hk
  simp [List.getD_eq_getElem?_getD, List.getElem?_eq_getElem hk']

/-- The matrix `[A | I]` is `n` by `2n`. -/
theorem augmented_augment {n : Nat} {A : Mat} (hA : Square n A) : Augmented n (augment A) := by
  refine ⟨by rw [augment, length_enum_map, hA.1], fun k hk => ?_⟩
  rw [getD_augment hA hk, List.length_append, hA.2 k hk, (square_identityMatrix n).2 k hk]
  omega

/-- The left half of `[A | I]` is `A`. -/
theorem entry_augment_left {n : Nat} {A : Mat} (hA : Square n A) {k j : Nat} (hk : k < n)
    (hj : j < n) : entry (augment A) k j = entry A k j := by
  unfold entry
  rw [getD_augment hA hk, List.getD_append _ _ _ _ (by rw [hA.2 k hk]; exact hj)]

/-- The right half of `[A | I]` is the identity. -/
theorem entry_augment_right {n : Nat} {A : Mat} (hA : Square n A) {k t : Nat} (hk : k < n)
    (ht : t < n) : entry (augment A) k (n + t) = if k = t then 1 else 0 := by
  have h := entry_identityMatrix hk ht
  unfold entry at h ⊢
  rw [getD_augment hA hk, List.getD_append_right _ _ _ _ (by rw [hA.2 k hk]; omega), hA.2 k hk,
    Nat.add_sub_cancel_left, h]

/-- A pass that does not throw leaves a row of zeros below the pivot position,
when there was one at or below it. -/
theorem zeroRow_step {n : Nat} {aug res : Mat} {i : Nat} (hi : i < n)
    (h : Augmented n aug ∧ ∃ z, i ≤ z ∧ z < n ∧ ∀ j, j < n → entry aug z j = 0)
    (hstep : eliminationStep n aug i = Except.ok res) :
    Augmented n res ∧ ∃ z, i + 1 ≤ z ∧ z < n ∧ ∀ j, j < n → entry res z j = 0 := by
  obtain ⟨haug, z, hz1, hz2, hz⟩ := h
  obtain ⟨hp, hres, hent⟩ := eliminationStep_entries haug hi hstep
  obtain ⟨hm1, hm2⟩ := findPivot_bounds n aug hi
  have hzm : z ≠ findPivot n aug i := by
    intro h
    apply hp
    rw [← h, hz i hi, abs_zero]
    norm_num
  refine ⟨hres, ?_⟩
  by_cases hzi : z = i
  · subst hzi
    refine ⟨findPivot n aug z, by omega, hm2, fun j hj => ?_⟩
    rw [hent _ j hm2 (by omega), if_neg (Ne.symm hzm), if_pos rfl, hz j hj, hz z hz2]
    ring
  · refine ⟨z, by omega, hz2, fun j hj => ?_⟩
    rw [hent z j hz2 (by omega), if_neg hzi, if_neg hzm, hz j hj, hz i hi]
    ring

/-- `matrixInverse` fails with the singular-matrix error on a square matrix of
order `n` with a row of zeros. -/
theorem matrixInverse_zeroRow {n : Nat} {A : Mat} (hA : Square n A) {r : Nat} (hr : r < n)
    (hzero : ∀ j, j < n → entry A r j = 0) :
    matrixInverse A = Except.error singularMessage := by
  rw [matrixInverse_eq, hA.1]
  cases hfold : (List.range n).foldlM (eliminationStep n) (augment A) with
  | error e =>
    rw [elimination_error n n _ e hfold]
    rfl
  | ok res =>
    exfalso
    have hinv := elimination_invariant n
      (fun i aug => Augmented n aug ∧ ∃ z, i ≤ z ∧ z < n ∧ ∀ j, j < n → entry aug z j = 0)
      (fun i aug res hi h hstep => zeroRow_step hi h hstep) n (le_refl n) (augment A) res
      ⟨augmented_augment hA, r, Nat.zero_le r, hr,
        fun j hj => by rw [entry_augment_left hA hr hj]; exact hzero j hj⟩ hfold
    obtain ⟨-, z, hz1, hz2, -⟩ := hinv
    omega

/-- The invariant holds for `[A | I]`: right half times `A` is the left half. -/
theorem inverseInvariant_augment {n : Nat} {A : Mat} (hA : Square n A) :
    InverseInvariant n A 0 (augment A) := by
  refine ⟨augmented_augment hA, fun k j hk hj => ?_, fun c k hc _ => absurd hc (Nat.not_lt_zero c)⟩
  rw [entry_augment_left hA hk hj]
  rw [Finset.sum_congr rfl (fun t ht => by
    rw [entry_augment_right hA hk (Finset.mem_range.mp ht)])]
  simp [Finset.sum_ite_eq, hk]

/-- One elimination step keeps the invariant: the three row operations act alike on both halves. -/
theorem inverseInvariant_step {n : Nat} {A aug res : Mat} {i : Nat} (hi : i < n)
    (h : InverseInvariant n A i aug) (hstep : eliminationStep n aug i = Except.ok res) :
    InverseInvariant n A (i + 1) res := by
  obtain ⟨haug, hsum, hunit⟩ := h
  obtain ⟨hp, hres, hent⟩ := eliminationStep_entries haug hi hstep
  obtain ⟨hm1, hm2⟩ := findPivot_bounds n aug hi
  have hp0 : entry aug (findPivot n aug i) i ≠ 0 := ne_zero_of_pivot hp
  refine ⟨hres, fun k j hk hj => ?_, fun c k hc hk => ?_⟩
  · have hright : ∀ t ∈ Finset.range n, entry res k (n + t) * entry A t j =
        (if k = i then
          entry aug (findPivot n aug i) (n + t) / entry aug (findPivot n aug i) i
        else
          entry aug (if k = findPivot n aug i then i else k) (n + t) -
            entry aug (if k = findPivot n aug i then i else k) i *
              (entry aug (findPivot n aug i) (n + t) / entry aug (findPivot n aug i) i)) *
          entry A t j := by
      intro t ht
      rw [hent k (n + t) hk (by have := Finset.mem_range.mp ht; omega)]
    rw [Finset.sum_congr rfl hright, hent k j hk (by omega)]
    by_cases hki : k = i
    · simp only [if_pos hki]
      rw [hsum _ j hm2 hj, Finset.sum_div]
      apply Finset.sum_congr rfl
      intro t _
      ring
    · simp only [if_neg hki]
      have hs : (if k = findPivot n aug i then i else k) < n := by
        split_ifs
        · exact hi
        · exact hk
      rw [hsum _ j hs hj, hsum _ j hm2 hj, Finset.sum_div, Finset.mul_sum,
        ← Finset.sum_sub_distrib]
      apply Finset.sum_congr rfl
      intro t _
      ring
  · rw [hent k c hk (by omega)]
    rcases Nat.lt_succ_iff_lt_or_eq.mp hc with hc | hc
    · have hmc : findPivot n aug i ≠ c := by omega
      have hic : i ≠ c := by omega
      rw [hunit c _ hc hm2, if_neg hmc, zero_div, mul_zero, sub_zero]
      by_cases hki : k = i
      · rw [if_pos hki, if_neg (by rw [hki]; exact hic)]
      · rw [if_neg hki]
        by_cases hkm : k = findPivot n aug i
        · rw [if_pos hkm, hunit c i hc hi, if_neg hic, if_neg (by rw [hkm]; exact hmc)]
        · rw [if_neg hkm, hunit c k hc hk]
    · subst hc
      rw [div_self hp0, mul_one, sub_self]

/-- Entries of the extracted right half. -/
theorem entry_map_drop (n : Nat) (M : Mat) (k t : Nat) :
    entry (M.map fun row => row.drop n) k t = entry M k (n + t) := by
  unfold entry
  simp only [List.getD_eq_getElem?_getD, List.getElem?_map]
  cases M[k]? with
  | none => simp
  | some row => simp [List.getElem?_drop]

/-- Rows of the extracted right half. -/
theorem getD_map_drop (n : Nat) (M : Mat) (k : Nat) :
    (M.map fun row => row.drop n).getD k [] = (M.getD k []).drop n := by
  simp only [List.getD_eq_getElem?_getD, List.getElem?_map]
  cases M[k]? with
  | none => simp
  | some row => simp

/-- What `matrixInverse` returns on a square matrix is a square matrix that is a
left inverse of it. -/
theorem matrixInverse_left {n : Nat} {A B : Mat} (hA : Square n A)
    (h : matrixInverse A = Except.ok B) :
    Square n B ∧ ∀ k c, k < n → c < n →
      ∑ t in Finset.range n, entry B k t * entry A t c = if k = c then 1 else 0 := by
  rw [matrixInverse_eq, hA.1] at h
  cases hfold : (List.range n).foldlM (eliminationStep n) (augment A) with
  | error e => rw [hfold] at h; cases h
  | ok res =>
    rw [hfold] at h
    cases h
    obtain ⟨haug, hsum, hunit⟩ := elimination_invariant n (InverseInvariant n A)
      (fun i aug res hi h hstep => inverseInvariant_step hi h hstep) n (le_refl n) (augment A) res
      (inverseInvariant_augment hA) hfold
    refine ⟨⟨by rw [List.length_map]; exact haug.1, fun k hk => ?_⟩, fun k c hk hc => ?_⟩
    · rw [getD_map_drop, List.length_drop, haug.2 k hk]
      omega
    · rw [← hunit c k hc hk, hsum k c hk hc]
      apply Finset.sum_congr rfl
      intro t _
      rw [entry_map_drop]

/-- A left inverse of a square matrix is a right inverse. -/
theorem right_of_left {n : Nat} {A B : Mat}
    (h : ∀ k c, k < n → c < n →
      ∑ t in Finset.range n, entry B k t * entry A t c = if k = c then 1 else 0) :
    ∀ k c, k < n → c < n →
      ∑ t in Finset.range n, entry A k t * entry B t c = if k = c then 1 else 0 := by
  have hBA : toMatrix n B * toMatrix n A = 1 := by
    ext k c
    rw [Matrix.mul_apply, Matrix.one_apply]
    have := h k c k.isLt c.isLt
    rw [← Fin.sum_univ_eq_sum_range (fun t => entry B k t * entry A t c) n] at this
    simp only [toMatrix, Matrix.of_apply, Fin.ext_iff]
    exact this
  have hAB : toMatrix n A * toMatrix n B = 1 := Matrix.mul_eq_one_comm.mp hBA
  intro k c hk hc
  have := congrFun (congrFun hAB ⟨k, hk⟩) ⟨c, hc⟩
  rw [Matrix.mul_apply, Matrix.one_apply] at this
  simp only [toMatrix, Matrix.of_apply, Fin.ext_iff] at this
  rw [← Fin.sum_univ_eq_sum_range (fun t => entry A k t * entry B t c) n]
  exact this

/-- Reading an existing row succeeds. -/
theorem readRow_of_lt {B : Mat} {k : Nat} (hk : k < B.length) :
    readRow B k = Except.ok (B.getD k []) := by
  simp [readRow, List.getD_eq_getElem?_getD, List.getElem?_eq_getElem hk]

/-- Reading a row past the end throws. -/
theorem readRow_of_le {B : Mat} {k : Nat} (hk : B.length ≤ k) :
    readRow B k = Except.error typeErrorMessage := by
  simp [readRow, List.getElem?_eq_none hk]

/-- A `mapM'` whose function returns at every element returns the mapped list. -/
theorem mapM'_ok {α β : Type} (f : α → Except String β) (g : α → β) :
    ∀ l : List α, (∀ x ∈ l, f x = Except.ok (g x)) → l.mapM' f = Except.ok (l.map g) := by
  intro l
  induction l with
  | nil => intro _; rfl
  | cons a l ih =>
    intro h
    rw [List.mapM'_cons, h a (List.mem_cons_self a l),
      ih (fun x hx => h x (List.mem_cons_of_mem a hx))]
    rfl

/-- A `mapM'` whose function fails at the first element fails. -/
theorem mapM'_error {α β : Type} (f : α → Except String β) (a : α) (l : List α) (e : String)
    (h : f a = Except.error e) : (a :: l).mapM' f = Except.error e := by
  rw [List.mapM'_cons, h]
  rfl

/-- The accumulation loop over `k < c` is the finite sum. -/
theorem foldl_add_eq_sum (f : Nat → ℚ) :
    ∀ c, (List.range c).foldl (fun acc k => acc + f k) 0 = ∑ k in Finset.range c, f k := by
  intro c
  induction c with
  | zero => rfl
  | succ c ih =>
    rw [List.range_succ, List.foldl_append, ih, Finset.sum_range_succ]
    rfl

/-- The accumulation of one entry of the product returns the sum when every row
of `B` it reads exists. -/
theorem cell_ok (A B : Mat) (i j : Nat) :
    ∀ c, c ≤ B.length →
      (List.range c).foldlM
        (fun acc k => do
          let rowB ← readRow B k
          pure (acc + entry A i k * rowB.getD j 0)) 0 =
      Except.ok (∑ k in Finset.range c, entry A i k * entry B k j) := by
  intro c
  induction c with
  | zero => intro _; rfl
  | succ c ih =>
    intro hc
    have hc : c < B.length := by omega
    rw [List.range_succ, List.foldlM_append, ih (by omega), Finset.sum_range_succ]
    simp only [bind, Except.bind, List.foldlM_cons, List.foldlM_nil, readRow_of_lt hc]
    rfl

/-- The accumulation of one entry of the product fails when `B` has fewer rows
than `A` has columns. -/
theorem cell_error (A B : Mat) (i j : Nat) :
    ∀ c, B.length < c →
      (List.range c).foldlM
        (fun acc k => do
          let rowB ← readRow B k
          pure (acc + entry A i k * rowB.getD j 0)) 0 =
      Except.error typeErrorMessage := by
  intro c
  induction c with
  | zero => intro h; omega
  | succ c ih =>
    intro hc
    rw [List.range_succ, List.foldlM_append]
    by_cases h : B.length < c
    · rw [ih h]
      rfl
    · rw [cell_ok A B i j c (by omega)]
      have hle : B.length ≤ c := by omega
      simp only [bind, Except.bind, List.foldlM_cons, List.foldlM_nil, readRow_of_le hle]

/-- The function `matrixMultiply` returns the matrix of the sums
`∑ k < colsA, A[i][k] * B[k][j]` when `B` has at least `colsA` rows. -/
theorem matrixMultiply_ok {A B : Mat} {r c d : Nat} (hA : A.length = r) (hr : 0 < r)
    (hA0 : (A.getD 0 []).length = c) (hB : c ≤ B.length) (hBne : 0 < B.length)
    (hB0 : (B.getD 0 []).length = d) :
    matrixMultiply A B = Except.ok
      ((List.range r).map fun i => (List.range d).map fun j =>
        ∑ k in Finset.range c, entry A i k * entry B k j) := by
  unfold matrixMultiply
  rw [readRow_of_lt (by omega), readRow_of_lt hBne]
  simp only [bind, Except.bind, hA, hA0, hB0]
  apply mapM'_ok
  intro i _
  apply mapM'_ok
  intro j _
  exact cell_ok A B i j c hB

/-- The function `matrixMultiply` throws when `B` has fewer rows than `A` has columns,
provided the result has an entry to compute. -/
theorem matrixMultiply_error {A B : Mat} {r c d : Nat} (hA : A.length = r) (hr : 0 < r)
    (hA0 : (A.getD 0 []).length = c) (hB : B.length < c) (hBne : 0 < B.length)
    (hB0 : (B.getD 0 []).length = d) (hd : 0 < d) :
    matrixMultiply A B = Except.error typeErrorMessage := by
  unfold matrixMultiply
  rw [readRow_of_lt (by omega), readRow_of_lt hBne]
  simp only [bind, Except.bind, hA, hA0, hB0]
  obtain ⟨r', rfl⟩ : ∃ r', r = r' + 1 := ⟨r - 1, by omega⟩
  obtain ⟨d', rfl⟩ : ∃ d', d = d' + 1 := ⟨d - 1, by omega⟩
  have hrange : ∀ m, List.range (m + 1) = 0 :: (List.range m).map Nat.succ := fun m =>
    List.range_succ_eq_map m
  rw [hrange r']
  apply mapM'_error
  rw [hrange d']
  apply mapM'_error
  exact cell_error A B 0 0 c hB

/-- Two matrices of the same shape with the same entries are equal. -/
theorem mat_ext {r c : Nat} {M N : Mat} (hM : M.length = r) (hN : N.length = r)
    (hMr : ∀ k, k < r → (M.getD k []).length = c) (hNr : ∀ k, k < r → (N.getD k []).length = c)
    (h : ∀ k j, k < r → j < c → entry M k j = entry N k j) : M = N := by
  apply List.ext_getElem (by rw [hM, hN])
  intro k h1 h2
  have hk : k < r := hM ▸ h1
  have e1 : M.getD k [] = M[k] := List.getD_eq_getElem _ _ h1
  have e2 : N.getD k [] = N[k] := List.getD_eq_getElem _ _ h2
  have l1 := hMr k hk
  have l2 := hNr k hk
  rw [e1] at l1
  rw [e2] at l2
  apply List.ext_getElem (by rw [l1, l2])
  intro j h3 h4
  have hj : j < c := l1 ▸ h3
  have := h k j hk hj
  unfold entry at this
  rw [e1, e2, List.getD_eq_getElem _ _ h3, List.getD_eq_getElem _ _ h4] at this
  exact this

/-- A pass on a column that already is the column of the identity changes nothing. -/
theorem eliminationStep_unitColumn {n : Nat} {aug : Mat} (h : Augmented n aug) {i : Nat}
    (hi : i < n) (hcol : ∀ k, k < n → entry aug k i = if k = i then 1 else 0) :
    eliminationStep n aug i = Except.ok aug := by
  have hm : findPivot n aug i = i :=
    findPivot_eq_self n aug i fun k hik hk => by rw [hcol k hk, if_neg (by omega)]
  have hpiv : entry (swapRows aug i (findPivot n aug i)) i i = 1 := by
    rw [hm, entry_swapRows h hi hi, if_pos rfl, hcol i hi, if_pos rfl]
  have hret : ∃ res, eliminationStep n aug i = Except.ok res := by
    rw [eliminationStep_eq, hpiv, if_neg (by norm_num)]
    exact ⟨_, rfl⟩
  obtain ⟨res, hres⟩ := hret
  obtain ⟨-, hshape, hent⟩ := eliminationStep_entries h hi hres
  rw [hres]
  congr 1
  apply mat_ext hshape.1 h.1 hshape.2 h.2
  intro k j hk hj
  rw [hent k j hk hj, hm, hcol i hi, if_pos rfl, div_one]
  by_cases hki : k = i
  · rw [if_pos hki, hki]
  · rw [if_neg hki, if_neg hki, hcol k hk, if_neg hki, zero_mul, sub_zero]

/-- The left half of `[I | I]` is the identity. -/
theorem entry_augment_identity_left {n k j : Nat} (hk : k < n) (hj : j < n) :
    entry (augment (identityMatrix n)) k j = if k = j then 1 else 0 := by
  have h := entry_augment_left (square_identityMatrix n) hk hj
  rw [h, entry_identityMatrix hk hj]

/-- The function `matrixInverse` returns the identity matrix on the identity matrix. -/
theorem inverse_of_identityMatrix (n : Nat) :
    matrixInverse (identityMatrix n) = Except.ok (identityMatrix n) := by
  have hsq := square_identityMatrix n
  have haug : Augmented n (augment (identityMatrix n)) := augmented_augment hsq
  have hfold : ∀ m, m ≤ n →
      (List.range m).foldlM (eliminationStep n) (augment (identityMatrix n)) =
        Except.ok (augment (identityMatrix n)) := by
    intro m
    induction m with
    | zero => intro _; rfl
    | succ m ih =>
      intro hm
      rw [foldlM_range_succ, ih (by omega)]
      exact eliminationStep_unitColumn haug (by omega)
        (fun k hk => entry_augment_identity_left hk (by omega))
  rw [matrixInverse_eq, length_identityMatrix, hfold n (le_refl n)]
  show Except.ok _ = _
  congr 1
  apply mat_ext (r := n) (c := n) (by rw [List.length_map]; exact haug.1) hsq.1 _ hsq.2
  · intro k t hk ht
    rw [entry_map_drop, entry_augment_right hsq hk ht, entry_identityMatrix hk ht]
  · intro k hk
    rw [getD_map_drop, List.length_drop, haug.2 k hk]
    omega

/-- The product the code computes for a square matrix and the inverse it
returned is the identity matrix, on both sides. -/
theorem matrixMultiply_inverse {n : Nat} {A B : Mat} (hn : 0 < n) (hA : Square n A)
    (h : matrixInverse A = Except.ok B) :
    matrixMultiply A B = Except.ok (identityMatrix n) ∧
      matrixMultiply B A = Except.ok (identityMatrix n) := by
  obtain ⟨hB, hleft⟩ := matrixInverse_left hA h
  have hright := right_of_left hleft
  constructor
  · rw [matrixMultiply_ok hA.1 hn (hA.2 0 hn) (by rw [hB.1]) (by rw [hB.1]; exact hn) (hB.2 0 hn)]
    congr 1
    unfold identityMatrix
    apply List.map_congr_left
    intro i hi
    apply List.map_congr_left
    intro j hj
    exact hright i j (List.mem_range.mp hi) (List.mem_range.mp hj)
  · rw [matrixMultiply_ok hB.1 hn (hB.2 0 hn) (by rw [hA.1]) (by rw [hA.1]; exact hn) (hA.2 0 hn)]
    congr 1
    unfold identityMatrix
    apply List.map_congr_left
    intro i hi
    apply List.map_congr_left
    intro j hj
    exact hleft i j (List.mem_range.mp hi) (List.mem_range.mp hj)

/-- The product of a row vector of length five with an upper triangular matrix,
as `matrixMultiply` computes it. -/
theorem matrixMultiply_row_upper5 (x0 x1 x2 x3 x4 : ℚ)
    (d0 d1 d2 d3 d4 a01 a02 a03 a04 a12 a13 a14 a23 a24 a34 : ℚ) :
    matrixMultiply [[x0, x1, x2, x3, x4]]
        (upper5 d0 d1 d2 d3 d4 a01 a02 a03 a04 a12 a13 a14 a23 a24 a34) =
      Except.ok [[x0 * d0, x0 * a01 + x1 * d1, x0 * a02 + x1 * a12 + x2 * d2,
        x0 * a03 + x1 * a13 + x2 * a23 + x3 * d3,
        x0 * a04 + x1 * a14 + x2 * a24 + x3 * a34 + x4 * d4]] := by
  rw [@matrixMultiply_ok [[x0, x1, x2, x3, x4]]
    (upper5 d0 d1 d2 d3 d4 a01 a02 a03 a04 a12 a13 a14 a23 a24 a34) 1 5 5 rfl (by norm_num) rfl
    (by show 5 ≤ 5; norm_num) (by show 0 < 5; norm_num) rfl]
  have h1 : List.range 1 = [0] := rfl
  have h5 : List.range 5 = [0, 1, 2, 3, 4] := rfl
  simp only [h1, h5, List.map, Finset.sum_range_succ, Finset.sum_range_zero, entry, upper5]
  simp

/-- The transition matrix is upper triangular. -/
theorem P_eq_upper5 :
    P = upper5 0.62 0.67 0.72 0.77 1.00 0.33 0.04 0.01 0.00 0.26 0.06 0.01 0.22 0.06 0.23 := by
  decide!

/-- The renewal equations that define the closed-form steady state. -/
theorem renewal_equations {x : ℚ} (hx : 0 < x) :
    pi0 x * (1 - (1 - x) * 0.62) = x * 0.62 ∧
    pi1 x * (1 - (1 - x) * 0.67) = x * 0.33 + (1 - x) * (pi0 x * 0.33) ∧
    pi2 x * (1 - (1 - x) * 0.72) = x * 0.04 + (1 - x) * (pi0 x * 0.04 + pi1 x * 0.26) ∧
    pi3 x * (1 - (1 - x) * 0.77) =
      x * 0.01 + (1 - x) * (pi0 x * 0.01 + pi1 x * 0.06 + pi2 x * 0.22) ∧
    pi4 x * x = (1 - x) * (pi1 x * 0.01 + pi2 x * 0.06 + pi3 x * 0.23) := by
  have h0 : 1 - (1 - x) * 0.62 ≠ 0 := by rw [den0_eq]; positivity
  have h1 : 1 - (1 - x) * 0.67 ≠ 0 := by rw [den1_eq]; positivity
  have h2 : 1 - (1 - x) * 0.72 ≠ 0 := by rw [den2_eq]; positivity
  have h3 : 1 - (1 - x) * 0.77 ≠ 0 := by rw [den3_eq]; positivity
  exact ⟨div_mul_cancel₀ _ h0, div_mul_cancel₀ _ h1, div_mul_cancel₀ _ h2, div_mul_cancel₀ _ h3,
    div_mul_cancel₀ _ hx.ne'⟩

/-! ### Economics, validation, the kernel and the model constants -/

/-- C11 (as stated, refuted): with `chamberVolume = 0` the function returns a
record (it has no failure) whose two savings percentages are quotients by the
reference annual cost `0`: they are not finite numbers, hence not `0`. -/
theorem calculateEconomics_zero_volume_unguarded :
    (calculateEconomics 0 0.29 100 50 0.29).formlabs30.annualCost = 0 ∧
    (calculateEconomics 0 0.29 100 50 0.29).savingsVsFormlabs.percentage = none ∧
    (calculateEconomics 0 0.29 100 50 0.29).savingsVsFormlabs.percentage ≠ some 0 ∧
    (calculateEconomics 0 0.29 100 50 0.29).industrial50.annualCost = 0 ∧
    (calculateEconomics 0 0.29 100 50 0.29).savingsVsIndustrial.percentage = none ∧
    (calculateEconomics 0 0.29 100 50 0.29).savingsVsIndustrial.percentage ≠ some 0 := by
  decide!

/-- C11 (amended): `calculateEconomics` has no guard.  It returns a record for
every input, and when a reference annual cost is `0` (`chamberVolume = 0`,
`buildsPerYear = 0` or `powderCost = 0`) both reference costs and both savings
are `0` and both percentages are the quotient `0 / 0`, not a finite number. -/
theorem calculateEconomics_zero_reference
    (chamberVolume packingDensity buildsPerYear powderCost alphaOptimal : ℚ)
    (h : chamberVolume = 0 ∨ buildsPerYear = 0 ∨ powderCost = 0) :
    (calculateEconomics chamberVolume packingDensity buildsPerYear powderCost
      alphaOptimal).formlabs30.annualCost = 0 ∧
    (calculateEconomics chamberVolume packingDensity buildsPerYear powderCost
      alphaOptimal).industrial50.annualCost = 0 ∧
    (calculateEconomics chamberVolume packingDensity buildsPerYear powderCost
      alphaOptimal).savingsVsFormlabs.cost = 0 ∧
    (calculateEconomics chamberVolume packingDensity buildsPerYear powderCost
      alphaOptimal).savingsVsIndustrial.cost = 0 ∧
    (calculateEconomics chamberVolume packingDensity buildsPerYear powderCost
      alphaOptimal).savingsVsFormlabs.percentage = none ∧
    (calculateEconomics chamberVolume packingDensity buildsPerYear powderCost
      alphaOptimal).savingsVsIndustrial.percentage = none := by
  have h30 : 0.30 * chamberVolume * 0.47 * buildsPerYear * powderCost = 0 := by
    rcases h with h | h | h <;> rw [h] <;> ring
  have h50 : 0.50 * chamberVolume * 0.47 * buildsPerYear * powderCost = 0 := by
    rcases h with h | h | h <;> rw [h] <;> ring
  have hopt : alphaOptimal * chamberVolume * 0.47 * buildsPerYear * powderCost = 0 := by
    rcases h with h | h | h <;> rw [h] <;> ring
  simp only [calculateEconomics, divide, h30, h50, hopt, sub_zero, if_true, Option.map_none',
    and_self]

/-- C11 (amended), at `buildsPerYear = 0`. -/
theorem calculateEconomics_zero_reference_witness :
    (calculateEconomics 8.17 0.29 0 50 0.29).formlabs30.annualCost = 0 ∧
    (calculateEconomics 8.17 0.29 0 50 0.29).industrial50.annualCost = 0 ∧
    (calculateEconomics 8.17 0.29 0 50 0.29).savingsVsFormlabs.cost = 0 ∧
    (calculateEconomics 8.17 0.29 0 50 0.29).savingsVsIndustrial.cost = 0 ∧
    (calculateEconomics 8.17 0.29 0 50 0.29).savingsVsFormlabs.percentage = none ∧
    (calculateEconomics 8.17 0.29 0 50 0.29).savingsVsIndustrial.percentage = none :=
  calculateEconomics_zero_reference 8.17 0.29 0 50 0.29 (Or.inr (Or.inl rfl))

/-- C12: each of the three strategies of `calculateEconomics` has
`virginPerBuild = r * chamberVolume`, `annualMass = r * chamberVolume * 0.47 *
buildsPerYear` and `annualCost = annualMass * powderCost`, for `r = alphaOptimal`,
`0.30` and `0.50`; at `(8.17, 0.29, 100, 50, 0.29)` the optimal annual mass is
`111.3571` and the optimal annual cost `5567.855`. -/
theorem calculateEconomics_scenarios
    (chamberVolume packingDensity buildsPerYear powderCost alphaOptimal : ℚ) :
    ((calculateEconomics chamberVolume packingDensity buildsPerYear powderCost
        alphaOptimal).optimal.alpha = alphaOptimal ∧
      (calculateEconomics chamberVolume packingDensity buildsPerYear powderCost
        alphaOptimal).optimal.virginPerBuild = alphaOptimal * chamberVolume ∧
      (calculateEconomics chamberVolume packingDensity buildsPerYear powderCost
        alphaOptimal).optimal.annualMass = alphaOptimal * chamberVolume * 0.47 * buildsPerYear ∧
      (calculateEconomics chamberVolume packingDensity buildsPerYear powderCost
        alphaOptimal).optimal.annualCost =
        (calculateEconomics chamberVolume packingDensity buildsPerYear powderCost
          alphaOptimal).optimal.annualMass * powderCost) ∧
    ((calculateEconomics chamberVolume packingDensity buildsPerYear powderCost
        alphaOptimal).formlabs30.alpha = 0.30 ∧
      (calculateEconomics chamberVolume packingDensity buildsPerYear powderCost
        alphaOptimal).formlabs30.virginPerBuild = 0.30 * chamberVolume ∧
      (calculateEconomics chamberVolume packingDensity buildsPerYear powderCost
        alphaOptimal).formlabs30.annualMass = 0.30 * chamberVolume * 0.47 * buildsPerYear ∧
      (calculateEconomics chamberVolume packingDensity buildsPerYear powderCost
        alphaOptimal).formlabs30.annualCost =
        (calculateEconomics chamberVolume packingDensity buildsPerYear powderCost
          alphaOptimal).formlabs30.annualMass * powderCost) ∧
    ((calculateEconomics chamberVolume packingDensity buildsPerYear powderCost
        alphaOptimal).industrial50.alpha = 0.50 ∧
      (calculateEconomics chamberVolume packingDensity buildsPerYear powderCost
        alphaOptimal).industrial50.virginPerBuild = 0.50 * chamberVolume ∧
      (calculateEconomics chamberVolume packingDensity buildsPerYear powderCost
        alphaOptimal).industrial50.annualMass = 0.50 * chamberVolume * 0.47 * buildsPerYear ∧
      (calculateEconomics chamberVolume packingDensity buildsPerYear powderCost
        alphaOptimal).industrial50.annualCost =
        (calculateEconomics chamberVolume packingDensity buildsPerYear powderCost
          alphaOptimal).industrial50.annualMass * powderCost) ∧
    ((calculateEconomics 8.17 0.29 100 50 0.29).optimal.annualMass = 111.3571 ∧
      |(calculateEconomics 8.17 0.29 100 50 0.29).optimal.annualMass - 111.4| < 0.05 ∧
      (calculateEconomics 8.17 0.29 100 50 0.29).optimal.annualCost = 5567.855 ∧
      |(calculateEconomics 8.17 0.29 100 50 0.29).optimal.annualCost - 5570| < 5) := by
  refine ⟨⟨rfl, rfl, ?_, rfl⟩, ⟨rfl, rfl, rfl, rfl⟩, ⟨rfl, rfl, rfl, rfl⟩, ?_⟩
  · simp only [calculateEconomics]
  · decide!

/-- C13 (as stated, refuted): in binary64, with `chamberVolume = 1.125`,
`buildsPerYear = 1`, `powderCost = 1` and `alphaOptimal = 0.30000000000000004`,
the optimal and the 30% reference annual costs are the same binary64 value
`0.158625`, so the cost saved is `0 ≥ 0` although `alphaOptimal > 0.30`. -/
theorem calculateEconomics_binary64_saving_zero :
    (Double.calculateEconomics 1.125 0.29 1 1 0.30000000000000004).optimal.annualCost =
      Binary64.fin (5715067927133159/36028797018963968) ∧
    (Double.calculateEconomics 1.125 0.29 1 1 0.30000000000000004).formlabs30.annualCost =
      Binary64.fin (5715067927133159/36028797018963968) ∧
    (Double.calculateEconomics 1.125 0.29 1 1 0.30000000000000004).savingsVsFormlabs.cost =
      Binary64.fin 0 ∧
    (Double.calculateEconomics 1.125 0.29 1 1 0.30000000000000004).savingsVsFormlabs.cost ≥ 0 ∧
    ¬ ((0.30000000000000004 : Binary64) ≤ 0.30) := by
  refine ⟨by decide!, by decide!, by decide!, by decide!, by decide!⟩

/-- C13 (amended): when the reference annual costs are not zero, each savings record has
`cost = reference.annualCost - optimal.annualCost`, `mass = reference.annualMass -
optimal.annualMass` and `percentage = 100 * cost / reference.annualCost`; in
exact arithmetic, with positive `chamberVolume`, `buildsPerYear` and `powderCost`,
the cost saved is non-negative exactly when `alphaOptimal` is at most the
reference ratio. -/
theorem calculateEconomics_savings
    (chamberVolume packingDensity buildsPerYear powderCost alphaOptimal : ℚ)
    (h30 : (calculateEconomics chamberVolume packingDensity buildsPerYear powderCost
      alphaOptimal).formlabs30.annualCost ≠ 0)
    (h50 : (calculateEconomics chamberVolume packingDensity buildsPerYear powderCost
      alphaOptimal).industrial50.annualCost ≠ 0) :
    ((calculateEconomics chamberVolume packingDensity buildsPerYear powderCost
        alphaOptimal).savingsVsFormlabs.cost =
        (calculateEconomics chamberVolume packingDensity buildsPerYear powderCost
          alphaOptimal).formlabs30.annualCost -
        (calculateEconomics chamberVolume packingDensity buildsPerYear powderCost
          alphaOptimal).optimal.annualCost ∧
      (calculateEconomics chamberVolume packingDensity buildsPerYear powderCost
        alphaOptimal).savingsVsFormlabs.mass =
        (calculateEconomics chamberVolume packingDensity buildsPerYear powderCost
          alphaOptimal).formlabs30.annualMass -
        (calculateEconomics chamberVolume packingDensity buildsPerYear powderCost
          alphaOptimal).optimal.annualMass ∧
      (calculateEconomics chamberVolume packingDensity buildsPerYear powderCost
        alphaOptimal).savingsVsFormlabs.percentage =
        some (100 *
          (calculateEconomics chamberVolume packingDensity buildsPerYear powderCost
            alphaOptimal).savingsVsFormlabs.cost /
          (calculateEconomics chamberVolume packingDensity buildsPerYear powderCost
            alphaOptimal).formlabs30.annualCost)) ∧
    ((calculateEconomics chamberVolume packingDensity buildsPerYear powderCost
        alphaOptimal).savingsVsIndustrial.cost =
        (calculateEconomics chamberVolume packingDensity buildsPerYear powderCost
          alphaOptimal).industrial50.annualCost -
        (calculateEconomics chamberVolume packingDensity buildsPerYear powderCost
          alphaOptimal).optimal.annualCost ∧
      (calculateEconomics chamberVolume packingDensity buildsPerYear powderCost
        alphaOptimal).savingsVsIndustrial.mass =
        (calculateEconomics chamberVolume packingDensity buildsPerYear powderCost
          alphaOptimal).industrial50.annualMass -
        (calculateEconomics chamberVolume packingDensity buildsPerYear powderCost
          alphaOptimal).optimal.annualMass ∧
      (calculateEconomics chamberVolume packingDensity buildsPerYear powderCost
        alphaOptimal).savingsVsIndustrial.percentage =
        some (100 *
          (calculateEconomics chamberVolume packingDensity buildsPerYear powderCost
            alphaOptimal).savingsVsIndustrial.cost /
          (calculateEconomics chamberVolume packingDensity buildsPerYear powderCost
            alphaOptimal).industrial50.annualCost)) ∧
    (0 < chamberVolume → 0 < buildsPerYear → 0 < powderCost →
      ((0 ≤ (calculateEconomics chamberVolume packingDensity buildsPerYear powderCost
          alphaOptimal).savingsVsFormlabs.cost ↔ alphaOptimal ≤ 0.30) ∧
       (0 ≤ (calculateEconomics chamberVolume packingDensity buildsPerYear powderCost
          alphaOptimal).savingsVsIndustrial.cost ↔ alphaOptimal ≤ 0.50))) := by
  have h30' : 0.30 * chamberVolume * 0.47 * buildsPerYear * powderCost ≠ 0 := h30
  have h50' : 0.50 * chamberVolume * 0.47 * buildsPerYear * powderCost ≠ 0 := h50
  refine ⟨⟨rfl, rfl, ?_⟩, ⟨rfl, rfl, ?_⟩, ?_⟩
  · simp only [calculateEconomics, divide, if_neg h30', Option.map_some', Option.some.injEq]
    ring
  · simp only [calculateEconomics, divide, if_neg h50', Option.map_some', Option.some.injEq]
    ring
  · intro hV hB hc
    have hpos : 0 < chamberVolume * 0.47 * buildsPerYear * powderCost := by positivity
    constructor
    · show 0 ≤ 0.30 * chamberVolume * 0.47 * buildsPerYear * powderCost -
        alphaOptimal * chamberVolume * 0.47 * buildsPerYear * powderCost ↔ alphaOptimal ≤ 0.30
      have e : 0.30 * chamberVolume * 0.47 * buildsPerYear * powderCost -
          alphaOptimal * chamberVolume * 0.47 * buildsPerYear * powderCost =
          (0.30 - alphaOptimal) * (chamberVolume * 0.47 * buildsPerYear * powderCost) := by ring
      rw [e, mul_nonneg_iff_of_pos_right hpos, sub_nonneg]
    · show 0 ≤ 0.50 * chamberVolume * 0.47 * buildsPerYear * powderCost -
        alphaOptimal * chamberVolume * 0.47 * buildsPerYear * powderCost ↔ alphaOptimal ≤ 0.50
      have e : 0.50 * chamberVolume * 0.47 * buildsPerYear * powderCost -
          alphaOptimal * chamberVolume * 0.47 * buildsPerYear * powderCost =
          (0.50 - alphaOptimal) * (chamberVolume * 0.47 * buildsPerYear * powderCost) := by ring
      rw [e, mul_nonneg_iff_of_pos_right hpos, sub_nonneg]

/-- C13 (amended) at `(8.17, 0.29, 100, 50, 0.29)`: the saving against the 30% reference is
`191.995`, that is `10/3` percent of the reference cost. -/
theorem calculateEconomics_savings_witness :
    (calculateEconomics 8.17 0.29 100 50 0.29).savingsVsFormlabs.percentage =
      some (100 * (calculateEconomics 8.17 0.29 100 50 0.29).savingsVsFormlabs.cost /
        (calculateEconomics 8.17 0.29 100 50 0.29).formlabs30.annualCost) :=
  (calculateEconomics_savings 8.17 0.29 100 50 0.29 (by decide!) (by decide!)).1.2.2

/-- C14 (as stated, refuted): `validateParameters(NaN, NaN, NaN)` returns the
empty list although no parameter is in its range. -/
theorem validateParameters_nan_accepted :
    validateParameters Binary64.nan Binary64.nan Binary64.nan = [] ∧
    ¬ (0 < Binary64.nan ∧ Binary64.nan ≤ 0.5) ∧
    ¬ (0.4 ≤ Binary64.nan ∧ Binary64.nan ≤ 0.9) ∧
    ¬ (0 ≤ Binary64.nan ∧ Binary64.nan ≤ 0.3) := by
  decide!

/-- The binary64 values of the literals compared by `validateParameters`. -/
theorem validateParameters_literals :
    (0 : Binary64) = Binary64.fin 0 ∧ (0.5 : Binary64) = Binary64.fin (1 / 2) ∧
    (0.4 : Binary64) = Binary64.fin (3602879701896397 / 9007199254740992) ∧
    (0.9 : Binary64) = Binary64.fin (8106479329266893 / 9007199254740992) ∧
    (0.3 : Binary64) = Binary64.fin (5404319552844595 / 18014398509481984) := by
  decide!

/-- The order `a < b` of binary64 values is the comparison `lt`. -/
theorem Binary64.lt_def (a b : Binary64) : a < b ↔ Binary64.lt a b = true := Iff.rfl

/-- The order `a ≤ b` of binary64 values is the comparison `le`. -/
theorem Binary64.le_def (a b : Binary64) : a ≤ b ↔ Binary64.le a b = true := Iff.rfl

/-- A binary64 value is below `lo` or above `hi` exactly when it is a number, not
`NaN`, outside the closed interval from `lo` to `hi`. -/
theorem Binary64.outside_closed (lo hi : ℚ) (x : Binary64) :
    (x < Binary64.fin lo ∨ x > Binary64.fin hi) ↔
      ¬ (x = Binary64.nan ∨ (Binary64.fin lo ≤ x ∧ x ≤ Binary64.fin hi)) := by
  cases x <;>
  simp only [gt_iff_lt, Binary64.lt_def, Binary64.le_def, Binary64.lt, Binary64.le,
    decide_eq_true_eq, false_or, or_false, true_or, or_true, reduceCtorEq, not_and_or, not_le,
    not_true_eq_false, not_false_eq_true, Bool.false_eq_true, and_false, false_and, and_true,
    true_and, iff_self]

/-- A binary64 value is at most `lo` or above `hi` exactly when it is a number,
not `NaN`, outside the interval from `lo`, excluded, to `hi`. -/
theorem Binary64.outside_left_open (lo hi : ℚ) (x : Binary64) :
    (x ≤ Binary64.fin lo ∨ x > Binary64.fin hi) ↔
      ¬ (x = Binary64.nan ∨ (Binary64.fin lo < x ∧ x ≤ Binary64.fin hi)) := by
  cases x <;>
  simp only [gt_iff_lt, Binary64.lt_def, Binary64.le_def, Binary64.lt, Binary64.le,
    decide_eq_true_eq, false_or, or_false, true_or, or_true, reduceCtorEq, not_and_or, not_le,
    not_lt, not_true_eq_false, not_false_eq_true, Bool.false_eq_true, and_false, false_and,
    and_true, true_and, iff_self]

/-- C14 (amended): `validateParameters` returns one message per parameter that is
a number outside its range, in the order packing density, quality threshold,
degraded limit, and nothing else; a parameter that is `NaN` gets no message.
The list is empty exactly when each parameter is `NaN` or in its range, its
length is the number of parameters that are numbers out of range, and
`validateParameters(0.6, 0.6, 0.1)` is the packing-density message alone.  The
bounds are the binary64 values of the literals `0`, `0.5`, `0.4`, `0.9`, `0.3`. -/
theorem validateParameters_messages (packingDensity qualityThreshold degradedLimit : Binary64) :
    validateParameters packingDensity qualityThreshold degradedLimit =
      (if packingDensity = Binary64.nan ∨ (0 < packingDensity ∧ packingDensity ≤ 0.5) then []
        else ["Packing density must be between 0 and 50%"]) ++
      (if qualityThreshold = Binary64.nan ∨ (0.4 ≤ qualityThreshold ∧ qualityThreshold ≤ 0.9)
        then [] else ["Quality threshold should be between 0.4 and 0.9"]) ++
      (if degradedLimit = Binary64.nan ∨ (0 ≤ degradedLimit ∧ degradedLimit ≤ 0.3) then []
        else ["Degraded limit should be between 0 and 30%"]) ∧
    (validateParameters packingDensity qualityThreshold degradedLimit = [] ↔
      (packingDensity = Binary64.nan ∨ (0 < packingDensity ∧ packingDensity ≤ 0.5)) ∧
      (qualityThreshold = Binary64.nan ∨ (0.4 ≤ qualityThreshold ∧ qualityThreshold ≤ 0.9)) ∧
      (degradedLimit = Binary64.nan ∨ (0 ≤ degradedLimit ∧ degradedLimit ≤ 0.3))) ∧
    (validateParameters packingDensity qualityThreshold degradedLimit).length =
      (if packingDensity = Binary64.nan ∨ (0 < packingDensity ∧ packingDensity ≤ 0.5) then 0
        else 1) +
      (if qualityThreshold = Binary64.nan ∨ (0.4 ≤ qualityThreshold ∧ qualityThreshold ≤ 0.9)
        then 0 else 1) +
      (if degradedLimit = Binary64.nan ∨ (0 ≤ degradedLimit ∧ degradedLimit ≤ 0.3) then 0
        else 1) ∧
    validateParameters 0.6 0.6 0.1 = ["Packing density must be between 0 and 50%"] := by
  obtain ⟨l0, l5, l4, l9, l3⟩ := validateParameters_literals
  have key : validateParameters packingDensity qualityThreshold degradedLimit =
      (if packingDensity = Binary64.nan ∨ (0 < packingDensity ∧ packingDensity ≤ 0.5) then []
        else ["Packing density must be between 0 and 50%"]) ++
      (if qualityThreshold = Binary64.nan ∨ (0.4 ≤ qualityThreshold ∧ qualityThreshold ≤ 0.9)
        then [] else ["Quality threshold should be between 0.4 and 0.9"]) ++
      (if degradedLimit = Binary64.nan ∨ (0 ≤ degradedLimit ∧ degradedLimit ≤ 0.3) then []
        else ["Degraded limit should be between 0 and 30%"]) := by
    have e1 : (packingDensity ≤ 0 ∨ packingDensity > 0.5) ↔
        ¬ (packingDensity = Binary64.nan ∨ (0 < packingDensity ∧ packingDensity ≤ 0.5)) := by
      rw [l0, l5]
      exact Binary64.outside_left_open _ _ _
    have e2 : (qualityThreshold < 0.4 ∨ qualityThreshold > 0.9) ↔
        ¬ (qualityThreshold = Binary64.nan ∨
          (0.4 ≤ qualityThreshold ∧ qualityThreshold ≤ 0.9)) := by
      rw [l4, l9]
      exact Binary64.outside_closed _ _ _
    have e3 : (degradedLimit < 0 ∨ degradedLimit > 0.3) ↔
        ¬ (degradedLimit = Binary64.nan ∨ (0 ≤ degradedLimit ∧ degradedLimit ≤ 0.3)) := by
      rw [l0, l3]
      exact Binary64.outside_closed _ _ _
    unfold validateParameters
    simp only [e1, e2, e3]
    by_cases h1 : packingDensity = Binary64.nan ∨ (0 < packingDensity ∧ packingDensity ≤ 0.5) <;>
    by_cases h2 : qualityThreshold = Binary64.nan ∨
      (0.4 ≤ qualityThreshold ∧ qualityThreshold ≤ 0.9) <;>
    by_cases h3 : degradedLimit = Binary64.nan ∨ (0 ≤ degradedLimit ∧ degradedLimit ≤ 0.3) <;>
    simp only [h1, h2, h3, not_true_eq_false, not_false_eq_true, if_true, if_false] <;> rfl
  refine ⟨key, ?_, ?_, by decide!⟩
  · rw [key]
    by_cases h1 : packingDensity = Binary64.nan ∨ (0 < packingDensity ∧ packingDensity ≤ 0.5) <;>
    by_cases h2 : qualityThreshold = Binary64.nan ∨
      (0.4 ≤ qualityThreshold ∧ qualityThreshold ≤ 0.9) <;>
    by_cases h3 : degradedLimit = Binary64.nan ∨ (0 ≤ degradedLimit ∧ degradedLimit ≤ 0.3) <;>
    simp [h1, h2, h3]
  · rw [key]
    by_cases h1 : packingDensity = Binary64.nan ∨ (0 < packingDensity ∧ packingDensity ≤ 0.5) <;>
    by_cases h2 : qualityThreshold = Binary64.nan ∨
      (0.4 ≤ qualityThreshold ∧ qualityThreshold ≤ 0.9) <;>
    by_cases h3 : degradedLimit = Binary64.nan ∨ (0 ≤ degradedLimit ∧ degradedLimit ≤ 0.3) <;>
    simp [h1, h2, h3]

/-- In exact arithmetic, for every `n ≥ 1` and every `n` by `n` matrix with a row
of zeros, `matrixInverse` fails with the singular-matrix error. -/
theorem matrixInverse_zero_row_singular (n : Nat) (A : Mat) (r : Nat) (_hn : 1 ≤ n)
    (hA : Square n A) (hr : r < n) (hzero : ∀ j, j < n → entry A r j = 0) :
    matrixInverse A = Except.error "Matrix is singular or nearly singular" :=
  matrixInverse_zeroRow hA hr hzero

/-- The exact inversion fails at the 2 by 2 matrix with rows `[1, 2]` and `[0, 0]`. -/
theorem matrixInverse_zero_row_singular_witness :
    matrixInverse [[1, 2], [0, 0]] = Except.error "Matrix is singular or nearly singular" :=
  matrixInverse_zero_row_singular 2 [[1, 2], [0, 0]] 1 (by norm_num)
    ⟨rfl, fun k hk => by interval_cases k <;> rfl⟩ (by norm_num)
    (fun j hj => by interval_cases j <;> rfl)

/-- C15: in binary64 `matrixInverse([[0.5, 1e308], [0, 0]])`, on a matrix with a
row of zeros, returns a matrix of `NaN`: scaling the first row overflows to
infinity, the zero row becomes `0 - 0 * Infinity = NaN`, and
`Math.abs(NaN) < 1e-10` is false. -/
theorem matrixInverse_binary64_zero_row_returns :
    Double.matrixInverse [[0.5, 1e308], [0, 0]] =
      Except.ok [[Binary64.nan, Binary64.nan], [Binary64.nan, Binary64.nan]] := by
  decide!

/-- C16 (as stated, refuted): on the empty matrix, square of order `0`,
`matrixInverse` returns the empty matrix and `matrixMultiply` of the two throws
on the read of `A[0].length`, so the product is not `identityMatrix(0)`. -/
theorem matrixMultiply_inverse_empty :
    matrixInverse [] = Except.ok [] ∧
      matrixMultiply [] [] = Except.error "TypeError: Cannot read properties of undefined" ∧
      matrixMultiply [] [] ≠ Except.ok (identityMatrix 0) := by
  decide!

/-- C16 (amended): for every `n ≥ 1` and every `n` by `n` matrix `A`, if
`matrixInverse(A)` returns `B` then `matrixMultiply(A, B)` and
`matrixMultiply(B, A)` both return `identityMatrix(n)`. -/
theorem matrixInverse_is_inverse (n : Nat) (A B : Mat) (hn : 1 ≤ n) (hA : Square n A)
    (h : matrixInverse A = Except.ok B) :
    matrixMultiply A B = Except.ok (identityMatrix n) ∧
      matrixMultiply B A = Except.ok (identityMatrix n) :=
  matrixMultiply_inverse hn hA h

/-- C16 (amended) at the 2 by 2 matrix with rows `[2, 1]` and `[1, 1]`. -/
theorem matrixInverse_is_inverse_witness :
    matrixMultiply [[2, 1], [1, 1]] [[1, -1], [-1, 2]] = Except.ok (identityMatrix 2) ∧
      matrixMultiply [[1, -1], [-1, 2]] [[2, 1], [1, 1]] = Except.ok (identityMatrix 2) :=
  matrixInverse_is_inverse 2 [[2, 1], [1, 1]] [[1, -1], [-1, 2]] (by norm_num)
    ⟨rfl, fun k hk => by interval_cases k <;> rfl⟩ (by decide!)

/-- C17: for every `n`, in particular every `n ≥ 1` and `n = 5`,
`matrixInverse(identityMatrix(n))` returns `identityMatrix(n)`. -/
theorem matrixInverse_identity (n : Nat) :
    matrixInverse (identityMatrix n) = Except.ok (identityMatrix n) ∧
      matrixInverse (identityMatrix 5) = Except.ok (identityMatrix 5) :=
  ⟨inverse_of_identityMatrix n, inverse_of_identityMatrix 5⟩

/-- C18 (as stated, refuted): a 1 by 1 matrix times a 2 by 1 matrix, whose
dimensions are not conformant, returns a matrix. -/
theorem matrixMultiply_extra_rows_returns :
    matrixMultiply [[1]] [[1], [2]] = Except.ok [[1]] := by
  decide!

/-- C18 (amended): `matrixMultiply` compares no shapes.  For an `r` by `c`
matrix `A` and an `s` by `d` matrix `B` with `r`, `s`, `d ≥ 1`: when
`c > s` it throws the `TypeError` of reading `B[k][j]` on a missing row; when
`c < s` it returns the `r` by `d` matrix of the sums
`∑ k < c, A[i][k] * B[k][j]`, the rows of `B` from `c` on being ignored. -/
theorem matrixMultiply_nonconformant (A B : Mat) (r c s d : Nat)
    (hA : A.length = r) (hr : 1 ≤ r) (hAc : ∀ row ∈ A, row.length = c)
    (hB : B.length = s) (hs : 1 ≤ s) (hBd : ∀ row ∈ B, row.length = d) (hd : 1 ≤ d) :
    (s < c →
      matrixMultiply A B = Except.error "TypeError: Cannot read properties of undefined") ∧
    (c < s →
      matrixMultiply A B = Except.ok
        ((List.range r).map fun i => (List.range d).map fun j =>
          ∑ k in Finset.range c, entry A i k * entry B k j)) := by
  have hA0 : (A.getD 0 []).length = c := by
    rw [List.getD_eq_getElem A [] (by omega)]
    exact hAc _ (List.getElem_mem _)
  have hB0 : (B.getD 0 []).length = d := by
    rw [List.getD_eq_getElem B [] (by omega)]
    exact hBd _ (List.getElem_mem _)
  constructor
  · intro h
    exact matrixMultiply_error hA hr hA0 (by omega) (by omega) hB0 hd
  · intro h
    exact matrixMultiply_ok hA hr hA0 (by omega) (by omega) hB0

/-- C18 (amended) at a 1 by 2 matrix times a 1 by 1 matrix. -/
theorem matrixMultiply_nonconformant_witness :
    matrixMultiply [[1, 2]] [[1]] =
      Except.error "TypeError: Cannot read properties of undefined" :=
  (matrixMultiply_nonconformant [[1, 2]] [[1]] 1 2 1 1 rfl (by norm_num) (by simp) rfl
    (by norm_num) (by simp) (by norm_num)).1 (by norm_num)

/-- C19: at a refresh ratio in `(0, 1]` where `calculateSteadyState` returns `pi`,
the row vector `pi` is `alpha * delta0 * P * [I - (1 - alpha) P]^(-1)` for the
inverse `matrixInverse` returns; it satisfies
`pi * (I - (1 - alpha) P) = alpha * (row 0 of P)`, and the renewal equation
`pi - (1 - alpha) * pi * P = alpha * delta0 * P`, with the products computed by
`matrixMultiply`. -/
theorem steadyState_closed_form (alpha : ℚ) (piStock : List ℚ) (h0 : 0 < alpha)
    (_h1 : alpha ≤ 1) (h : calculateSteadyState alpha = Except.ok piStock) :
    (∃ inverse delta0P product,
      matrixInverse (matrixSubtract (identityMatrix 5) (scalarMultiply (1 - alpha) P)) =
        Except.ok inverse ∧
      matrixMultiply [[1, 0, 0, 0, 0]] P = Except.ok delta0P ∧
      matrixMultiply delta0P inverse = Except.ok product ∧
      [piStock] = scalarMultiply alpha product) ∧
    matrixMultiply [piStock] (matrixSubtract (identityMatrix 5) (scalarMultiply (1 - alpha) P)) =
      Except.ok (scalarMultiply alpha [P.getD 0 []]) ∧
    (∃ piP delta0P,
      matrixMultiply [piStock] P = Except.ok piP ∧
      matrixMultiply [[1, 0, 0, 0, 0]] P = Except.ok delta0P ∧
      matrixSubtract [piStock] (scalarMultiply (1 - alpha) piP) =
        scalarMultiply alpha delta0P) := by
  obtain ⟨hsmall, rfl⟩ := calculateSteadyState_returns h0.le h
  obtain ⟨e0, e1, e2, e3, e4⟩ := renewal_equations h0
  obtain ⟨p0, p1, p2, p3⟩ := upper5_pivots h0.le
  have p4 : ¬ |alpha| < 1e-10 := by
    rw [abs_of_pos h0]
    exact not_lt.mpr hsmall
  have hM := IminusP_eq alpha
  have hlen : P.length = 5 := rfl
  rw [hlen] at hM
  refine ⟨?_, ?_, ?_⟩
  · apply Exists.intro
    apply Exists.intro
    apply Exists.intro
    refine ⟨?_, ?_, ?_, ?_⟩
    · rw [hM, matrixInverse_upper5 _ _ _ _ _ _ _ _ _ _ _ _ _ _ _ p0 p1 p2 p3, if_neg p4]
    · rw [P_eq_upper5, matrixMultiply_row_upper5]
    · unfold upper5Inverse
      rw [matrixMultiply_row_upper5]
    · simp only [scalarMultiply, List.map, renewalSolution, List.cons.injEq, and_true]
      refine ⟨?_, ?_, ?_, ?_, ?_⟩
      · unfold pi0
        ring
      · unfold pi1 pi0
        ring
      · unfold pi2 pi1 pi0
        ring
      · unfold pi3 pi2 pi1 pi0
        ring
      · unfold pi4 pi3 pi2 pi1 pi0
        ring
  · unfold renewalSolution
    rw [hM, matrixMultiply_row_upper5]
    simp only [scalarMultiply, List.map, P, List.getD_cons_zero, renewalSolution,
      Except.ok.injEq, List.cons.injEq, and_true]
    refine ⟨?_, ?_, ?_, ?_, ?_⟩
    · linear_combination e0
    · linear_combination e1
    · linear_combination e2
    · linear_combination e3
    · linear_combination e4
  · apply Exists.intro
    apply Exists.intro
    refine ⟨?_, ?_, ?_⟩
    · unfold renewalSolution
      rw [P_eq_upper5]
      exact matrixMultiply_row_upper5 _ _ _ _ _ _ _ _ _ _ _ _ _ _ _ _ _ _ _ _
    · rw [P_eq_upper5]
      exact matrixMultiply_row_upper5 _ _ _ _ _ _ _ _ _ _ _ _ _ _ _ _ _ _ _ _
    · simp only [scalarMultiply, matrixSubtract, List.map, List.enum, List.enumFrom, entry,
        List.getD_cons_zero, List.getD_cons_succ, renewalSolution, List.cons.injEq, and_true]
      refine ⟨?_, ?_, ?_, ?_, ?_⟩
      · linear_combination e0
      · linear_combination e1
      · linear_combination e2
      · linear_combination e3
      · linear_combination e4

/-- C19 at the refresh ratio `1`. -/
theorem steadyState_closed_form_witness :
    matrixMultiply [[0.62, 0.33, 0.04, 0.01, 0]]
        (matrixSubtract (identityMatrix 5) (scalarMultiply (1 - 1) P)) =
      Except.ok (scalarMultiply 1 [P.getD 0 []]) :=
  (steadyState_closed_form 1 [0.62, 0.33, 0.04, 0.01, 0] (by norm_num) (by norm_num)
    (by decide!)).2.1

/-- C20: every entry of the 5 by 5 matrix `P` is non-negative, each row sums to
`1`, row `4` is `[0, 0, 0, 0, 1]`; `w` has five entries in `[0, 1]`, is
non-increasing, starts at `1` and ends at `0`. -/
theorem model_constants_valid :
    (P.length = 5 ∧ (∀ row ∈ P, row.length = 5) ∧ (∀ row ∈ P, ∀ x ∈ row, 0 ≤ x) ∧
      (∀ row ∈ P, row.sum = 1) ∧ P.getD 4 [] = [0, 0, 0, 0, 1]) ∧
    (w.length = 5 ∧ (∀ x ∈ w, 0 ≤ x ∧ x ≤ 1) ∧ w.Pairwise (· ≥ ·) ∧
      w.getD 0 0 = 1 ∧ w.getD 4 0 = 0) := by
  decide!

/-! ### Ranges of the steady state and feasibility of the ratio returned -/

/-- For a refresh ratio in `(0, 1]` the five components of the solution of the
renewal equation are non-negative. -/
theorem renewalSolution_nonneg {x : ℚ} (hx : 0 < x) (hx1 : x ≤ 1) :
    0 ≤ pi0 x ∧ 0 ≤ pi1 x ∧ 0 ≤ pi2 x ∧ 0 ≤ pi3 x ∧ 0 ≤ pi4 x := by
  have hc : 0 ≤ 1 - x := sub_nonneg.mpr hx1
  have d0 : 0 < 1 - (1 - x) * 0.62 := by rw [den0_eq]; positivity
  have d1 : 0 < 1 - (1 - x) * 0.67 := by rw [den1_eq]; positivity
  have d2 : 0 < 1 - (1 - x) * 0.72 := by rw [den2_eq]; positivity
  have d3 : 0 < 1 - (1 - x) * 0.77 := by rw [den3_eq]; positivity
  have n0 : 0 ≤ pi0 x := div_nonneg (by positivity) d0.le
  have n1 : 0 ≤ pi1 x := div_nonneg (by positivity) d1.le
  have n2 : 0 ≤ pi2 x := div_nonneg (by positivity) d2.le
  have n3 : 0 ≤ pi3 x := div_nonneg (by positivity) d3.le
  have n4 : 0 ≤ pi4 x := div_nonneg (by positivity) hx.le
  exact ⟨n0, n1, n2, n3, n4⟩

/-- For a refresh ratio in `(0, 1]` the quality index of the solution of the
renewal equation lies between `0` and `1`. -/
theorem renewalSolution_quality_bounds {x : ℚ} (hx : 0 < x) (hx1 : x ≤ 1) :
    0 ≤ calculateQuality (renewalSolution x) ∧ calculateQuality (renewalSolution x) ≤ 1 := by
  obtain ⟨n0, n1, n2, n3, n4⟩ := renewalSolution_nonneg hx hx1
  have hs := renewalSolution_sum hx
  simp only [renewalSolution, List.sum_cons, List.sum_nil] at hs
  have hq : calculateQuality (renewalSolution x) =
      1.0 * pi0 x + 0.9 * pi1 x + 0.7 * pi2 x + 0.4 * pi3 x + 0.0 * pi4 x := by
    simp [calculateQuality, renewalSolution, w, List.enum, List.enumFrom]
  rw [hq]
  constructor
  · norm_num
    positivity
  · norm_num
    linarith

/-- When `validateParameters` returns no message for three parameters that are
numbers, each lies between the binary64 bounds of its test. -/
theorem validateParameters_nil {packingDensity qualityThreshold degradedLimit : ℚ}
    (h : validateParameters (Binary64.fin packingDensity) (Binary64.fin qualityThreshold)
      (Binary64.fin degradedLimit) = []) :
    (0 < packingDensity ∧ packingDensity ≤ 1 / 2) ∧
      (3602879701896397 / 9007199254740992 ≤ qualityThreshold ∧
        qualityThreshold ≤ 8106479329266893 / 9007199254740992) ∧
      (0 ≤ degradedLimit ∧ degradedLimit ≤ 5404319552844595 / 18014398509481984) := by
  obtain ⟨l0, l5, l4, l9, l3⟩ := validateParameters_literals
  unfold validateParameters at h
  rw [l0, l5, l4, l9, l3] at h
  simp only [gt_iff_lt, Binary64.lt_def, Binary64.le_def, Binary64.lt, Binary64.le,
    decide_eq_true_eq] at h
  by_cases h1 : packingDensity ≤ 0 ∨ 1 / 2 < packingDensity <;>
  by_cases h2 : qualityThreshold < 3602879701896397 / 9007199254740992 ∨
    8106479329266893 / 9007199254740992 < qualityThreshold <;>
  by_cases h3 : degradedLimit < 0 ∨ 5404319552844595 / 18014398509481984 < degradedLimit <;>
  simp only [h1, h2, h3, if_true, if_false, List.nil_append, List.cons_append,
    List.cons_ne_nil] at h
  rw [not_or, not_le, not_lt] at h1
  rw [not_or, not_lt, not_lt] at h2 h3
  exact ⟨h1, h2, h3⟩

/-- The steady state at the ratio `1` meets every quality threshold up to
`0.949`, its own quality index, and every non-negative degraded limit. -/
theorem constraintsMet_one {qualityThreshold degradedLimit : ℚ} (hq : qualityThreshold ≤ 0.949)
    (hd : 0 ≤ degradedLimit) :
    constraintsMet qualityThreshold degradedLimit (renewalSolution 1) = true := by
  have e1 : calculateQuality (renewalSolution 1) = 0.949 := by decide!
  have e2 : (renewalSolution 1).getD 4 0 = 0 := by decide!
  simp only [constraintsMet, decide_eq_true_eq, e1, e2]
  exact ⟨hq, hd⟩

/-- A ratio of at most one percent misses every quality threshold from `0.4` on. -/
theorem constraintsMet_small {qualityThreshold degradedLimit x : ℚ} (hq : 0.4 ≤ qualityThreshold)
    (hx : 0 < x) (hx1 : x ≤ 1 / 100) :
    constraintsMet qualityThreshold degradedLimit (renewalSolution x) = false := by
  have e1 : calculateQuality (renewalSolution (1 / 100)) < 0.4 := by decide!
  have hm := quality_mono hx.le hx1 (by norm_num)
  simp only [constraintsMet, decide_eq_false_iff_not, not_and_or, not_le, ge_iff_le]
  left
  exact lt_of_le_of_lt hm (lt_of_lt_of_le e1 hq)

/-- A feasible ratio in `(0, 1]`, for a quality threshold from `0.4` on, is above
one percent. -/
theorem feasible_gt_small {qualityThreshold degradedLimit x : ℚ} (hq : 0.4 ≤ qualityThreshold)
    (hx : 0 < x)
    (h : constraintsMet qualityThreshold degradedLimit (renewalSolution x) = true) :
    1 / 100 < x := by
  by_contra hle
  rw [constraintsMet_small hq hx (not_lt.mp hle)] at h
  exact Bool.false_ne_true h

/-- One pass of the loop keeps a bracket in `(0, 1]` whose upper end is feasible. -/
theorem bisectPass_feasible {qualityThreshold degradedLimit : ℚ} {s t : Bracket}
    (hs : 0 < s.alphaMin ∧ s.alphaMin ≤ s.alphaMax ∧ s.alphaMax ≤ 1 ∧
      constraintsMet qualityThreshold degradedLimit (renewalSolution s.alphaMax) = true)
    (ht : bisectPass qualityThreshold degradedLimit s = Except.ok t) :
    0 < t.alphaMin ∧ t.alphaMin ≤ t.alphaMax ∧ t.alphaMax ≤ 1 ∧
      constraintsMet qualityThreshold degradedLimit (renewalSolution t.alphaMax) = true := by
  obtain ⟨h0, h1, h2, h3⟩ := hs
  obtain ⟨piStock, hpi, hcase⟩ := bisectPass_ok ht
  have hmid : 0 < (s.alphaMin + s.alphaMax) / 2 := by linarith
  obtain ⟨-, rfl⟩ := calculateSteadyState_returns hmid.le hpi
  rcases hcase with ⟨hc, rfl⟩ | ⟨-, rfl⟩
  · refine ⟨h0, ?_, ?_, hc⟩
    · show s.alphaMin ≤ (s.alphaMin + s.alphaMax) / 2
      linarith
    · show (s.alphaMin + s.alphaMax) / 2 ≤ 1
      linarith
  · refine ⟨hmid, ?_, h2, h3⟩
    show (s.alphaMin + s.alphaMax) / 2 ≤ s.alphaMax
    linarith

/-- From a bracket in `(0, 1]` whose upper end is feasible, for a quality
threshold from `0.4` on, the loop returns a bracket of the same kind: no
midpoint comes near the singular ratios below `1e-10`. -/
theorem bisect_feasible (qualityThreshold degradedLimit tolerance : ℚ)
    (hq : 0.4 ≤ qualityThreshold) (fuel : Nat) (s : Bracket)
    (hs : 0 < s.alphaMin ∧ s.alphaMin ≤ s.alphaMax ∧ s.alphaMax ≤ 1 ∧
      constraintsMet qualityThreshold degradedLimit (renewalSolution s.alphaMax) = true) :
    ∃ s', bisect qualityThreshold degradedLimit tolerance fuel s = Except.ok s' ∧
      0 < s'.alphaMin ∧ s'.alphaMin ≤ s'.alphaMax ∧ s'.alphaMax ≤ 1 ∧
      constraintsMet qualityThreshold degradedLimit (renewalSolution s'.alphaMax) = true := by
  obtain ⟨s', hs'⟩ := bisect_returns qualityThreshold degradedLimit tolerance
    (fun b => 0 < b.alphaMin ∧ b.alphaMin ≤ b.alphaMax ∧ b.alphaMax ≤ 1 ∧
      constraintsMet qualityThreshold degradedLimit (renewalSolution b.alphaMax) = true)
    (fun b hb _ _ => by
      have hpos : 0 < b.alphaMax := lt_of_lt_of_le hb.1 hb.2.1
      have hbig := feasible_gt_small hq hpos hb.2.2.2
      have hmin := hb.1
      norm_num at hbig ⊢
      linarith)
    (fun b t hb _ _ ht => bisectPass_feasible hb ht) fuel s hs
  exact ⟨s', hs', bisect_invariant qualityThreshold degradedLimit tolerance
    (fun b => 0 < b.alphaMin ∧ b.alphaMin ≤ b.alphaMax ∧ b.alphaMax ≤ 1 ∧
      constraintsMet qualityThreshold degradedLimit (renewalSolution b.alphaMax) = true)
    (fun b t hb _ _ ht => bisectPass_feasible hb ht) fuel s s' hs hs'⟩

/-- For parameters in range `optimizeVirginRatio` returns a record computed at a
ratio in `(0, 1]` that meets both constraints. -/
theorem optimizeVirginRatio_feasible {packingDensity qualityThreshold degradedLimit : ℚ}
    (tolerance : ℚ) (h0 : 0 < packingDensity) (h1 : packingDensity ≤ 1)
    (hq : 0.4 ≤ qualityThreshold) (hq1 : qualityThreshold ≤ 0.949) (hd : 0 ≤ degradedLimit) :
    ∃ r, optimizeVirginRatio packingDensity qualityThreshold degradedLimit tolerance =
        Except.ok r ∧
      r.piStock = renewalSolution r.alphaOptimal ∧
      calculateSteadyState r.alphaOptimal = Except.ok r.piStock ∧
      r.quality = calculateQuality r.piStock ∧
      r.degradedFraction = r.piStock.getD 4 0 ∧
      packingDensity ≤ r.alphaOptimal ∧ r.alphaOptimal ≤ 1 ∧
      constraintsMet qualityThreshold degradedLimit r.piStock = true := by
  have hinit : 0 < packingDensity ∧ packingDensity ≤ (1.0 : ℚ) ∧ (1.0 : ℚ) ≤ 1 ∧
      constraintsMet qualityThreshold degradedLimit (renewalSolution 1.0) = true := by
    rw [one_eq]
    exact ⟨h0, h1, le_refl _, constraintsMet_one hq1 hd⟩
  obtain ⟨s, hs, hmin, hle, hmax, hfeas⟩ :=
    bisect_feasible qualityThreshold degradedLimit tolerance hq maxIterations
      { alphaMin := packingDensity, alphaMax := 1.0, iterations := 0 } hinit
  have hbr := bisect_bracket qualityThreshold degradedLimit tolerance packingDensity 1
    maxIterations { alphaMin := packingDensity, alphaMax := 1.0, iterations := 0 } s
    (by rw [one_eq]; exact ⟨le_refl _, h1, le_refl _⟩) hs
  have hpos : 0 < s.alphaMax := lt_of_lt_of_le hmin hle
  have hbig := feasible_gt_small hq hpos hfeas
  have hpi : calculateSteadyState s.alphaMax = Except.ok (renewalSolution s.alphaMax) :=
    calculateSteadyState_ok (by norm_num at hbig ⊢; linarith)
  exact ⟨_, optimizeVirginRatio_eq hs hpi, rfl, hpi, rfl, rfl, le_trans hbr.1 hbr.2.1, hmax,
    hfeas⟩

/-- In exact arithmetic, at a refresh ratio in `(0, 1]` where
`calculateSteadyState` returns `pi`, the five components of `pi` are non-negative and at most `1`, and
`calculateQuality(pi)` and the degraded fraction `pi[4]` lie in `[0, 1]`; so do
the `quality` and `degradedFraction` fields of every record returned by
`optimizeVirginRatio` for a packing density in `(0, 1]`. -/
theorem steadyState_components_in_unit_interval (alpha : ℚ) (piStock : List ℚ) (h0 : 0 < alpha)
    (h1 : alpha ≤ 1) (h : calculateSteadyState alpha = Except.ok piStock) :
    piStock.length = 5 ∧ (∀ x ∈ piStock, 0 ≤ x ∧ x ≤ 1) ∧
    (0 ≤ calculateQuality piStock ∧ calculateQuality piStock ≤ 1) ∧
    (0 ≤ piStock.getD 4 0 ∧ piStock.getD 4 0 ≤ 1) ∧
    (∀ (packingDensity qualityThreshold degradedLimit tolerance : ℚ) (r : OptimizationResult),
      0 < packingDensity → packingDensity ≤ 1 →
      optimizeVirginRatio packingDensity qualityThreshold degradedLimit tolerance = Except.ok r →
      (0 ≤ r.quality ∧ r.quality ≤ 1) ∧ (0 ≤ r.degradedFraction ∧ r.degradedFraction ≤ 1)) := by
  have range : ∀ x : ℚ, 0 < x → x ≤ 1 →
      (∀ y ∈ renewalSolution x, 0 ≤ y ∧ y ≤ 1) ∧
      (0 ≤ (renewalSolution x).getD 4 0 ∧ (renewalSolution x).getD 4 0 ≤ 1) := by
    intro x hx hx1
    obtain ⟨n0, n1, n2, n3, n4⟩ := renewalSolution_nonneg hx hx1
    have hs := renewalSolution_sum hx
    simp only [renewalSolution, List.sum_cons, List.sum_nil] at hs
    have b4 : 0 ≤ pi4 x ∧ pi4 x ≤ 1 := ⟨n4, by linarith⟩
    refine ⟨?_, b4⟩
    intro y hy
    simp only [renewalSolution, List.mem_cons, List.mem_singleton, List.not_mem_nil,
      or_false] at hy
    rcases hy with rfl | rfl | rfl | rfl | rfl
    · exact ⟨n0, by linarith⟩
    · exact ⟨n1, by linarith⟩
    · exact ⟨n2, by linarith⟩
    · exact ⟨n3, by linarith⟩
    · exact b4
  obtain ⟨-, rfl⟩ := calculateSteadyState_returns h0.le h
  refine ⟨rfl, (range alpha h0 h1).1, renewalSolution_quality_bounds h0 h1,
    (range alpha h0 h1).2, ?_⟩
  intro packingDensity qualityThreshold degradedLimit tolerance r hp hp1 hr
  obtain ⟨s, hs, hpi, -, hquality, hdegraded, -, -⟩ := optimizeVirginRatio_ok hr
  have hbr := bisect_bracket qualityThreshold degradedLimit tolerance packingDensity 1
    maxIterations { alphaMin := packingDensity, alphaMax := 1.0, iterations := 0 } s
    (by rw [one_eq]; exact ⟨le_refl _, hp1, le_refl _⟩) hs
  have hpos : 0 < s.alphaMax := lt_of_lt_of_le hp (le_trans hbr.1 hbr.2.1)
  obtain ⟨-, hv⟩ := calculateSteadyState_returns hpos.le hpi
  rw [hquality, hdegraded, hv]
  exact ⟨renewalSolution_quality_bounds hpos hbr.2.2, (range s.alphaMax hpos hbr.2.2).2⟩

/-- The exact steady state at the refresh ratio `1`, row `0` of `P`, has its
components in `[0, 1]`. -/
theorem steadyState_components_in_unit_interval_witness :
    calculateSteadyState 1 = Except.ok [0.62, 0.33, 0.04, 0.01, 0] ∧
      ∀ x ∈ [(0.62 : ℚ), 0.33, 0.04, 0.01, 0], 0 ≤ x ∧ x ≤ 1 :=
  ⟨by decide!,
    (steadyState_components_in_unit_interval 1 [0.62, 0.33, 0.04, 0.01, 0] (by norm_num)
      (by norm_num) (by decide!)).2.1⟩

/-- C21: in binary64 `calculateSteadyState(1e-9)` returns a vector whose last
component, the degraded fraction, is `1.000000017701351`, above `1`. -/
theorem steadyState_binary64_degraded_above_one :
    Double.calculateSteadyState 1e-9 = Except.ok
      [Binary64.fin (986228956497561/604462909807314587353088),
      Binary64.fin (3181383724178121/1208925819614629174706176),
      Binary64.fin (6817250815931667/2417851639229258349412352),
      Binary64.fin (8457343011414663/2417851639229258349412352),
      Binary64.fin (2251799853545147/2251799813685248)] ∧
    Binary64.fin (2251799853545147/2251799813685248) > (1 : Binary64) := by
  refine ⟨by decide!, by decide!⟩

/-- C22 (as stated, refuted): `validateParameters(0.29, NaN, 0.12)` returns the
empty list, and in binary64 `optimizeVirginRatio(0.29, NaN, 0.12, 0.2)` returns
the ratio `1.0` with quality `0.949`, for which `quality >= qualityThreshold` is
false. -/
theorem optimizeVirginRatio_nan_threshold_not_met :
    validateParameters 0.29 Binary64.nan 0.12 = [] ∧ (0 : Binary64) < 0.2 ∧
    Double.optimizeVirginRatio 0.29 Binary64.nan 0.12 0.2 = Except.ok
      { alphaOptimal := Binary64.fin 1
        piStock :=
          [Binary64.fin (5584463537939415/9007199254740992),
          Binary64.fin (5944751508129055/18014398509481984),
          Binary64.fin (5764607523034235/144115188075855872),
          Binary64.fin (5764607523034235/576460752303423488), Binary64.fin 0]
        quality := Binary64.fin (4273916046374601/4503599627370496)
        degradedFraction := Binary64.fin 0
        iterations := 2
        converged := true } ∧
    ¬ (Binary64.fin (4273916046374601/4503599627370496) ≥ Binary64.nan) := by
  refine ⟨by decide!, by decide!, by decide!, by decide!⟩

/-- C22 (amended): for three parameters that are numbers, not `NaN`, accepted by
`validateParameters`, and a tolerance above `0`, `optimizeVirginRatio` returns a
record whose `quality` is at least the threshold and whose `degradedFraction`
is at most the limit.  The ratio `1.0`
meets both constraints, after any number of passes `alphaMax` is `1.0` or a
midpoint that met them, and the two fields are computed from the steady state
at the `alphaMax` returned. -/
theorem optimizeVirginRatio_validated_feasible
    (packingDensity qualityThreshold degradedLimit tolerance : ℚ)
    (hvalid : validateParameters (Binary64.fin packingDensity)
      (Binary64.fin qualityThreshold) (Binary64.fin degradedLimit) = [])
    (_htol : 0 < tolerance) :
    (∃ v1, calculateSteadyState 1.0 = Except.ok v1 ∧
      constraintsMet qualityThreshold degradedLimit v1 = true) ∧
    (∀ (passes : Nat) (s : Bracket),
      bisect qualityThreshold degradedLimit tolerance passes
        { alphaMin := packingDensity, alphaMax := 1.0, iterations := 0 } = Except.ok s →
      s.alphaMax = 1.0 ∨ ∃ piStock, calculateSteadyState s.alphaMax = Except.ok piStock ∧
        constraintsMet qualityThreshold degradedLimit piStock = true) ∧
    (∃ r, optimizeVirginRatio packingDensity qualityThreshold degradedLimit tolerance =
        Except.ok r ∧
      calculateSteadyState r.alphaOptimal = Except.ok r.piStock ∧
      r.quality = calculateQuality r.piStock ∧
      r.degradedFraction = r.piStock.getD 4 0 ∧
      r.quality ≥ qualityThreshold ∧ r.degradedFraction ≤ degradedLimit) := by
  obtain ⟨⟨hp, hp1⟩, ⟨hq, hq1⟩, ⟨hd, -⟩⟩ := validateParameters_nil hvalid
  have hp1' : packingDensity ≤ 1 := le_trans hp1 (by norm_num)
  have hq : 0.4 ≤ qualityThreshold := le_trans (by norm_num) hq
  have hq1 : qualityThreshold ≤ 0.949 := le_trans hq1 (by norm_num)
  refine ⟨?_, ?_, ?_⟩
  · refine ⟨renewalSolution 1.0, calculateSteadyState_ok (by norm_num), ?_⟩
    rw [one_eq]
    exact constraintsMet_one hq1 hd
  · intro passes s hs
    exact bisect_alphaMax_feasible qualityThreshold degradedLimit tolerance passes _ s
      (Or.inl rfl) hs
  · obtain ⟨r, hr, -, hpi, hquality, hdegraded, -, -, hfeas⟩ :=
      optimizeVirginRatio_feasible tolerance hp hp1' hq hq1 hd
    simp only [constraintsMet, decide_eq_true_eq] at hfeas
    refine ⟨r, hr, hpi, hquality, hdegraded, ?_, ?_⟩
    · rw [hquality]
      exact hfeas.1
    · rw [hdegraded]
      exact hfeas.2

/-- C22 (amended) at the default thresholds, packing density `0.29` and tolerance
`0.2`. -/
theorem optimizeVirginRatio_validated_feasible_witness :
    ∃ r, optimizeVirginRatio 0.29 0.60 0.12 0.2 = Except.ok r ∧
      calculateSteadyState r.alphaOptimal = Except.ok r.piStock ∧
      r.quality = calculateQuality r.piStock ∧
      r.degradedFraction = r.piStock.getD 4 0 ∧
      r.quality ≥ 0.60 ∧ r.degradedFraction ≤ 0.12 :=
  (optimizeVirginRatio_validated_feasible 0.29 0.60 0.12 0.2 (by decide!) (by norm_num)).2.2

end MarkovPowderModel
